import Mathlib

/-!
# XCSF: hyperrectangle conditions, the evolutionary algorithm, the loss and the convolutional layer

A shallow embedding of `xcsf/cond_rect.c`, `xcsf/ea.c`, `xcsf/loss.c` and
`xcsf/neural_layer_convolutional.c`.

Modelling conventions.

* A C `double` is a rational number (`ℚ`).  Except where stated, comparisons
  and field arithmetic are exact: there is no rounding, no infinity and no NaN.
* Where rounding matters, in `loss_mse` and in `cond_rect_general_double`,
  every operation delivers the IEEE 754 binary64 rounding of its exact result
  (`double`: round to nearest, halfway cases to even, gradual underflow), each
  operation is rounded on its own (no extended precision, no fused
  multiply-add), and a result that is not a finite number is `none`.
* A C array is a `List`; reading index `i` is `List.getD _ i 0` and writing is
  `List.set`.  Every theorem that depends on an access being inside the array
  carries the corresponding length hypothesis.
* The global pseudo-random generator is an explicit value of type `Rng` that
  is threaded through every function calling it.  The successive results of
  the generator are given by two oracle streams, one for the real-valued
  draws and one for the integer-valued draws.
* In `ea.c`, pointers to classifiers are natural numbers (`Ptr`) into a store
  (`Heap`); pointer aliasing is therefore visible in the model.  The functions
  of `cond_rect.c` take and return the classifier they point to.
* Functions defined in files outside the modelled ones are parameters (`Ext`,
  `sam_adapt`) or, where a statement depends on what they do, definitions
  following the specification; the latter say so in their documentation.
* A `for`/`while` loop is a recursive function on the loop variable whose
  guard is the loop condition of the source.
-/

namespace Xcsf

/-! ## Random number generator -/

/-- The state of the pseudo-random generator: the stream of values that the
coming calls of `drand` / `rand_uniform` will return, and the stream of values
that the coming calls of `irand` / `rand_uniform_int` will return. -/
structure Rng where
  real : Nat → ℚ
  int : Nat → Int

/-- The call `drand()`: the next real-valued draw and the advanced generator. -/
def drand (rng : Rng) : ℚ × Rng :=
  (rng.real 0, { rng with real := fun n => rng.real (n + 1) })

/-- The call `irand(min, max)`: the next integer-valued draw and the advanced
generator.  The source of `irand` is not part of the modelled files; the
range of its result is a hypothesis wherever it matters. -/
def irand (_min _max : Int) (rng : Rng) : Int × Rng :=
  (rng.int 0, { rng with int := fun n => rng.int (n + 1) })

/-- Every real-valued draw of the generator lies in `[0, 1)`. -/
def Rng.unit (rng : Rng) : Prop :=
  ∀ n, 0 ≤ rng.real n ∧ rng.real n < 1

/-! ## Data structures -/

/-- The payload of a hyperrectangle condition (`struct COND_RECT`):
`interval[2i]` is the lower and `interval[2i+1]` the upper bound of
dimension `i`. -/
structure COND_RECT where
  interval : List ℚ := []
  interval_length : Nat := 0
  m : Bool := false
  mu : List ℚ := []

/-- A classifier (`struct Cl`, `CL` in `cond_rect.c`): its condition payload
and the bookkeeping fields read and written by the modelled functions. -/
structure Cl where
  cond : COND_RECT := {}
  err : ℚ := 0
  fit : ℚ := 0
  num : Int := 1
  exp : Int := 0
  size : Int := 0
  time : Int := 0

/-- The name of the classifier type in `cond_rect.c`. -/
abbrev CL := Cl

/-- A pointer to a classifier. -/
abbrev Ptr := Nat

/-- A set of classifiers (`struct Set`): the linked list of classifier
pointers, the number of list nodes and the numerosity counter. -/
structure Set where
  list : List Ptr := []
  size : Int := 0
  num : Int := 0

/-- The value of the function pointer `xcsf->loss_ptr`: the address of one of
the loss functions of `loss.c`. -/
inductive LossPtr where
  | loss_mse
  | loss_rmse
  deriving DecidableEq, Repr

/-- The fields of the global `XCSF` structure used by the modelled code.  The
field `loss_ptr` is `none` while no loss function has been installed. -/
structure XCSF where
  num_x_vars : Nat := 0
  num_y_vars : Nat := 0
  LOSS_FUNC : Int := 0
  loss_ptr : Option LossPtr := none
  MIN_CON : ℚ := 0
  MAX_CON : ℚ := 0
  S_MUTATION : ℚ := 0
  P_CROSSOVER : ℚ := 0
  P_MUTATION : ℚ := 0
  NUM_SAM : Int := 0
  ERR_REDUC : ℚ := 0
  FIT_REDUC : ℚ := 0
  EA_SUBSUMPTION : Bool := false
  EA_SELECT_TYPE : Int := 0
  EA_SELECT_SIZE : ℚ := 0
  THETA_EA : ℚ := 0
  LAMBDA : Int := 0
  time : Int := 0
  pset : Set := {}

/-- The shape that `cond_rect_init` gives a condition: `interval_length` is
`num_x_vars * 2` and `interval` is an array of that many doubles. -/
def COND_RECT.shaped (xcsf : XCSF) (cond : COND_RECT) : Prop :=
  cond.interval_length = xcsf.num_x_vars * 2 ∧ cond.interval.length = cond.interval_length

/-- The lower bound of dimension `i`. -/
def COND_RECT.lower (cond : COND_RECT) (i : Nat) : ℚ := cond.interval.getD (2 * i) 0

/-- The upper bound of dimension `i`. -/
def COND_RECT.upper (cond : COND_RECT) (i : Nat) : ℚ := cond.interval.getD (2 * i + 1) 0

/-- The condition with lower bounds `center - spread` and upper bounds
`center + spread`, as the interval array `lower₀, upper₀, lower₁, upper₁, …`. -/
def COND_RECT.ofCenterSpread : List ℚ → List ℚ → List ℚ
  | c :: cs, s :: ss => (c - s) :: (c + s) :: COND_RECT.ofCenterSpread cs ss
  | _, _ => []

/-! ## `cond_rect.c` -/

/-- The function `cond_rect_bounds(xcsf, a, b)` on the two doubles pointed to:
clamp each to `[MIN_CON, MAX_CON]`, then put them in order. -/
def cond_rect_bounds (xcsf : XCSF) (a b : ℚ) : ℚ × ℚ :=
  let a := if a < xcsf.MIN_CON then xcsf.MIN_CON
           else if a > xcsf.MAX_CON then xcsf.MAX_CON else a
  let b := if b < xcsf.MIN_CON then xcsf.MIN_CON
           else if b > xcsf.MAX_CON then xcsf.MAX_CON else b
  if a > b then (b, a) else (a, b)

/-- The loop of `cond_rect_rand` from index `i` on. -/
def cond_rect_rand_loop (xcsf : XCSF) (len : Nat) (interval : List ℚ) (rng : Rng)
    (i : Nat) : List ℚ × Rng :=
  if i < len then
    let d1 := drand rng
    let interval := interval.set i (((xcsf.MAX_CON - xcsf.MIN_CON) * d1.1) + xcsf.MIN_CON)
    let d2 := drand d1.2
    let interval := interval.set (i + 1) (((xcsf.MAX_CON - xcsf.MIN_CON) * d2.1) + xcsf.MIN_CON)
    let ab := cond_rect_bounds xcsf (interval.getD i 0) (interval.getD (i + 1) 0)
    let interval := (interval.set i ab.1).set (i + 1) ab.2
    cond_rect_rand_loop xcsf len interval d2.2 (i + 2)
  else (interval, rng)
termination_by len - i

/-- The function `cond_rect_rand`. -/
def cond_rect_rand (xcsf : XCSF) (c : CL) (rng : Rng) : CL × Rng :=
  let r := cond_rect_rand_loop xcsf c.cond.interval_length c.cond.interval rng 0
  ({ c with cond := { c.cond with interval := r.1 } }, r.2)

/-- The loop of `cond_rect_cover` from index `i` on. -/
def cond_rect_cover_loop (xcsf : XCSF) (x : List ℚ) (len : Nat) (interval : List ℚ)
    (rng : Rng) (i : Nat) : List ℚ × Rng :=
  if i < len then
    let d1 := drand rng
    let interval := interval.set i (x.getD (i / 2) 0 - (xcsf.S_MUTATION * d1.1))
    let d2 := drand d1.2
    let interval := interval.set (i + 1) (x.getD (i / 2) 0 + (xcsf.S_MUTATION * d2.1))
    let ab := cond_rect_bounds xcsf (interval.getD i 0) (interval.getD (i + 1) 0)
    let interval := (interval.set i ab.1).set (i + 1) ab.2
    cond_rect_cover_loop xcsf x len interval d2.2 (i + 2)
  else (interval, rng)
termination_by len - i

/-- The function `cond_rect_cover`. -/
def cond_rect_cover (xcsf : XCSF) (c : CL) (x : List ℚ) (rng : Rng) : CL × Rng :=
  let r := cond_rect_cover_loop xcsf x c.cond.interval_length c.cond.interval rng 0
  ({ c with cond := { c.cond with interval := r.1 } }, r.2)

/-- The loop of `cond_rect_match` from index `i` on: `false` as soon as a state
variable lies outside its interval, `true` when the loop runs to its end. -/
def cond_rect_match_loop (interval : List ℚ) (len : Nat) (x : List ℚ) (i : Nat) : Bool :=
  if i < len then
    if x.getD (i / 2) 0 < interval.getD i 0 || x.getD (i / 2) 0 > interval.getD (i + 1) 0 then
      false
    else cond_rect_match_loop interval len x (i + 2)
  else true
termination_by len - i

/-- The function `cond_rect_match`: the classifier with the match flag `m`
stored, and the returned value. -/
def cond_rect_match (_xcsf : XCSF) (c : CL) (x : List ℚ) : CL × Bool :=
  let r := cond_rect_match_loop c.cond.interval c.cond.interval_length x 0
  ({ c with cond := { c.cond with m := r } }, r)

/-- The function `cond_rect_match_state`. -/
def cond_rect_match_state (_xcsf : XCSF) (c : CL) : Bool := c.cond.m

/-- The call `memcpy(dst, src, sizeof(double) * n)` on arrays of doubles. -/
def memcpy (dst src : List ℚ) (n : Nat) : List ℚ := src.take n ++ dst.drop n

/-- The crossover points of `cond_rect_crossover` computed from the two
integer draws `r1 = irand(0, length)` and `r2 = irand(0, length)`. -/
def cond_rect_crossover_points (r1 r2 : Int) : Int × Int :=
  let p1 := r1
  let p2 := r2 + 1
  if p1 > p2 then (p2, p1)
  else if p1 = p2 then (p1, p2 + 1)
  else (p1, p2)

/-- The swap loop of `cond_rect_crossover` from index `i` on; `cl1`, `cl2` are
the copies taken before the loop, `i1`, `i2` the two interval arrays.  The
index is an `int`; the arrays are read and written at `i.toNat`. -/
def cond_rect_crossover_loop (cl1 cl2 : List ℚ) (p2 : Int) (i1 i2 : List ℚ)
    (changed : Bool) (i : Int) : List ℚ × List ℚ × Bool :=
  if i < p2 then
    if cl1.getD i.toNat 0 ≠ cl2.getD i.toNat 0 then
      let help := i1.getD i.toNat 0
      cond_rect_crossover_loop cl1 cl2 p2 (i1.set i.toNat (cl2.getD i.toNat 0))
        (i2.set i.toNat help) true (i + 1)
    else cond_rect_crossover_loop cl1 cl2 p2 i1 i2 changed (i + 1)
  else (i1, i2, changed)
termination_by (p2 - i).toNat
decreasing_by all_goals omega

/-- The function `cond_rect_crossover` on two distinct classifiers: both
classifiers afterwards, the returned value and the advanced generator. -/
def cond_rect_crossover (xcsf : XCSF) (c1 c2 : CL) (rng : Rng) : CL × CL × Bool × Rng :=
  let length := c1.cond.interval_length
  let d := drand rng
  if d.1 < xcsf.P_CROSSOVER then
    let r1 := irand 0 length d.2
    let r2 := irand 0 length r1.2
    let p := cond_rect_crossover_points r1.1 r2.1
    let cl1 := c1.cond.interval.take length
    let cl2 := c2.cond.interval.take length
    let r := cond_rect_crossover_loop cl1 cl2 p.2 c1.cond.interval c2.cond.interval false p.1
    if r.2.2 then
      ({ c1 with cond := { c1.cond with interval := memcpy r.1 cl1 length } },
       { c2 with cond := { c2.cond with interval := memcpy r.2.1 cl2 length } }, true, r2.2)
    else
      ({ c1 with cond := { c1.cond with interval := r.1 } },
       { c2 with cond := { c2.cond with interval := r.2.1 } }, false, r2.2)
  else (c1, c2, false, d.2)

/-- The loop of `cond_rect_mutate` from index `i` on, with the mutation
probability `pm` (`xcsf->P_MUTATION`) and the step size `step`. -/
def cond_rect_mutate_loop (xcsf : XCSF) (pm step : ℚ) (len : Nat) (interval : List ℚ)
    (mod : Bool) (rng : Rng) (i : Nat) : List ℚ × Bool × Rng :=
  if i < len then
    let d1 := drand rng
    let s1 : List ℚ × Bool × Rng :=
      if d1.1 < pm then
        let e := drand d1.2
        (interval.set i (interval.getD i 0 + ((e.1 * 2) - 1) * step), true, e.2)
      else (interval, mod, d1.2)
    let d2 := drand s1.2.2
    let s2 : List ℚ × Bool × Rng :=
      if d2.1 < pm then
        let e := drand d2.2
        (s1.1.set (i + 1) (s1.1.getD (i + 1) 0 + ((e.1 * 2) - 1) * step), true, e.2)
      else (s1.1, s1.2.1, d2.2)
    let ab := cond_rect_bounds xcsf (s2.1.getD i 0) (s2.1.getD (i + 1) 0)
    cond_rect_mutate_loop xcsf pm step len ((s2.1.set i ab.1).set (i + 1) ab.2) s2.2.1 s2.2.2
      (i + 2)
  else (interval, mod, rng)
termination_by len - i

/-- The function `cond_rect_mutate`.  The self-adaptation routine `sam_adapt`,
which rewrites the rate vector `mu` using the generator, is defined outside
the modelled files and is a parameter.  The result is the `XCSF` structure
(whose `P_MUTATION` the function overwrites), the classifier, the returned
value and the advanced generator. -/
def cond_rect_mutate (sam_adapt : XCSF → List ℚ → Rng → List ℚ × Rng) (xcsf : XCSF) (c : CL)
    (rng : Rng) : XCSF × CL × Bool × Rng :=
  let step := xcsf.S_MUTATION
  let a : XCSF × List ℚ × ℚ × Rng :=
    if xcsf.NUM_SAM > 0 then
      let r := sam_adapt xcsf c.cond.mu rng
      ({ xcsf with P_MUTATION := r.1.getD 0 0 }, r.1,
        if xcsf.NUM_SAM > 1 then r.1.getD 1 0 else step, r.2)
    else (xcsf, c.cond.mu, step, rng)
  let r := cond_rect_mutate_loop a.1 a.1.P_MUTATION a.2.2.1 c.cond.interval_length
    c.cond.interval false a.2.2.2 0
  (a.1, { c with cond := { c.cond with interval := r.1, mu := a.2.1 } }, r.2.1, r.2.2)

/-- The loop of `cond_rect_subsumes` from index `i` on. -/
def cond_rect_subsumes_loop (i1 i2 : List ℚ) (len : Nat) (i : Nat) : Bool :=
  if i < len then
    if i1.getD i 0 > i2.getD i 0 || i1.getD (i + 1) 0 < i2.getD (i + 1) 0 then false
    else cond_rect_subsumes_loop i1 i2 len (i + 2)
  else true
termination_by len - i

/-- The function `cond_rect_subsumes`. -/
def cond_rect_subsumes (_xcsf : XCSF) (c1 c2 : CL) : Bool :=
  cond_rect_subsumes_loop c1.cond.interval c2.cond.interval c1.cond.interval_length 0

/-- The first loop of `cond_rect_general`: `max` accumulated from index `i` on. -/
def cond_rect_general_max (xcsf : XCSF) (max : ℚ) (i : Nat) : ℚ :=
  if i < xcsf.num_x_vars then
    cond_rect_general_max xcsf (max + (xcsf.MAX_CON - xcsf.MIN_CON + 1)) (i + 1)
  else max
termination_by xcsf.num_x_vars - i

/-- The second loop of `cond_rect_general`: `gen1` and `gen2` accumulated from
index `i` on. -/
def cond_rect_general_loop (i1 i2 : List ℚ) (len : Nat) (gen1 gen2 : ℚ) (i : Nat) : ℚ × ℚ :=
  if i < len then
    cond_rect_general_loop i1 i2 len (gen1 + (i1.getD (i + 1) 0 - i1.getD i 0 + 1))
      (gen2 + (i2.getD (i + 1) 0 - i2.getD i 0 + 1)) (i + 2)
  else (gen1, gen2)
termination_by len - i

/-- The function `cond_rect_general` in exact arithmetic; with the rounding of
every operation it is `cond_rect_general_double`. -/
def cond_rect_general (xcsf : XCSF) (c1 c2 : CL) : Bool :=
  let max := cond_rect_general_max xcsf 0 0
  let g := cond_rect_general_loop c1.cond.interval c2.cond.interval c1.cond.interval_length 0 0 0
  if g.1 / max > g.2 / max then false else true

/-! ## Program state of `ea.c` -/

/-- The classifier store: the classifier a pointer points to. -/
abbrev Heap := Ptr → Cl

/-- The program state seen by `ea.c`: the global `XCSF` structure, the
classifier store, the next pointer `malloc` will hand out, the pointers
passed to `cl_free` so far, and the random number generator. -/
structure State where
  xcsf : XCSF := {}
  heap : Heap := fun _ => {}
  next : Ptr := 0
  freed : List Ptr := []
  rng : Rng := { real := fun _ => 0, int := fun _ => 0 }

/-- The functions called by `ea.c` that are defined in files outside the
modelled ones and whose behaviour the modelled code does not depend on.
Each is a parameter: a reader of the state or a state transformer. -/
structure Ext where
  /-- The call `cl_subsumer(xcsf, c)`: whether the classifier may subsume others. -/
  cl_subsumer : XCSF → Cl → Bool
  /-- The call `cl_general(xcsf, c1, c2)`: whether `c1` is more general than `c2`. -/
  cl_general : XCSF → Cl → Cl → Bool
  /-- The call `cl_init(xcsf, c, size, time)`. -/
  cl_init : State → Ptr → Int → Int → State
  /-- The call `cl_copy(xcsf, to, from)`. -/
  cl_copy : State → Ptr → Ptr → State
  /-- The call `cl_crossover(xcsf, c1, c2)` and its returned value. -/
  cl_crossover : State → Ptr → Ptr → Bool × State
  /-- The call `cl_mutate(xcsf, c)` and its returned value. -/
  cl_mutate : State → Ptr → Bool × State
  /-- The call `clset_pop_enforce_limit(xcsf)`. -/
  clset_pop_enforce_limit : State → State

/-- The call `rand_uniform(min, max)`: the next real-valued draw and the
advanced generator.  The range of the result is a hypothesis wherever it
matters. -/
def rand_uniform (_min _max : ℚ) (rng : Rng) : ℚ × Rng := drand rng

/-- The call `rand_uniform_int(min, max)`: the next integer-valued draw and the
advanced generator.  The range of the result is a hypothesis wherever it
matters. -/
def rand_uniform_int (_min _max : Int) (rng : Rng) : Int × Rng := irand _min _max rng

/-- The call `malloc(sizeof(struct Cl))`: a pointer that was never handed out
before. -/
def malloc (s : State) : Ptr × State := (s.next, { s with next := s.next + 1 })

/-- Modelled from the spec: `cl_free` (defined in `cl.c`) destroys the
classifier; the model records the pointer as freed. -/
def cl_free (s : State) (c : Ptr) : State := { s with freed := c :: s.freed }

/-- Modelled from the spec: `clset_add` (defined in `clset.c`) inserts the
classifier into the set and keeps the numerosity counter equal to the sum over
the members: a new list node, one more in `size`, and `num` grown by the
numerosity of the classifier. -/
def clset_add (heap : Heap) (set : Set) (c : Ptr) : Set :=
  { list := c :: set.list, size := set.size + 1, num := set.num + (heap c).num }

/-- Modelled from the spec: `clset_mean_time` (defined in `clset.c`) is the
numerosity-weighted mean of the `time` fields of the classifiers in the set. -/
def clset_mean_time (heap : Heap) (set : Set) : ℚ :=
  ((set.list.map fun p => (heap p).time * (heap p).num).sum : Int) /
    ((set.list.map fun p => (heap p).num).sum : Int)

/-- Modelled from the spec: `clset_set_times` (defined in `clset.c`) sets the
`time` of every classifier in the set to the current clock `xcsf->time`. -/
def clset_set_times (s : State) (set : Set) : State :=
  let t := s.xcsf.time
  let heap := set.list.foldl
    (fun h p => let c := h p; Function.update h p { c with time := t }) s.heap
  { s with heap := heap }

/-- Modelled from the spec: `clset_total_fit` (defined in `clset.c`) is the sum
of the fitnesses of the classifiers in the set. -/
def clset_total_fit (heap : Heap) (set : Set) : ℚ :=
  (set.list.map fun p => (heap p).fit).sum

/-- The statement `++(p->num)`. -/
def incr_num (s : State) (p : Ptr) : State :=
  let c := s.heap p
  { s with heap := Function.update s.heap p { c with num := c.num + 1 } }

/-- The statement `++(xcsf->pset.num)`. -/
def incr_pset_num (s : State) : State :=
  { s with xcsf := { s.xcsf with pset := { s.xcsf.pset with num := s.xcsf.pset.num + 1 } } }

/-- The statement `++(xcsf->time)`. -/
def incr_time (s : State) : State :=
  { s with xcsf := { s.xcsf with time := s.xcsf.time + 1 } }

/-- The statement `p->err = v`. -/
def set_err (s : State) (p : Ptr) (v : ℚ) : State :=
  let c := s.heap p
  { s with heap := Function.update s.heap p { c with err := v } }

/-- The statement `p->fit = v`. -/
def set_fit (s : State) (p : Ptr) (v : ℚ) : State :=
  let c := s.heap p
  { s with heap := Function.update s.heap p { c with fit := v } }

/-! ## `ea.c` -/

/-- The function `ea_init_offspring`, one assignment after the other. -/
def ea_init_offspring (s : State) (c1p c2p c1 c2 : Ptr) (cmod : Bool) : State :=
  if cmod then
    let s := set_err s c1 (s.xcsf.ERR_REDUC * (((s.heap c1p).err + (s.heap c2p).err) * 0.5))
    let s := set_err s c2 (s.heap c1).err
    let s := set_fit s c1 ((s.heap c1p).fit / (s.heap c1p).num)
    let s := set_fit s c2 ((s.heap c2p).fit / (s.heap c2p).num)
    let s := set_fit s c1 (s.xcsf.FIT_REDUC * (((s.heap c1).fit + (s.heap c2).fit) * 0.5))
    set_fit s c2 (s.heap c1).fit
  else
    let s := set_err s c1 (s.xcsf.ERR_REDUC * (s.heap c1p).err)
    let s := set_err s c2 (s.xcsf.ERR_REDUC * (s.heap c2p).err)
    let s := set_fit s c1 (s.xcsf.FIT_REDUC * ((s.heap c1p).fit / (s.heap c1p).num))
    set_fit s c2 (s.xcsf.FIT_REDUC * ((s.heap c2p).fit / (s.heap c2p).num))

/-- The loop of `ea_subsume` over the list of the set: the array `candidates`
filled so far is extended by every classifier that is a subsumer and more
general than the offspring `c`; `choices` is the length of the result. -/
def ea_subsume_loop (E : Ext) (s : State) (c : Ptr) : List Ptr → List Ptr → List Ptr
  | [], candidates => candidates
  | iter :: next, candidates =>
    if E.cl_subsumer s.xcsf (s.heap iter) && E.cl_general s.xcsf (s.heap iter) (s.heap c) then
      ea_subsume_loop E s c next (candidates ++ [iter])
    else ea_subsume_loop E s c next candidates

/-- The function `ea_subsume`.  The result is `none` when the integer drawn
by `rand_uniform_int(0, choices)` is not an index of `candidates`. -/
def ea_subsume (E : Ext) (s : State) (c c1p c2p : Ptr) (set : Set) : Option State :=
  if E.cl_subsumer s.xcsf (s.heap c1p) && E.cl_general s.xcsf (s.heap c1p) (s.heap c) then
    some (cl_free (incr_pset_num (incr_num s c1p)) c)
  else if E.cl_subsumer s.xcsf (s.heap c2p) && E.cl_general s.xcsf (s.heap c2p) (s.heap c) then
    some (cl_free (incr_pset_num (incr_num s c2p)) c)
  else
    let candidates := ea_subsume_loop E s c set.list []
    let choices : Int := candidates.length
    if choices > 0 then
      let r := rand_uniform_int 0 choices s.rng
      if 0 ≤ r.1 ∧ r.1 < choices then
        some (cl_free (incr_pset_num (incr_num { s with rng := r.2 }
          (candidates.getD r.1.toNat 0))) c)
      else none
    else some { s with xcsf := { s.xcsf with pset := clset_add s.heap s.xcsf.pset c } }

/-- The function `ea_add`. -/
def ea_add (E : Ext) (s : State) (set : Set) (c1p c2p c1 : Ptr) (cmod mmod : Bool) :
    Option State :=
  if !cmod && !mmod then
    some (cl_free (incr_pset_num (incr_num s c1p)) c1)
  else if s.xcsf.EA_SUBSUMPTION then
    ea_subsume E s c1 c1p c2p set
  else some { s with xcsf := { s.xcsf with pset := clset_add s.heap s.xcsf.pset c1 } }

/-- The loop of `ea_select_rw`: `iter` is the current list node, `next` the
nodes after it, `sum` the fitness accumulated so far.  The result is `none`
when the loop steps past the last node. -/
def ea_select_rw_loop (heap : Heap) (p : ℚ) (iter : Ptr) (next : List Ptr) (sum : ℚ) :
    Option Ptr :=
  if p > sum then
    match next with
    | [] => none
    | iter' :: next' => ea_select_rw_loop heap p iter' next' (sum + (heap iter').fit)
  else some iter

/-- The function `ea_select_rw`; `none` when the set is empty or the loop
steps past the last node. -/
def ea_select_rw (s : State) (set : Set) (fit_sum : ℚ) : Option (Ptr × State) :=
  let p := rand_uniform 0 fit_sum s.rng
  match set.list with
  | [] => none
  | iter :: next =>
    (ea_select_rw_loop s.heap p.1 iter next (s.heap iter).fit).map
      fun w => (w, { s with rng := p.2 })

/-- The inner loop of `ea_select_tournament`: one scan of the list with the
current `winner` (`none` is `NULL`). -/
def ea_select_tournament_scan (s : State) : List Ptr → Option Ptr → Rng → Option Ptr × Rng
  | [], winner, rng => (winner, rng)
  | iter :: next, winner, rng =>
    let d := rand_uniform 0 1 rng
    if d.1 < s.xcsf.EA_SELECT_SIZE &&
        (match winner with
         | none => true
         | some w => (s.heap iter).fit > (s.heap w).fit) then
      ea_select_tournament_scan s next (some iter) d.2
    else ea_select_tournament_scan s next winner d.2

/-- The function `ea_select_tournament`: the scan is repeated while there is
no winner, at most `fuel` times; `none` when the fuel runs out. -/
def ea_select_tournament : Nat → State → Set → Option (Ptr × State)
  | 0, _, _ => none
  | fuel + 1, s, set =>
    let r := ea_select_tournament_scan s set.list none s.rng
    match r.1 with
    | some winner => some (winner, { s with rng := r.2 })
    | none => ea_select_tournament fuel { s with rng := r.2 } set

/-- The constant `EA_SELECT_ROULETTE`. -/
def EA_SELECT_ROULETTE : Int := 0

/-- The constant `EA_SELECT_TOURNAMENT`. -/
def EA_SELECT_TOURNAMENT : Int := 1

/-- The function `ea_select`: the two parents and the state afterwards. -/
def ea_select (fuel : Nat) (s : State) (set : Set) : Option (Ptr × Ptr × State) :=
  if s.xcsf.EA_SELECT_TYPE = EA_SELECT_ROULETTE then
    let fit_sum := clset_total_fit s.heap set
    match ea_select_rw s set fit_sum with
    | none => none
    | some (c1p, s1) =>
      match ea_select_rw s1 set fit_sum with
      | none => none
      | some (c2p, s2) => some (c1p, c2p, s2)
  else
    match ea_select_tournament fuel s set with
    | none => none
    | some (c1p, s1) =>
      match ea_select_tournament fuel s1 set with
      | none => none
      | some (c2p, s2) => some (c1p, c2p, s2)

/-- The body of the offspring loop of `ea`: create, vary, initialise and add
the two offspring of the parents `c1p` and `c2p`. -/
def ea_offspring (E : Ext) (s : State) (set : Set) (c1p c2p : Ptr) : Option State :=
  let m1 := malloc s
  let m2 := malloc m1.2
  let c1 := m1.1
  let c2 := m2.1
  let s := E.cl_init m2.2 c1 (m2.2.heap c1p).size (m2.2.heap c1p).time
  let s := E.cl_init s c2 (s.heap c2p).size (s.heap c2p).time
  let s := E.cl_copy s c1 c1p
  let s := E.cl_copy s c2 c2p
  let cmod := E.cl_crossover s c1 c2
  let m1mod := E.cl_mutate cmod.2 c1
  let m2mod := E.cl_mutate m1mod.2 c2
  let s := ea_init_offspring m2mod.2 c1p c2p c1 c2 cmod.1
  match ea_add E s set c1p c2p c1 cmod.1 m1mod.1 with
  | none => none
  | some s => ea_add E s set c2p c1p c2 cmod.1 m2mod.1

/-- The offspring loop `for (i = 0; i * 2 < LAMBDA; ++i)` of `ea` from `i` on,
for at most `fuel` iterations; `none` when the fuel runs out. -/
def ea_loop (E : Ext) (set : Set) (c1p c2p : Ptr) : Nat → State → Int → Option State
  | fuel, s, i =>
    if i * 2 < s.xcsf.LAMBDA then
      match fuel with
      | 0 => none
      | fuel' + 1 =>
        match ea_offspring E s set c1p c2p with
        | none => none
        | some s' => ea_loop E set c1p c2p fuel' s' (i + 1)
    else some s

/-- The two ways in which `ea` returns: through the `return` of the check
whether the EA should be run, or at the end of the function body. -/
inductive EaExit where
  | skipped
  | completed
  deriving DecidableEq, Repr

/-- The part of `ea` after the check whether the EA should be run: set the
times, select the parents, create the offspring, enforce the population
limit. -/
def ea_run (E : Ext) (fuel : Nat) (s : State) (set : Set) : Option (EaExit × State) :=
  let s := clset_set_times s set
  match ea_select fuel s set with
  | none => none
  | some (c1p, c2p, s) =>
    match ea_loop E set c1p c2p fuel s 0 with
    | none => none
    | some s => some (EaExit.completed, E.clset_pop_enforce_limit s)

/-- The function `ea`: how it returned and the state afterwards; `none` when
parent selection does not return a classifier, an offspring cannot be added or
the fuel runs out. -/
def ea (E : Ext) (fuel : Nat) (s : State) (set : Set) : Option (EaExit × State) :=
  let s := incr_time s
  if set.size = 0 ∨ (s.xcsf.time : ℚ) - clset_mean_time s.heap set < s.xcsf.THETA_EA then
    some (EaExit.skipped, s)
  else ea_run E fuel s set

/-! ## Predicates used in the statements about `ea.c` -/

/-- The test `cl_subsumer(xcsf, p) && cl_general(xcsf, p, c)` of `ea_subsume`:
the classifier `p` is a subsumer and more general than the offspring `c`. -/
def subsumes_offspring (E : Ext) (s : State) (c p : Ptr) : Bool :=
  E.cl_subsumer s.xcsf (s.heap p) && E.cl_general s.xcsf (s.heap p) (s.heap c)

/-- Between the states `s` and `t` the offspring `c` was discarded in favour
of the classifier `p`: the numerosity of `p` is one higher, no other
classifier has changed, the population list is as it was and `c` was freed. -/
def absorbed (s t : State) (c p : Ptr) : Prop :=
  (t.heap p).num = (s.heap p).num + 1 ∧ (∀ r, r ≠ p → t.heap r = s.heap r) ∧
    t.xcsf.pset.list = s.xcsf.pset.list ∧ t.freed = c :: s.freed

/-- Between the states `s` and `t` the offspring `c` was inserted into the
population: `c` is a new node of the population list, no classifier has
changed and nothing was freed. -/
def inserted (s t : State) (c : Ptr) : Prop :=
  t.xcsf.pset.list = c :: s.xcsf.pset.list ∧ t.heap = s.heap ∧ t.freed = s.freed

/-! ## Test data of `cond_rectangle_test.cpp` -/

/-- The test input of the rectangle test case. -/
def test_x : List ℚ := [0.8455, 0.7566, 0.3125, 0.3449, 0.3678]

/-- The parameters of the rectangle test case: five dimensions, bounds `[0, 1]`. -/
def test_xcsf : XCSF := { num_x_vars := 5, MIN_CON := 0, MAX_CON := 1 }

/-- The classifier of the rectangle test case with the given centers and spreads. -/
def test_cl (center spread : List ℚ) : CL :=
  { cond := { interval := COND_RECT.ofCenterSpread center spread, interval_length := 10 } }

/-- The matching condition of the rectangle test case. -/
def test_true : CL :=
  test_cl [0.6918, 0.7276, 0.2457, 0.2705, 0.0] [0.5881, 0.8586, 0.2310, 0.5802, 0.9674]

/-- The non-matching condition of the rectangle test case. -/
def test_false : CL :=
  test_cl [0.8992, 0.5588, 0.6347, 0.0464, 0.4214] [0.9659, 0.7107, 0.7049, 0.1036, 0.4501]

/-- The second condition of the generality test. -/
def test_small : CL :=
  test_cl [0.6, 0.7, 0.2, 0.3, 0.0] [0.1, 0.1, 0.1, 0.1, 0.1]

/-! ## Further test data -/

/-- A generator whose real-valued draws are all `0.5` and whose integer-valued
draws are all `0`. -/
def half_rng : Rng := { real := fun _ => 1 / 2, int := fun _ => 0 }

/-- Parameters with one dimension, bounds `[0, 1]` and `S_MUTATION = 0.1`. -/
def cover_xcsf : XCSF := { num_x_vars := 1, MIN_CON := 0, MAX_CON := 1, S_MUTATION := 1 / 10 }

/-- A classifier with a one-dimensional condition. -/
def cover_cl : CL := { cond := { interval := [0, 0], interval_length := 2 } }

/-- Two classifiers with `time = 100`, experienced and accurate, at the
pointers `0` and `1`; every other pointer holds a fresh classifier. -/
def ea_heap : Heap := fun p =>
  if p = 0 then { err := 1 / 1000, fit := 1, num := 1, exp := 30, time := 100 }
  else if p = 1 then { err := 1 / 1000, fit := 2, num := 1, exp := 30, time := 100 }
  else {}

/-- A state with `THETA_EA = 50`, `LAMBDA = 2`, the clock at `t`, the two
classifiers of `ea_heap` as the population and roulette wheel selection. -/
def ea_state (t : Int) : State :=
  { xcsf := { THETA_EA := 50, LAMBDA := 2, time := t, ERR_REDUC := 1, FIT_REDUC := 1 / 10,
              EA_SUBSUMPTION := true, pset := { list := [0, 1], size := 2, num := 2 } },
    heap := ea_heap, next := 2 }

/-- The set holding both classifiers of `ea_heap`. -/
def ea_set : Set := { list := [0, 1], size := 2, num := 2 }

/-- An instance of the external functions: a subsumer has `exp >= 20` and
`err < 0.01`, every classifier is more general than every other, `cl_init`
stores the size and the time, `cl_copy` copies the condition, crossover
and mutation change nothing, and the population limit is never exceeded. -/
def ea_ext : Ext :=
  { cl_subsumer := fun _ c => decide (20 ≤ c.exp) && decide (c.err < 1 / 100)
    cl_general := fun _ _ _ => true
    cl_init := fun s c size time =>
      { s with heap := Function.update s.heap c { size := size, time := time } }
    cl_copy := fun s dst src =>
      let d := s.heap dst
      { s with heap := Function.update s.heap dst { d with cond := (s.heap src).cond } }
    cl_crossover := fun s _ _ => (false, s)
    cl_mutate := fun s _ => (false, s)
    clset_pop_enforce_limit := fun s => s }

/-! ## The numerosity counter -/

/-- The sum of the numerosities of the members of a set, each list node
counted once. -/
def clset_num_sum (heap : Heap) (set : Set) : Int :=
  (set.list.map fun p => (heap p).num).sum

/-- The numerosity-counter invariant of the population: every classifier is
on the population list once, and `pset.num` is the sum of the numerosities
of the members. -/
def pset_num_inv (s : State) : Prop :=
  s.xcsf.pset.list.Nodup ∧ s.xcsf.pset.num = clset_num_sum s.heap s.xcsf.pset

/-! ## Test data for crossover and mutation -/

/-- Parameters with one dimension, bounds `[0, 10]` and `P_CROSSOVER = 1`. -/
def cross_xcsf : XCSF := { num_x_vars := 1, MIN_CON := 0, MAX_CON := 10, P_CROSSOVER := 1 }

/-- The one-dimensional condition `[1, 5]`. -/
def cross_a : CL := { cond := { interval := [1, 5], interval_length := 2 } }

/-- The one-dimensional condition `[2, 9]`. -/
def cross_b : CL := { cond := { interval := [2, 9], interval_length := 2 } }

/-- The one-dimensional condition `[-1, 2]`, wider than the bounds `[0, 1]`. -/
def wide_cl : CL := { cond := { interval := [-1, 2], interval_length := 2 } }

/-- Parameters with one dimension, bounds `[0, 10]`, `S_MUTATION = 2` and
`P_MUTATION = 1`. -/
def mutate_xcsf : XCSF :=
  { num_x_vars := 1, MIN_CON := 0, MAX_CON := 10, S_MUTATION := 2, P_MUTATION := 1 }

/-- A generator whose real-valued draws are all `0.75` and whose integer-valued
draws are all `0`. -/
def late_rng : Rng := { real := fun _ => 3 / 4, int := fun _ => 0 }

/-- A self-adaptation routine that leaves the rates and the generator as they
are. -/
def sam_keep : XCSF → List ℚ → Rng → List ℚ × Rng := fun _ mu rng => (mu, rng)

/-! ## Quantities and test data used in the statements about selection and the EA -/

/-- The cumulative fitness of the first `n` classifiers of a list. -/
def cum_fit (heap : Heap) (l : List Ptr) (n : Nat) : ℚ :=
  ((l.take n).map fun p => (heap p).fit).sum

/-- The generator after `n` further real-valued draws. -/
def Rng.advance (rng : Rng) (n : Nat) : Rng :=
  { rng with real := fun m => rng.real (m + n) }

/-- A generator whose first two real-valued draws are `1` and whose later
ones are `0`. -/
def tour_rng : Rng := { real := fun n => if n < 2 then 1 else 0, int := fun _ => 0 }

/-- A state with the two classifiers of `ea_heap`, tournament selection with
`EA_SELECT_SIZE = 0.5` and the generator `tour_rng`. -/
def tour_state : State :=
  { xcsf := { EA_SELECT_TYPE := 1, EA_SELECT_SIZE := 1 / 2,
              pset := { list := [0, 1], size := 2, num := 2 } },
    heap := ea_heap, next := 2, rng := tour_rng }

/-- The functions outside the modelled files leave the clock `xcsf->time` as
it is. -/
def Ext.keeps_time (E : Ext) : Prop :=
  (∀ s c size time, (E.cl_init s c size time).xcsf.time = s.xcsf.time) ∧
  (∀ s dst src, (E.cl_copy s dst src).xcsf.time = s.xcsf.time) ∧
  (∀ s c1 c2, (E.cl_crossover s c1 c2).2.xcsf.time = s.xcsf.time) ∧
  (∀ s c, (E.cl_mutate s c).2.xcsf.time = s.xcsf.time) ∧
  (∀ s, (E.clset_pop_enforce_limit s).xcsf.time = s.xcsf.time)

/-- The local variables of the body of the offspring loop of `ea` at the first
call of `ea_add`: the two offspring, the three modification flags and the
state. -/
structure Offspring where
  c1 : Ptr
  c2 : Ptr
  cmod : Bool
  m1mod : Bool
  m2mod : Bool
  s : State

/-- The body of the offspring loop of `ea` up to and including the call of
`ea_init_offspring`. -/
def ea_offspring_init (E : Ext) (s : State) (c1p c2p : Ptr) : Offspring :=
  let m1 := malloc s
  let m2 := malloc m1.2
  let c1 := m1.1
  let c2 := m2.1
  let s := E.cl_init m2.2 c1 (m2.2.heap c1p).size (m2.2.heap c1p).time
  let s := E.cl_init s c2 (s.heap c2p).size (s.heap c2p).time
  let s := E.cl_copy s c1 c1p
  let s := E.cl_copy s c2 c2p
  let cmod := E.cl_crossover s c1 c2
  let m1mod := E.cl_mutate cmod.2 c1
  let m2mod := E.cl_mutate m1mod.2 c2
  { c1 := c1, c2 := c2, cmod := cmod.1, m1mod := m1mod.1, m2mod := m2mod.1,
    s := ea_init_offspring m2mod.2 c1p c2p c1 c2 cmod.1 }

/-- The external functions `ea_ext`, except that `cl_mutate` changes the
classifier at the pointer `c` (it returns `true` for it) and no other. -/
def mutate_ext (c : Ptr) : Ext :=
  { ea_ext with cl_mutate := fun s c' => (decide (c' = c), s) }

/-! ## `loss.c` -/

/-- The function `loss_set_func(xcsf)`: install the loss function selected by
`LOSS_FUNC`.  The result `none` is the call `exit(EXIT_FAILURE)` of the
default case. -/
def loss_set_func (xcsf : XCSF) : Option XCSF :=
  if xcsf.LOSS_FUNC = 0 then some { xcsf with loss_ptr := some LossPtr.loss_mse }
  else if xcsf.LOSS_FUNC = 1 then some { xcsf with loss_ptr := some LossPtr.loss_rmse }
  else none

/-! ## `neural_layer_convolutional.c` -/

/-- The fields of `struct Layer` used by `neural_layer_convolutional.c`.  The
`int` fields are integers; `options` (a `uint32_t`), `workspace_size` (a
`size_t`) and `layer_vptr` (a pointer) are natural numbers; the arrays are
lists; `temp` is the size in bytes of the buffer `temp`. -/
structure Layer where
  type : Int := 0
  layer_vptr : Nat := 0
  options : Nat := 0
  function : Int := 0
  height : Int := 0
  width : Int := 0
  channels : Int := 0
  n_filters : Int := 0
  stride : Int := 0
  size : Int := 0
  pad : Int := 0
  n_weights : Int := 0
  n_active : Int := 0
  out_h : Int := 0
  out_w : Int := 0
  out_c : Int := 0
  n_outputs : Int := 0
  n_inputs : Int := 0
  max_outputs : Int := 0
  max_neuron_grow : Int := 0
  n_biases : Int := 0
  eta : ℚ := 0
  eta_max : ℚ := 0
  eta_min : ℚ := 0
  momentum : ℚ := 0
  decay : ℚ := 0
  workspace_size : Nat := 0
  delta : List ℚ := []
  state : List ℚ := []
  output : List ℚ := []
  weights : List ℚ := []
  biases : List ℚ := []
  bias_updates : List ℚ := []
  weight_updates : List ℚ := []
  weight_active : List Bool := []
  temp : Nat := 0
  mu : List ℚ := []

/-- The constants and the function of `neural_layer.h` used by
`neural_layer_convolutional.c`; the header is not part of the modelled files,
so each is a parameter. -/
structure LayerExt where
  /-- The constant `N_OUTPUTS_MAX`. -/
  N_OUTPUTS_MAX : Int
  /-- The constant `N_WEIGHTS_MAX`. -/
  N_WEIGHTS_MAX : Int
  /-- The constant `CONVOLUTIONAL`. -/
  CONVOLUTIONAL : Int
  /-- The call `layer_defaults(l)` on the layer structure at `l`. -/
  layer_defaults : Layer → Layer

/-- The contents of memory returned by `malloc` or `realloc` before it is
written: of a `struct Layer` and, index by index, of the arrays that are not
cleared. -/
structure Raw where
  layer : Layer := {}
  weights : Nat → ℚ := fun _ => 0
  biases : Nat → ℚ := fun _ => 0
  weight_active : Nat → Bool := fun _ => false
  mu : Nat → ℚ := fun _ => 0
  state : Nat → ℚ := fun _ => 0
  output : Nat → ℚ := fun _ => 0
  delta : Nat → ℚ := fun _ => 0

/-- The constant `N_MU`. -/
def N_MU : Nat := 6

/-- The call `calloc(n, sizeof(double))`: an array of `n` zeros. -/
def calloc (n : Int) : List ℚ := List.replicate n.toNat 0

/-- The call `malloc(sizeof(double) * n)`: an array of `n` doubles with the
contents `raw`. -/
def malloc_double (raw : Nat → ℚ) (n : Int) : List ℚ := (List.range n.toNat).map raw

/-- The call `malloc(sizeof(bool) * n)`: an array of `n` booleans with the
contents `raw`. -/
def malloc_bool (raw : Nat → Bool) (n : Int) : List Bool := (List.range n.toNat).map raw

/-- The function `malloc_layer_arrays`.  The result `none` is the call
`exit(EXIT_FAILURE)`; the assignments before it have no effect that the
program could observe. -/
def malloc_layer_arrays (X : LayerExt) (raw : Raw) (l : Layer) : Option Layer :=
  if l.n_biases < 1 ∨ l.n_biases > X.N_OUTPUTS_MAX ∨ l.n_outputs < 1 ∨
      l.n_outputs > X.N_OUTPUTS_MAX ∨ l.n_weights < 1 ∨
      l.n_weights > X.N_WEIGHTS_MAX ∨ l.workspace_size < 1 then
    none
  else
    some { l with
      delta := calloc l.n_outputs
      state := calloc l.n_outputs
      output := calloc l.n_outputs
      weights := malloc_double raw.weights l.n_weights
      biases := malloc_double raw.biases l.n_biases
      bias_updates := calloc l.n_biases
      weight_updates := calloc l.n_weights
      weight_active := malloc_bool raw.weight_active l.n_weights
      temp := l.workspace_size
      mu := malloc_double raw.mu N_MU }

/-- The call `memcpy(dst, src, sizeof(bool) * n)` on arrays of booleans. -/
def memcpy_bool (dst src : List Bool) (n : Nat) : List Bool := src.take n ++ dst.drop n

/-- The function `neural_layer_convolutional_copy`: the new layer, or `none`
for the call `exit(EXIT_FAILURE)`. -/
def neural_layer_convolutional_copy (X : LayerExt) (raw : Raw) (src : Layer) : Option Layer :=
  if src.type ≠ X.CONVOLUTIONAL then none
  else
    let l := X.layer_defaults raw.layer
    let l := { l with
      type := src.type
      layer_vptr := src.layer_vptr
      options := src.options
      function := src.function
      height := src.height
      width := src.width
      channels := src.channels
      n_filters := src.n_filters
      stride := src.stride
      size := src.size
      pad := src.pad
      n_weights := src.n_weights
      n_active := src.n_active
      out_h := src.out_h
      out_w := src.out_w
      out_c := src.out_c
      n_outputs := src.n_outputs
      n_inputs := src.n_inputs
      max_outputs := src.max_outputs
      max_neuron_grow := src.max_neuron_grow
      n_biases := src.n_biases
      eta := src.eta
      eta_max := src.eta_max
      eta_min := src.eta_min
      workspace_size := src.workspace_size }
    match malloc_layer_arrays X raw l with
    | none => none
    | some l =>
      let l := { l with weights := memcpy l.weights src.weights src.n_weights.toNat }
      let l := { l with
        weight_active := memcpy_bool l.weight_active src.weight_active src.n_weights.toNat }
      let l := { l with biases := memcpy l.biases src.biases src.n_biases.toNat }
      some { l with mu := memcpy l.mu src.mu N_MU }

/-- Modelled from the spec: `clamp` (defined in `utils.h`) limits a value to
the range `[min, max]`. -/
def clamp (a min max : ℚ) : ℚ :=
  if a < min then min else if a > max then max else a

/-- The C library function `round` followed by the conversion to `int`: the
nearest integer, halfway cases away from zero. -/
def round (x : ℚ) : Int :=
  if 0 ≤ x then Int.floor (x + 1 / 2) else -Int.floor (-x + 1 / 2)

/-- The call `rand_normal(mu, sigma)`: the next real-valued draw and the
advanced generator.  The source of `rand_normal` is not part of the modelled
files. -/
def rand_normal (_mu _sigma : ℚ) (rng : Rng) : ℚ × Rng := drand rng

/-- The loop `while (n == 0)` of `neural_layer_convolutional_mutate_filter`,
entered with `n = 0`, for at most `fuel` iterations; `none` when the fuel
runs out. -/
def neural_layer_convolutional_mutate_filter_loop (l : Layer) : Nat → Rng → Option (Int × Rng)
  | 0, _ => none
  | fuel + 1, rng =>
    let r := rand_normal 0 0.5 rng
    let m := clamp r.1 (-1) 1
    let n := round (m * l.max_neuron_grow)
    if n = 0 then neural_layer_convolutional_mutate_filter_loop l fuel r.2
    else some (n, r.2)

/-- The function `neural_layer_convolutional_mutate_filter`: the returned
number of filters and the generator afterwards; `none` when the fuel of the
loop runs out. -/
def neural_layer_convolutional_mutate_filter (fuel : Nat) (l : Layer) (mu : ℚ) (rng : Rng) :
    Option (Int × Rng) :=
  let n : Int := 0
  let u := rand_uniform 0 0.1 rng
  if u.1 < mu then
    match neural_layer_convolutional_mutate_filter_loop l fuel u.2 with
    | none => none
    | some (n, rng) =>
      if l.n_filters + n < 1 then some (-(l.n_filters - 1), rng)
      else if l.n_filters + n > l.max_outputs then some (l.max_outputs - l.n_filters, rng)
      else some (n, rng)
  else some (n, u.2)

/-- One element of a binary file: a four-byte unsigned word, an `int`, a
`double` or a `bool`. -/
inductive Elem where
  | u32 (v : Nat)
  | int (v : Int)
  | dbl (v : ℚ)
  | bool (v : Bool)
  deriving DecidableEq, Repr

/-- The contents of a file from the current position on. -/
abbrev FILE := List Elem

/-- The statement `s += fwrite(ptr, size, nmemb, fp)`: the first `nmemb`
elements of `ptr` are appended to the file and counted.  The pair is the
count `s` and the file. -/
def fwrite (ptr : List Elem) (nmemb : Int) (w : Nat × FILE) : Nat × FILE :=
  let xs := ptr.take nmemb.toNat
  (w.1 + xs.length, w.2 ++ xs)

/-- The four bytes that `fwrite(&l->workspace_size, sizeof(int), 1, fp)` takes
from the eight-byte `size_t` on a little-endian machine: the low 32 bits. -/
def low_word (n : Nat) : Nat := n % 2 ^ 32

/-- The value of an eight-byte `size_t` after `fread` has overwritten its
first four bytes on a little-endian machine: the low 32 bits are replaced, the
high 32 bits stay. -/
def set_low_word (old v : Nat) : Nat := old / 2 ^ 32 * 2 ^ 32 + v % 2 ^ 32

/-- The function `neural_layer_convolutional_save`: the number of elements
written and the file afterwards. -/
def neural_layer_convolutional_save (l : Layer) (fp : FILE) : Nat × FILE :=
  (0, fp)
    |> fwrite [Elem.u32 l.options] 1
    |> fwrite [Elem.int l.function] 1
    |> fwrite [Elem.int l.height] 1
    |> fwrite [Elem.int l.width] 1
    |> fwrite [Elem.int l.channels] 1
    |> fwrite [Elem.int l.n_filters] 1
    |> fwrite [Elem.int l.stride] 1
    |> fwrite [Elem.int l.size] 1
    |> fwrite [Elem.int l.pad] 1
    |> fwrite [Elem.int l.out_h] 1
    |> fwrite [Elem.int l.out_w] 1
    |> fwrite [Elem.int l.out_c] 1
    |> fwrite [Elem.int l.n_biases] 1
    |> fwrite [Elem.int l.n_outputs] 1
    |> fwrite [Elem.int l.n_inputs] 1
    |> fwrite [Elem.int l.max_outputs] 1
    |> fwrite [Elem.int l.n_weights] 1
    |> fwrite [Elem.int l.n_active] 1
    |> fwrite [Elem.u32 (low_word l.workspace_size)] 1
    |> fwrite [Elem.dbl l.eta] 1
    |> fwrite [Elem.dbl l.eta_max] 1
    |> fwrite [Elem.dbl l.eta_min] 1
    |> fwrite [Elem.dbl l.momentum] 1
    |> fwrite [Elem.dbl l.decay] 1
    |> fwrite [Elem.int l.max_neuron_grow] 1
    |> fwrite (l.weights.map Elem.dbl) l.n_weights
    |> fwrite (l.weight_updates.map Elem.dbl) l.n_weights
    |> fwrite (l.weight_active.map Elem.bool) l.n_weights
    |> fwrite (l.biases.map Elem.dbl) l.n_biases
    |> fwrite (l.bias_updates.map Elem.dbl) l.n_filters
    |> fwrite (l.mu.map Elem.dbl) N_MU

/-- The statement `s += fread(&l->field, sizeof(uint32_t), 1, fp)`: when the
next element of the file is a four-byte word it is stored with `set` and
counted, otherwise nothing is read.  The triple is the layer, the count `s`
and the file. -/
def fread_u32 (set : Layer → Nat → Layer) (r : Layer × Nat × FILE) : Layer × Nat × FILE :=
  match r.2.2 with
  | Elem.u32 v :: fp => (set r.1 v, r.2.1 + 1, fp)
  | _ => r

/-- The statement `s += fread(&l->field, sizeof(int), 1, fp)`. -/
def fread_int (set : Layer → Int → Layer) (r : Layer × Nat × FILE) : Layer × Nat × FILE :=
  match r.2.2 with
  | Elem.int v :: fp => (set r.1 v, r.2.1 + 1, fp)
  | _ => r

/-- The statement `s += fread(&l->field, sizeof(double), 1, fp)`. -/
def fread_double (set : Layer → ℚ → Layer) (r : Layer × Nat × FILE) : Layer × Nat × FILE :=
  match r.2.2 with
  | Elem.dbl v :: fp => (set r.1 v, r.2.1 + 1, fp)
  | _ => r

/-- The doubles at the head of a file, at most `n` of them, and the rest of the
file. -/
def read_doubles : Nat → FILE → List ℚ × FILE
  | n + 1, Elem.dbl v :: fp => (v :: (read_doubles n fp).1, (read_doubles n fp).2)
  | _, fp => ([], fp)

/-- The booleans at the head of a file, at most `n` of them, and the rest of
the file. -/
def read_bools : Nat → FILE → List Bool × FILE
  | n + 1, Elem.bool v :: fp => (v :: (read_bools n fp).1, (read_bools n fp).2)
  | _, fp => ([], fp)

/-- The statement `s += fread(array, sizeof(double), nmemb, fp)`: the doubles
read overwrite the front of the array and are counted. -/
def fread_doubles (get : Layer → List ℚ) (set : Layer → List ℚ → Layer) (nmemb : Layer → Int)
    (r : Layer × Nat × FILE) : Layer × Nat × FILE :=
  let xs := read_doubles (nmemb r.1).toNat r.2.2
  (set r.1 (memcpy (get r.1) xs.1 xs.1.length), r.2.1 + xs.1.length, xs.2)

/-- The statement `s += fread(array, sizeof(bool), nmemb, fp)`. -/
def fread_bools (get : Layer → List Bool) (set : Layer → List Bool → Layer)
    (nmemb : Layer → Int) (r : Layer × Nat × FILE) : Layer × Nat × FILE :=
  let xs := read_bools (nmemb r.1).toNat r.2.2
  (set r.1 (memcpy_bool (get r.1) xs.1 xs.1.length), r.2.1 + xs.1.length, xs.2)

/-- The part of `neural_layer_convolutional_load` before the call of
`malloc_layer_arrays`. -/
def neural_layer_convolutional_load_header (l : Layer) (fp : FILE) : Layer × Nat × FILE :=
  (l, 0, fp)
    |> fread_u32 (fun l v => { l with options := v })
    |> fread_int (fun l v => { l with function := v })
    |> fread_int (fun l v => { l with height := v })
    |> fread_int (fun l v => { l with width := v })
    |> fread_int (fun l v => { l with channels := v })
    |> fread_int (fun l v => { l with n_filters := v })
    |> fread_int (fun l v => { l with stride := v })
    |> fread_int (fun l v => { l with size := v })
    |> fread_int (fun l v => { l with pad := v })
    |> fread_int (fun l v => { l with out_h := v })
    |> fread_int (fun l v => { l with out_w := v })
    |> fread_int (fun l v => { l with out_c := v })
    |> fread_int (fun l v => { l with n_biases := v })
    |> fread_int (fun l v => { l with n_outputs := v })
    |> fread_int (fun l v => { l with n_inputs := v })
    |> fread_int (fun l v => { l with max_outputs := v })
    |> fread_int (fun l v => { l with n_weights := v })
    |> fread_int (fun l v => { l with n_active := v })
    |> fread_u32 (fun l v => { l with workspace_size := set_low_word l.workspace_size v })
    |> fread_double (fun l v => { l with eta := v })
    |> fread_double (fun l v => { l with eta_max := v })
    |> fread_double (fun l v => { l with eta_min := v })
    |> fread_double (fun l v => { l with momentum := v })
    |> fread_double (fun l v => { l with decay := v })
    |> fread_int (fun l v => { l with max_neuron_grow := v })

/-- The part of `neural_layer_convolutional_load` after the call of
`malloc_layer_arrays`: with the count `s` so far, the arrays are read. -/
def neural_layer_convolutional_load_arrays (l : Layer) (s : Nat) (fp : FILE) :
    Layer × Nat × FILE :=
  (l, s, fp)
    |> fread_doubles (fun l => l.weights) (fun l a => { l with weights := a })
        (fun l => l.n_weights)
    |> fread_doubles (fun l => l.weight_updates) (fun l a => { l with weight_updates := a })
        (fun l => l.n_weights)
    |> fread_bools (fun l => l.weight_active) (fun l a => { l with weight_active := a })
        (fun l => l.n_weights)
    |> fread_doubles (fun l => l.biases) (fun l a => { l with biases := a })
        (fun l => l.n_biases)
    |> fread_doubles (fun l => l.bias_updates) (fun l a => { l with bias_updates := a })
        (fun l => l.n_biases)
    |> fread_doubles (fun l => l.mu) (fun l a => { l with mu := a }) (fun _ => N_MU)

/-- The function `neural_layer_convolutional_load`: the layer, the number of
elements read and the file afterwards; `none` for the call
`exit(EXIT_FAILURE)` of `malloc_layer_arrays`. -/
def neural_layer_convolutional_load (X : LayerExt) (raw : Raw) (l : Layer) (fp : FILE) :
    Option (Layer × Nat × FILE) :=
  let r := neural_layer_convolutional_load_header l fp
  match malloc_layer_arrays X raw r.1 with
  | none => none
  | some l => some (neural_layer_convolutional_load_arrays l r.2.1 r.2.2)

/-! ## Predicates used in the statements about the convolutional layer -/

/-- The arrays that `neural_layer_convolutional_save` writes have the lengths
with which `malloc_layer_arrays` allocates them. -/
def Layer.allocated (l : Layer) : Prop :=
  (l.weights.length : Int) = l.n_weights ∧ (l.weight_updates.length : Int) = l.n_weights ∧
    (l.weight_active.length : Int) = l.n_weights ∧ (l.biases.length : Int) = l.n_biases ∧
    (l.bias_updates.length : Int) = l.n_biases ∧ l.mu.length = N_MU

/-- The array sizes of the layer are within the limits that
`malloc_layer_arrays` checks. -/
def Layer.within_limits (X : LayerExt) (l : Layer) : Prop :=
  1 ≤ l.n_biases ∧ l.n_biases ≤ X.N_OUTPUTS_MAX ∧ 1 ≤ l.n_outputs ∧
    l.n_outputs ≤ X.N_OUTPUTS_MAX ∧ 1 ≤ l.n_weights ∧ l.n_weights ≤ X.N_WEIGHTS_MAX ∧
    1 ≤ l.workspace_size

/-- The fields of a layer named in the round-trip property of saving and
loading: `options`; `function`, the geometry and count fields and
`max_neuron_grow`; `eta`, `eta_max`, `eta_min`, `momentum` and `decay`; the
arrays `weights`, `weight_updates`, `weight_active`, `biases`, `bias_updates`
and `mu`. -/
def Layer.payload (l : Layer) :
    Nat × List Int × List ℚ × List ℚ × List ℚ × List Bool × List ℚ × List ℚ × List ℚ :=
  (l.options,
    [l.function, l.height, l.width, l.channels, l.n_filters, l.stride, l.size, l.pad, l.out_h,
      l.out_w, l.out_c, l.n_biases, l.n_outputs, l.n_inputs, l.max_outputs, l.n_weights,
      l.n_active, l.max_neuron_grow],
    [l.eta, l.eta_max, l.eta_min, l.momentum, l.decay],
    l.weights, l.weight_updates, l.weight_active, l.biases, l.bias_updates, l.mu)

/-! ## Test data for the convolutional layer -/

/-- An instance of the constants of `neural_layer.h`, with a `layer_defaults`
that clears every field. -/
def conv_ext : LayerExt :=
  { N_OUTPUTS_MAX := 2000000, N_WEIGHTS_MAX := 20000000, CONVOLUTIONAL := 6,
    layer_defaults := fun _ => {} }

/-- A convolutional layer with one filter of size 1 on a 1 x 1 input with one
channel, `momentum = 0.9` and `decay = 0.01`. -/
def conv_small : Layer :=
  { type := 6, options := 3, function := 1, height := 1, width := 1, channels := 1,
    n_filters := 1, stride := 1, size := 1, pad := 0, n_weights := 1, n_active := 1,
    out_h := 1, out_w := 1, out_c := 1, n_outputs := 1, n_inputs := 1, max_outputs := 5,
    max_neuron_grow := 3, n_biases := 1, eta := 1 / 10, eta_max := 1 / 10, eta_min := 1 / 1000,
    momentum := 9 / 10, decay := 1 / 100, workspace_size := 8,
    delta := [0], state := [0], output := [0], weights := [1 / 4], biases := [1 / 2],
    bias_updates := [1 / 8], weight_updates := [1 / 16], weight_active := [true], temp := 8,
    mu := [1, 2, 3, 4, 5, 6] }

/-- A convolutional layer as `neural_layer_convolutional_init` makes it for a
255 x 255 input with two channels and one filter of size 128 with stride 1
and no padding: the output is 128 x 128, and the workspace has
`8 * 128 * 128 * 128 * 128 * 2 = 2 ^ 32` bytes. -/
def conv_big : Layer :=
  { type := 6, options := 0, function := 1, height := 255, width := 255, channels := 2,
    n_filters := 1, stride := 1, size := 128, pad := 0, n_weights := 32768, n_active := 32768,
    out_h := 128, out_w := 128, out_c := 1, n_outputs := 16384, n_inputs := 130050,
    max_outputs := 1, max_neuron_grow := 1, n_biases := 1, eta := 1 / 10, eta_max := 1 / 10,
    eta_min := 1 / 1000, momentum := 9 / 10, decay := 0, workspace_size := 4294967296,
    delta := List.replicate 16384 0, state := List.replicate 16384 0,
    output := List.replicate 16384 0, weights := List.replicate 32768 0,
    biases := [0], bias_updates := [0], weight_updates := List.replicate 32768 0,
    weight_active := List.replicate 32768 true, temp := 4294967296,
    mu := [0, 0, 0, 0, 0, 0] }

/-! ## Test data for selection on zero fitness and for self-adaptive mutation -/

/-- A state with two classifiers of fitness `0`, at the pointers `0` and `1`,
as the population. -/
def zero_state : State :=
  { xcsf := { pset := { list := [0, 1], size := 2, num := 2 } },
    heap := fun _ => { fit := 0 }, next := 2 }

/-- Parameters with one dimension, bounds `[0, 10]`, `P_MUTATION = 1` and one
self-adaptive mutation rate (`NUM_SAM = 1`). -/
def sam_xcsf : XCSF :=
  { num_x_vars := 1, MIN_CON := 0, MAX_CON := 10, S_MUTATION := 2, P_MUTATION := 1,
    NUM_SAM := 1 }

/-- The one-dimensional condition `[1, 5]` with the mutation rate `mu[0] = 0.25`. -/
def sam_cl : CL := { cond := { interval := [1, 5], interval_length := 2, mu := [1 / 4] } }

/-! ## Quantities used in the statements about generality -/

/-- The plain summed width `sum_i (upper_i - lower_i)` of the first `d`
dimensions of a condition. -/
def summed_width (cond : COND_RECT) (d : Nat) : ℚ :=
  ∑ i ∈ Finset.range d, (cond.upper i - cond.lower i)

/-- The comparison of `cond_rect_general` made on the plain summed widths, in
the words of the property: no offset `+ 1.0` and no division by `max`. -/
def cond_rect_general_widths (d : Nat) (c1 c2 : CL) : Bool :=
  if summed_width c1.cond d > summed_width c2.cond d then false else true

/-! ## `neural_layer_convolutional.c`: sizes and resizing -/

/-- The value of an expression of type `int` with `int` arithmetic modulo
`2 ^ 32` (two's complement): the integer `z` reduced into
`[-2 ^ 31, 2 ^ 31 - 1]`. -/
def to_int (z : Int) : Int := (z + 2 ^ 31) % 2 ^ 32 - 2 ^ 31

/-- The product `a * b` of two values of type `int`. -/
def int_mul (a b : Int) : Int := to_int (a * b)

/-- The function `get_workspace_size`: the product is computed in `int`
arithmetic from left to right; `none` is the call `exit(EXIT_FAILURE)`; the
result is the `size_t` value `sizeof(double) * size` with
`sizeof(double) = 8`. -/
def get_workspace_size (l : Layer) : Option Nat :=
  let size := int_mul (int_mul (int_mul (int_mul l.out_h l.out_w) l.size) l.size) l.channels
  if size < 1 then none else some (8 * size.toNat)

/-- The function `convolutional_out_height`; the division of `int` values
truncates towards zero. -/
def convolutional_out_height (l : Layer) : Int :=
  to_int ((to_int (l.height + 2 * l.pad - l.size)).tdiv l.stride + 1)

/-- The function `convolutional_out_width`. -/
def convolutional_out_width (l : Layer) : Int :=
  to_int ((to_int (l.width + 2 * l.pad - l.size)).tdiv l.stride + 1)

/-- The call `realloc(ptr, sizeof(double) * n)`: an array of `n` doubles that
keeps the entries of the old array as far as they fit; the further entries
have the contents `raw`. -/
def realloc (ptr : List ℚ) (n : Int) (raw : Nat → ℚ) : List ℚ :=
  (List.range n.toNat).map fun i => if i < ptr.length then ptr.getD i 0 else raw i

/-- The function `neural_layer_convolutional_resize`, one assignment after the
other; `none` is the call `exit(EXIT_FAILURE)` of `get_workspace_size`. -/
def neural_layer_convolutional_resize (raw : Raw) (l prev : Layer) : Option Layer :=
  let l := { l with width := prev.out_w }
  let l := { l with height := prev.out_h }
  let l := { l with channels := prev.out_c }
  let l := { l with out_w := convolutional_out_width l }
  let l := { l with out_h := convolutional_out_height l }
  let l := { l with n_outputs := int_mul (int_mul l.out_h l.out_w) l.out_c }
  let l := { l with max_outputs := l.n_outputs }
  let l := { l with n_inputs := int_mul (int_mul l.width l.height) l.channels }
  let l := { l with state := realloc l.state l.n_outputs raw.state }
  let l := { l with output := realloc l.output l.n_outputs raw.output }
  let l := { l with delta := realloc l.delta l.n_outputs raw.delta }
  match get_workspace_size l with
  | none => none
  | some size => some { l with workspace_size := size }

/-- The shape relations of a convolutional layer:
`n_biases = n_filters = out_c`, `n_outputs = out_h * out_w * out_c` and
`n_weights = channels * n_filters * size * size`. -/
def Layer.shape (l : Layer) : Prop :=
  l.n_biases = l.n_filters ∧ l.n_filters = l.out_c ∧
    l.n_outputs = l.out_h * l.out_w * l.out_c ∧
    l.n_weights = l.channels * l.n_filters * l.size * l.size

/-! ## Further test data for the convolutional layer -/

/-- A layer whose output is 65537 x 65536, with a filter of size 1 and one
channel: the exact product `out_h * out_w * size * size * channels` is
`2 ^ 32 + 65536`. -/
def conv_wrap : Layer :=
  { out_h := 65537, out_w := 65536, size := 1, channels := 1 }

/-- A previous layer with a 1 x 1 output of two channels. -/
def conv_prev : Layer :=
  { type := 6, n_filters := 2, out_h := 1, out_w := 1, out_c := 2, n_outputs := 2, n_biases := 2 }

/-- A generator whose first real-valued draw is `0`, whose next two are `0.1`
and whose later ones are `0.5`. -/
def slow_rng : Rng :=
  { real := fun n => if n = 0 then 0 else if n < 3 then 1 / 10 else 1 / 2, int := fun _ => 0 }

/-! ## Double-precision arithmetic -/

/-- Rounding to the nearest integer, halfway cases to the even neighbour. -/
def round_even (x : ℚ) : Int :=
  if x - Int.floor x < 1 / 2 then Int.floor x
  else if x - Int.floor x > 1 / 2 then Int.floor x + 1
  else if Int.floor x % 2 = 0 then Int.floor x else Int.floor x + 1

/-- The exponent of the binade of `q` in IEEE 754 binary64: `floor(log2 |q|)`,
and `-1022` in the subnormal range. -/
def double_exponent (q : ℚ) : Int := max (Int.log 2 |q|) (-1022)

/-- The rounding of `q` to 53 significant bits (round to nearest, halfway cases
to even, gradual underflow): the multiple of `2 ^ (e - 52)` nearest to `q` for
the exponent `e` of `q`.  The exponent is not bounded above. -/
def double_round (q : ℚ) : ℚ :=
  round_even (q / 2 ^ (double_exponent q - 52)) * 2 ^ (double_exponent q - 52)

/-- The value of type `double` that results from an operation whose exact
result is `q`, in IEEE 754 binary64 with the default rounding: the rounding of
`q` if that is finite, and `none` if the operation overflows to an infinity. -/
def double (q : ℚ) : Option ℚ :=
  if |double_round q| < 2 ^ (1024 : Int) then some (double_round q) else none

/-- The quotient `a / b` of two values of type `double`: `none` for a zero
divisor, where the result is an infinity or not a number. -/
def double_div (a b : ℚ) : Option ℚ :=
  if b = 0 then none else double (a / b)

/-- A number is a `double` if it is a finite value of IEEE 754 binary64: an
operation with this exact result delivers it unchanged. -/
def is_double (q : ℚ) : Prop := double q = some q

instance (q : ℚ) : Decidable (is_double q) := by
  unfold is_double
  infer_instance

/-! ## `loss_mse` of `loss.c` in double arithmetic -/

/-- The loop of `loss_mse` from index `i` on.  The difference `y[i] - pred[i]`,
its square and the sum are each rounded to `double`. -/
def loss_mse_loop (n : Nat) (pred y : List ℚ) (error : ℚ) (i : Nat) : Option ℚ :=
  if i < n then
    (double (y.getD i 0 - pred.getD i 0)).bind fun d =>
    (double (d * d)).bind fun s =>
    (double (error + s)).bind fun e =>
    loss_mse_loop n pred y e (i + 1)
  else some error
termination_by n - i

/-- The function `loss_mse`: the result, or `none` if it is not a finite
number.  The cast `(double)xcsf->num_y_vars` is the rounding of the integer. -/
def loss_mse (xcsf : XCSF) (pred y : List ℚ) : Option ℚ :=
  (loss_mse_loop xcsf.num_y_vars pred y 0 0).bind fun error =>
  (double (xcsf.num_y_vars : ℚ)).bind fun n =>
  double_div error n

/-- The squared difference `(y_i - pred_i)^2` of the entries at index `i`,
computed in double arithmetic. -/
def squared_difference (pred y : List ℚ) (i : Nat) : Option ℚ :=
  (double (y.getD i 0 - pred.getD i 0)).bind fun d => double (d * d)

/-- The sum of the first `n` squared differences, accumulated in index order
in double arithmetic. -/
def sum_squared_differences (pred y : List ℚ) : Nat → Option ℚ
  | 0 => some 0
  | n + 1 =>
    (sum_squared_differences pred y n).bind fun s =>
    (squared_difference pred y n).bind fun d =>
    double (s + d)

/-- The mean of the squared differences `(y_i - pred_i)^2` over the first `n`
entries, in the words of the property, computed in double arithmetic. -/
def mean_squared_difference (n : Nat) (pred y : List ℚ) : Option ℚ :=
  (sum_squared_differences pred y n).bind fun s =>
  (double (n : ℚ)).bind fun m =>
  double_div s m

/-! ## `cond_rect_general` in double arithmetic -/

/-- The first loop of `cond_rect_general` in double arithmetic: `max`
accumulated from index `i` on, every operation of
`max += MAX_CON - MIN_CON + 1.0` rounded to `double`. -/
def cond_rect_general_max_double (xcsf : XCSF) (max : ℚ) (i : Nat) : Option ℚ :=
  if i < xcsf.num_x_vars then
    (double (xcsf.MAX_CON - xcsf.MIN_CON)).bind fun r =>
    (double (r + 1)).bind fun w =>
    (double (max + w)).bind fun m =>
    cond_rect_general_max_double xcsf m (i + 1)
  else some max
termination_by xcsf.num_x_vars - i

/-- The second loop of `cond_rect_general` in double arithmetic: `gen1` and
`gen2` accumulated from index `i` on, every operation of
`gen += interval[i+1] - interval[i] + 1.0` rounded to `double`. -/
def cond_rect_general_loop_double (i1 i2 : List ℚ) (len : Nat) (gen1 gen2 : ℚ) (i : Nat) :
    Option (ℚ × ℚ) :=
  if i < len then
    (double (i1.getD (i + 1) 0 - i1.getD i 0)).bind fun r1 =>
    (double (r1 + 1)).bind fun w1 =>
    (double (gen1 + w1)).bind fun g1 =>
    (double (i2.getD (i + 1) 0 - i2.getD i 0)).bind fun r2 =>
    (double (r2 + 1)).bind fun w2 =>
    (double (gen2 + w2)).bind fun g2 =>
    cond_rect_general_loop_double i1 i2 len g1 g2 (i + 2)
  else some (gen1, gen2)
termination_by len - i

/-- The function `cond_rect_general` in double arithmetic: the result, or
`none` if an intermediate result is not a finite number. -/
def cond_rect_general_double (xcsf : XCSF) (c1 c2 : CL) : Option Bool :=
  (cond_rect_general_max_double xcsf 0 0).bind fun max =>
  (cond_rect_general_loop_double c1.cond.interval c2.cond.interval
    c1.cond.interval_length 0 0 0).bind fun g =>
  (double_div g.1 max).bind fun q1 =>
  (double_div g.2 max).bind fun q2 =>
  if q1 > q2 then some false else some true

/-- The intermediate results of `cond_rect_general` on a condition with `d`
dimensions, computed exactly, are doubles: every width `upper_i - lower_i`,
every width offset by 1, and every partial sum of the offset widths. -/
def widths_exact (cond : COND_RECT) (d : Nat) : Prop :=
  (∀ i, i < d → is_double (cond.upper i - cond.lower i)
    ∧ is_double (cond.upper i - cond.lower i + 1)) ∧
  ∀ k, k ≤ d → is_double (summed_width cond k + (k : ℚ))

instance (cond : COND_RECT) (d : Nat) : Decidable (widths_exact cond d) := by
  unfold widths_exact
  infer_instance

/-- The intermediate results of `cond_rect_general` on `(c1, c2)`, computed
exactly, are all doubles, so that no operation of the function rounds: the
range `MAX_CON - MIN_CON`, the range offset by 1 and its multiples up to `max`,
the widths, offset widths and partial sums of both conditions, and the two
quotients by `max`. -/
def cond_rect_general_exact (xcsf : XCSF) (c1 c2 : CL) : Prop :=
  is_double (xcsf.MAX_CON - xcsf.MIN_CON) ∧
  is_double (xcsf.MAX_CON - xcsf.MIN_CON + 1) ∧
  (∀ k, k ≤ xcsf.num_x_vars → is_double ((k : ℚ) * (xcsf.MAX_CON - xcsf.MIN_CON + 1))) ∧
  widths_exact c1.cond xcsf.num_x_vars ∧
  widths_exact c2.cond xcsf.num_x_vars ∧
  is_double ((summed_width c1.cond xcsf.num_x_vars + (xcsf.num_x_vars : ℚ))
    / ((xcsf.num_x_vars : ℚ) * (xcsf.MAX_CON - xcsf.MIN_CON + 1))) ∧
  is_double ((summed_width c2.cond xcsf.num_x_vars + (xcsf.num_x_vars : ℚ))
    / ((xcsf.num_x_vars : ℚ) * (xcsf.MAX_CON - xcsf.MIN_CON + 1)))

instance (xcsf : XCSF) (c1 c2 : CL) : Decidable (cond_rect_general_exact xcsf c1 c2) := by
  unfold cond_rect_general_exact
  infer_instance

/-- The one-dimensional condition `[0, 2 ^ -54]`. -/
def narrow_cl : CL := { cond := { interval := [0, 2 ^ (-54 : Int)], interval_length := 2 } }

/-- The one-dimensional condition `[0, 0.5]`. -/
def half_cl : CL := { cond := { interval := [0, 1 / 2], interval_length := 2 } }

/-- The one-dimensional condition `[0.25, 0.5]`. -/
def quarter_cl : CL := { cond := { interval := [1 / 4, 1 / 2], interval_length := 2 } }

/-! # Theorems -/

/-! ## Matching -/

/-- Loop invariant of `cond_rect_match`: started at index `2 * k`, the loop
returns `true` exactly when every dimension from `k` on contains its state
variable. -/
theorem cond_rect_match_loop_iff (interval x : List ℚ) (d : Nat) :
    ∀ n k, d - k = n →
      (cond_rect_match_loop interval (d * 2) x (2 * k) = true ↔
        ∀ j, k ≤ j → j < d →
          interval.getD (2 * j) 0 ≤ x.getD j 0 ∧ x.getD j 0 ≤ interval.getD (2 * j + 1) 0) := by
  intro n
  induction n with
  | zero =>
    intro k hk
    rw [cond_rect_match_loop, if_neg (by omega)]
    simp only [true_iff]
    intro j h1 h2
    omega
  | succ n ih =>
    intro k hk
    rw [cond_rect_match_loop, if_pos (by omega)]
    have hdiv : 2 * k / 2 = k := by omega
    rw [hdiv]
    by_cases hbad : x.getD k 0 < interval.getD (2 * k) 0 ∨
        x.getD k 0 > interval.getD (2 * k + 1) 0
    · have hcond : (decide (x.getD k 0 < interval.getD (2 * k) 0) ||
          decide (x.getD k 0 > interval.getD (2 * k + 1) 0)) = true := by
        simpa using hbad
      rw [if_pos hcond]
      constructor
      · intro h
        cases h
      · intro h
        have hk2 := h k (le_refl k) (by omega)
        rcases hbad with hb | hb
        · exact absurd hk2.1 (not_le.mpr hb)
        · exact absurd hk2.2 (not_le.mpr hb)
    · have hcond : ¬ (decide (x.getD k 0 < interval.getD (2 * k) 0) ||
          decide (x.getD k 0 > interval.getD (2 * k + 1) 0)) = true := by
        simpa using hbad
      rw [if_neg hcond]
      have hstep : 2 * k + 2 = 2 * (k + 1) := by ring
      rw [hstep, ih (k + 1) (by omega)]
      push_neg at hbad
      constructor
      · intro h j h1 h2
        rcases Nat.eq_or_lt_of_le h1 with heq | hlt
        · subst heq
          exact hbad
        · exact h j hlt h2
      · intro h j h1 h2
        exact h j (by omega) h2

/-- The value returned by `cond_rect_match` on a condition of the shape given
by `cond_rect_init`. -/
theorem cond_rect_match_spec (xcsf : XCSF) (c : CL) (x : List ℚ)
    (hc : c.cond.shaped xcsf) :
    (cond_rect_match xcsf c x).2 = true ↔
      ∀ i, i < xcsf.num_x_vars → c.cond.lower i ≤ x.getD i 0 ∧ x.getD i 0 ≤ c.cond.upper i := by
  have h := cond_rect_match_loop_iff c.cond.interval x xcsf.num_x_vars _ 0 rfl
  simp only [cond_rect_match, COND_RECT.lower, COND_RECT.upper, hc.1]
  simpa using h

/-- C1: for a condition with `d = num_x_vars` dimensions and an input `x` of
length `d`, `cond_rect_match` returns true if and only if
`lower_i <= x_i <= upper_i` in every dimension `i`; on the test input it
returns true for the first test condition and false for the second. -/
theorem cond_rect_match_iff :
    (∀ (xcsf : XCSF) (c : CL) (x : List ℚ), c.cond.shaped xcsf → x.length = xcsf.num_x_vars →
      ((cond_rect_match xcsf c x).2 = true ↔
        ∀ i, i < xcsf.num_x_vars →
          c.cond.lower i ≤ x.getD i 0 ∧ x.getD i 0 ≤ c.cond.upper i)) ∧
    (cond_rect_match test_xcsf test_true test_x).2 = true ∧
    (cond_rect_match test_xcsf test_false test_x).2 = false := by
  refine ⟨fun xcsf c x hc _ => cond_rect_match_spec xcsf c x hc, ?_, ?_⟩
  · simp [cond_rect_match, cond_rect_match_loop, test_true, test_x, test_cl,
      COND_RECT.ofCenterSpread]
    norm_num
  · simp [cond_rect_match, cond_rect_match_loop, test_false, test_x, test_cl,
      COND_RECT.ofCenterSpread]
    norm_num

/-- Witness of C1: the general statement applied to the matching test
condition. -/
theorem cond_rect_match_iff_witness :
    test_true.cond.shaped test_xcsf ∧ test_x.length = test_xcsf.num_x_vars ∧
    ((cond_rect_match test_xcsf test_true test_x).2 = true ↔
      ∀ i, i < test_xcsf.num_x_vars →
        test_true.cond.lower i ≤ test_x.getD i 0 ∧ test_x.getD i 0 ≤ test_true.cond.upper i) :=
  have hs : test_true.cond.shaped test_xcsf := by
    simp [COND_RECT.shaped, test_true, test_cl, test_xcsf, COND_RECT.ofCenterSpread]
  have hl : test_x.length = test_xcsf.num_x_vars := by simp [test_x, test_xcsf]
  ⟨hs, hl, cond_rect_match_iff.1 test_xcsf test_true test_x hs hl⟩

/-! ## Subsumption of conditions -/

/-- Loop invariant of `cond_rect_subsumes`: started at index `2 * k`, the loop
returns `true` exactly when the first rectangle contains the second in every
dimension from `k` on. -/
theorem cond_rect_subsumes_loop_iff (i1 i2 : List ℚ) (d : Nat) :
    ∀ n k, d - k = n →
      (cond_rect_subsumes_loop i1 i2 (d * 2) (2 * k) = true ↔
        ∀ j, k ≤ j → j < d →
          i1.getD (2 * j) 0 ≤ i2.getD (2 * j) 0 ∧
            i2.getD (2 * j + 1) 0 ≤ i1.getD (2 * j + 1) 0) := by
  intro n
  induction n with
  | zero =>
    intro k hk
    rw [cond_rect_subsumes_loop, if_neg (by omega)]
    simp only [true_iff]
    intro j h1 h2
    omega
  | succ n ih =>
    intro k hk
    rw [cond_rect_subsumes_loop, if_pos (by omega)]
    by_cases hbad : i1.getD (2 * k) 0 > i2.getD (2 * k) 0 ∨
        i1.getD (2 * k + 1) 0 < i2.getD (2 * k + 1) 0
    · have hcond : (decide (i1.getD (2 * k) 0 > i2.getD (2 * k) 0) ||
          decide (i1.getD (2 * k + 1) 0 < i2.getD (2 * k + 1) 0)) = true := by
        simpa using hbad
      rw [if_pos hcond]
      constructor
      · intro h
        cases h
      · intro h
        have hk2 := h k (le_refl k) (by omega)
        rcases hbad with hb | hb
        · exact absurd hk2.1 (not_le.mpr hb)
        · exact absurd hk2.2 (not_le.mpr hb)
    · have hcond : ¬ (decide (i1.getD (2 * k) 0 > i2.getD (2 * k) 0) ||
          decide (i1.getD (2 * k + 1) 0 < i2.getD (2 * k + 1) 0)) = true := by
        simpa using hbad
      rw [if_neg hcond]
      have hstep : 2 * k + 2 = 2 * (k + 1) := by ring
      rw [hstep, ih (k + 1) (by omega)]
      push_neg at hbad
      constructor
      · intro h j h1 h2
        rcases Nat.eq_or_lt_of_le h1 with heq | hlt
        · subst heq
          exact hbad
        · exact h j hlt h2
      · intro h j h1 h2
        exact h j (by omega) h2

/-- C5: for conditions `c1`, `c2` of equal dimension, `cond_rect_subsumes(c1, c2)`
returns true if and only if `lower_i(c1) <= lower_i(c2)` and
`upper_i(c1) >= upper_i(c2)` in every dimension `i`. -/
theorem cond_rect_subsumes_iff (xcsf : XCSF) (c1 c2 : CL)
    (h1 : c1.cond.shaped xcsf) (_h2 : c2.cond.shaped xcsf) :
    cond_rect_subsumes xcsf c1 c2 = true ↔
      ∀ i, i < xcsf.num_x_vars →
        c1.cond.lower i ≤ c2.cond.lower i ∧ c1.cond.upper i ≥ c2.cond.upper i := by
  have h := cond_rect_subsumes_loop_iff c1.cond.interval c2.cond.interval xcsf.num_x_vars _ 0 rfl
  simp only [cond_rect_subsumes, COND_RECT.lower, COND_RECT.upper, h1.1, ge_iff_le]
  simpa using h

/-- Witness of C5: the first test condition contains the small condition of
the generality test, dimension by dimension. -/
theorem cond_rect_subsumes_iff_witness :
    test_true.cond.shaped test_xcsf ∧ test_small.cond.shaped test_xcsf ∧
    (cond_rect_subsumes test_xcsf test_true test_small = true ↔
      ∀ i, i < test_xcsf.num_x_vars →
        test_true.cond.lower i ≤ test_small.cond.lower i ∧
          test_true.cond.upper i ≥ test_small.cond.upper i) :=
  have hs1 : test_true.cond.shaped test_xcsf := by
    simp [COND_RECT.shaped, test_true, test_cl, test_xcsf, COND_RECT.ofCenterSpread]
  have hs2 : test_small.cond.shaped test_xcsf := by
    simp [COND_RECT.shaped, test_small, test_cl, test_xcsf, COND_RECT.ofCenterSpread]
  ⟨hs1, hs2, cond_rect_subsumes_iff test_xcsf test_true test_small hs1 hs2⟩

/-! ## Writing a pair of bounds -/

/-- Reading back the entry just written. -/
theorem getD_set_eq (l : List ℚ) (i : Nat) (v : ℚ) (h : i < l.length) :
    (l.set i v).getD i 0 = v := by
  simp [List.getD_eq_getElem?_getD, List.getElem?_set, h]

/-- Writing one entry leaves the others as they are. -/
theorem getD_set_ne (l : List ℚ) (i j : Nat) (v : ℚ) (h : i ≠ j) :
    (l.set i v).getD j 0 = l.getD j 0 := by
  simp [List.getD_eq_getElem?_getD, List.getElem?_set, h]

/-- Writing `a` to index `i` and `b` to index `i + 1` of an array that has both
indices: the length, the two entries written and all other entries. -/
theorem set_pair (m : List ℚ) (i : Nat) (a b : ℚ) (h : i + 1 < m.length) :
    ((m.set i a).set (i + 1) b).length = m.length ∧
    ((m.set i a).set (i + 1) b).getD i 0 = a ∧
    ((m.set i a).set (i + 1) b).getD (i + 1) 0 = b ∧
    ∀ j, j ≠ i → j ≠ i + 1 → ((m.set i a).set (i + 1) b).getD j 0 = m.getD j 0 := by
  refine ⟨by simp, ?_, ?_, ?_⟩
  · rw [getD_set_ne _ _ _ _ (by omega), getD_set_eq _ _ _ (by omega)]
  · rw [getD_set_eq _ _ _ (by simpa using h)]
  · intro j h1 h2
    rw [getD_set_ne _ _ _ _ (fun e => h2 e.symm), getD_set_ne _ _ _ _ (fun e => h1 e.symm)]

/-! ## Covering -/

/-- Loop invariant of `cond_rect_cover`: started at index `2 * k` on an array
of `2 * d` entries, the loop keeps the length, leaves the entries below `2 * k`
as they are and gives every dimension `j` from `k` on the pair returned by
`cond_rect_bounds` for `x_j - S_MUTATION * r1` and `x_j + S_MUTATION * r2`, where
`r1` and `r2` are two draws of the generator. -/
theorem cond_rect_cover_loop_spec (xcsf : XCSF) (x : List ℚ) (d : Nat) :
    ∀ n k (interval : List ℚ) (rng : Rng), d - k = n → interval.length = d * 2 →
      (cond_rect_cover_loop xcsf x (d * 2) interval rng (2 * k)).1.length = d * 2 ∧
      (∀ j, j < 2 * k →
        (cond_rect_cover_loop xcsf x (d * 2) interval rng (2 * k)).1.getD j 0
          = interval.getD j 0) ∧
      (∀ j, k ≤ j → j < d → ∃ n1 n2 : Nat,
        (cond_rect_cover_loop xcsf x (d * 2) interval rng (2 * k)).1.getD (2 * j) 0
          = (cond_rect_bounds xcsf (x.getD j 0 - xcsf.S_MUTATION * rng.real n1)
              (x.getD j 0 + xcsf.S_MUTATION * rng.real n2)).1 ∧
        (cond_rect_cover_loop xcsf x (d * 2) interval rng (2 * k)).1.getD (2 * j + 1) 0
          = (cond_rect_bounds xcsf (x.getD j 0 - xcsf.S_MUTATION * rng.real n1)
              (x.getD j 0 + xcsf.S_MUTATION * rng.real n2)).2) := by
  intro n
  induction n with
  | zero =>
    intro k interval rng hk hlen
    rw [cond_rect_cover_loop, if_neg (by omega)]
    exact ⟨hlen, fun j _ => rfl, fun j h1 h2 => by omega⟩
  | succ n ih =>
    intro k interval rng hk hlen
    rw [cond_rect_cover_loop, if_pos (by omega)]
    have hdiv : 2 * k / 2 = k := by omega
    have hstep : 2 * k + 2 = 2 * (k + 1) := by ring
    simp only [hdiv, hstep]
    obtain ⟨hl1, ha1, hb1, -⟩ := set_pair interval (2 * k)
      (x.getD k 0 - xcsf.S_MUTATION * (drand rng).1)
      (x.getD k 0 + xcsf.S_MUTATION * (drand (drand rng).2).1) (by omega)
    rw [ha1, hb1]
    obtain ⟨hl2, ha2, hb2, ho2⟩ := set_pair
      ((interval.set (2 * k) (x.getD k 0 - xcsf.S_MUTATION * (drand rng).1)).set (2 * k + 1)
        (x.getD k 0 + xcsf.S_MUTATION * (drand (drand rng).2).1)) (2 * k)
      (cond_rect_bounds xcsf (x.getD k 0 - xcsf.S_MUTATION * (drand rng).1)
        (x.getD k 0 + xcsf.S_MUTATION * (drand (drand rng).2).1)).1
      (cond_rect_bounds xcsf (x.getD k 0 - xcsf.S_MUTATION * (drand rng).1)
        (x.getD k 0 + xcsf.S_MUTATION * (drand (drand rng).2).1)).2 (by omega)
    obtain ⟨il, ikeep, inew⟩ := ih (k + 1) _ (drand (drand rng).2).2 (by omega)
      (by rw [hl2, hl1, hlen])
    refine ⟨il, ?_, ?_⟩
    · intro j hj
      rw [ikeep j (by omega), ho2 j (by omega) (by omega),
        getD_set_ne _ _ _ _ (by omega), getD_set_ne _ _ _ _ (by omega)]
    · intro j h1 h2
      rcases Nat.eq_or_lt_of_le h1 with heq | hlt
      · subst heq
        refine ⟨0, 1, ?_, ?_⟩
        · rw [ikeep (2 * k) (by omega), ha2]
          rfl
        · rw [ikeep (2 * k + 1) (by omega), hb2]
          rfl
      · obtain ⟨n1, n2, e1, e2⟩ := inew j hlt h2
        exact ⟨n1 + 1 + 1, n2 + 1 + 1, e1, e2⟩

/-- The pair returned by `cond_rect_bounds` for a point below and a point above
`v`, when `v` itself lies within `[MIN_CON, MAX_CON]`, still encloses `v`. -/
theorem cond_rect_bounds_encloses (xcsf : XCSF) (a b v : ℚ) (ha : a ≤ v) (hb : v ≤ b)
    (hmin : xcsf.MIN_CON ≤ v) (hmax : v ≤ xcsf.MAX_CON) :
    (cond_rect_bounds xcsf a b).1 ≤ v ∧ v ≤ (cond_rect_bounds xcsf a b).2 := by
  unfold cond_rect_bounds
  simp only
  split_ifs <;> constructor <;> linarith

/-- The pair returned by `cond_rect_bounds` for a point above and a point below
`v`, when `v` itself lies within `[MIN_CON, MAX_CON]`, encloses `v` as well: the
two points are put in order. -/
theorem cond_rect_bounds_encloses_rev (xcsf : XCSF) (a b v : ℚ) (ha : v ≤ a) (hb : b ≤ v)
    (hmin : xcsf.MIN_CON ≤ v) (hmax : v ≤ xcsf.MAX_CON) :
    (cond_rect_bounds xcsf a b).1 ≤ v ∧ v ≤ (cond_rect_bounds xcsf a b).2 := by
  unfold cond_rect_bounds
  simp only
  split_ifs <;> constructor <;> linarith

/-- The condition made by `cond_rect_cover` has the shape of the condition it
overwrites. -/
theorem cond_rect_cover_shaped (xcsf : XCSF) (c : CL) (x : List ℚ) (rng : Rng)
    (hc : c.cond.shaped xcsf) :
    (cond_rect_cover xcsf c x rng).1.cond.shaped xcsf := by
  have h := (cond_rect_cover_loop_spec xcsf x xcsf.num_x_vars _ 0 c.cond.interval rng rfl
    (by rw [hc.2, hc.1])).1
  refine ⟨hc.1, ?_⟩
  simp only [cond_rect_cover, hc.1]
  simpa using h

/-- C2 fails as stated: with bounds `[0, 1]`, `S_MUTATION = 0.1`, every draw
equal to `0.5` and the input `x = [2]` outside the bounds, the condition made
by `cond_rect_cover(x)` is `[1, 1]` and `cond_rect_match(x)` returns false. -/
theorem cond_rect_cover_out_of_range_no_match :
    (cond_rect_cover cover_xcsf cover_cl [2] half_rng).1.cond.interval = [1, 1] ∧
    (cond_rect_match cover_xcsf (cond_rect_cover cover_xcsf cover_cl [2] half_rng).1 [2]).2
      = false := by
  have h : (cond_rect_cover cover_xcsf cover_cl [2] half_rng).1.cond.interval = [1, 1] := by
    simp [cond_rect_cover, cond_rect_cover_loop, cond_rect_bounds, cover_xcsf, cover_cl,
      half_rng, drand]
    norm_num
  refine ⟨h, ?_⟩
  simp only [cond_rect_match, h]
  simp [cond_rect_cover, cover_cl, cond_rect_match_loop]

/-- C2, amended: if every state variable lies in `[MIN_CON, MAX_CON]`, then for
every value of `S_MUTATION` and every sequence of random draws in `[0, 1)`
`cond_rect_match(x)` returns true immediately after `cond_rect_cover(x)`. -/
theorem cond_rect_cover_then_match (xcsf : XCSF) (c : CL) (x : List ℚ) (rng : Rng)
    (hc : c.cond.shaped xcsf) (_hx : x.length = xcsf.num_x_vars)
    (hin : ∀ i, i < xcsf.num_x_vars → xcsf.MIN_CON ≤ x.getD i 0 ∧ x.getD i 0 ≤ xcsf.MAX_CON)
    (hr : rng.unit) :
    (cond_rect_match xcsf (cond_rect_cover xcsf c x rng).1 x).2 = true := by
  rw [cond_rect_match_spec xcsf _ x (cond_rect_cover_shaped xcsf c x rng hc)]
  intro i hi
  obtain ⟨n1, n2, e1, e2⟩ :=
    (cond_rect_cover_loop_spec xcsf x xcsf.num_x_vars _ 0 c.cond.interval rng rfl
      (by rw [hc.2, hc.1])).2.2 i (Nat.zero_le i) hi
  have hb : (cond_rect_bounds xcsf (x.getD i 0 - xcsf.S_MUTATION * rng.real n1)
        (x.getD i 0 + xcsf.S_MUTATION * rng.real n2)).1 ≤ x.getD i 0 ∧
      x.getD i 0 ≤ (cond_rect_bounds xcsf (x.getD i 0 - xcsf.S_MUTATION * rng.real n1)
        (x.getD i 0 + xcsf.S_MUTATION * rng.real n2)).2 := by
    by_cases hs : 0 ≤ xcsf.S_MUTATION
    · exact cond_rect_bounds_encloses xcsf _ _ (x.getD i 0)
        (by nlinarith [mul_nonneg hs (hr n1).1]) (by nlinarith [mul_nonneg hs (hr n2).1])
        (hin i hi).1 (hin i hi).2
    · have hs' : 0 ≤ -xcsf.S_MUTATION := by linarith
      exact cond_rect_bounds_encloses_rev xcsf _ _ (x.getD i 0)
        (by nlinarith [mul_nonneg hs' (hr n1).1]) (by nlinarith [mul_nonneg hs' (hr n2).1])
        (hin i hi).1 (hin i hi).2
  simp only [COND_RECT.lower, COND_RECT.upper, cond_rect_cover, hc.1]
  simp only [Nat.mul_zero] at e1 e2
  rw [e1, e2]
  exact hb

/-- Witness of the amended C2: the input `x = [0.5]` inside the bounds `[0, 1]`. -/
theorem cond_rect_cover_then_match_witness :
    (cond_rect_match cover_xcsf (cond_rect_cover cover_xcsf cover_cl [1 / 2] half_rng).1
      [1 / 2]).2 = true :=
  cond_rect_cover_then_match cover_xcsf cover_cl [1 / 2] half_rng
    (by simp [COND_RECT.shaped, cover_xcsf, cover_cl])
    (by simp [cover_xcsf])
    (by
      intro i hi
      have h0 : i = 0 := by simpa [cover_xcsf] using hi
      subst h0
      simp [cover_xcsf]
      norm_num)
    (by
      intro n
      simp [half_rng]
      norm_num)

/-! ## Generality -/

/-- C4 on the code: for the two conditions of the generality test, where the
first has the larger summed width, `cond_rect_general(A, B)` returns false and
`cond_rect_general(B, A)` returns true, the reverse of what the test case
expects. -/
theorem cond_rect_general_test_reversed :
    cond_rect_general test_xcsf test_true test_small = false ∧
    cond_rect_general test_xcsf test_small test_true = true := by
  constructor
  · simp [cond_rect_general, cond_rect_general_max, cond_rect_general_loop, test_xcsf,
      test_true, test_small, test_cl, COND_RECT.ofCenterSpread]
    norm_num
  · simp [cond_rect_general, cond_rect_general_max, cond_rect_general_loop, test_xcsf,
      test_true, test_small, test_cl, COND_RECT.ofCenterSpread]
    norm_num

/-! ## The ordering invariant -/

/-- The pair returned by `cond_rect_bounds` is in order. -/
theorem cond_rect_bounds_ordered (xcsf : XCSF) (a b : ℚ) :
    (cond_rect_bounds xcsf a b).1 ≤ (cond_rect_bounds xcsf a b).2 := by
  unfold cond_rect_bounds
  simp only
  split_ifs <;> linarith

/-- Loop invariant of `cond_rect_rand`: started at index `2 * k` on an array of
`2 * d` entries, the loop keeps the length, leaves the entries below `2 * k` as
they are and gives every dimension from `k` on a pair returned by
`cond_rect_bounds`. -/
theorem cond_rect_rand_loop_spec (xcsf : XCSF) (d : Nat) :
    ∀ n k (interval : List ℚ) (rng : Rng), d - k = n → interval.length = d * 2 →
      (cond_rect_rand_loop xcsf (d * 2) interval rng (2 * k)).1.length = d * 2 ∧
      (∀ j, j < 2 * k →
        (cond_rect_rand_loop xcsf (d * 2) interval rng (2 * k)).1.getD j 0
          = interval.getD j 0) ∧
      (∀ j, k ≤ j → j < d → ∃ a b : ℚ,
        (cond_rect_rand_loop xcsf (d * 2) interval rng (2 * k)).1.getD (2 * j) 0
          = (cond_rect_bounds xcsf a b).1 ∧
        (cond_rect_rand_loop xcsf (d * 2) interval rng (2 * k)).1.getD (2 * j + 1) 0
          = (cond_rect_bounds xcsf a b).2) := by
  intro n
  induction n with
  | zero =>
    intro k interval rng hk hlen
    rw [cond_rect_rand_loop, if_neg (by omega)]
    exact ⟨hlen, fun j _ => rfl, fun j h1 h2 => by omega⟩
  | succ n ih =>
    intro k interval rng hk hlen
    rw [cond_rect_rand_loop, if_pos (by omega)]
    have hstep : 2 * k + 2 = 2 * (k + 1) := by ring
    simp only [hstep]
    obtain ⟨hl1, -, -, -⟩ := set_pair interval (2 * k)
      ((xcsf.MAX_CON - xcsf.MIN_CON) * (drand rng).1 + xcsf.MIN_CON)
      ((xcsf.MAX_CON - xcsf.MIN_CON) * (drand (drand rng).2).1 + xcsf.MIN_CON) (by omega)
    obtain ⟨hl2, ha2, hb2, ho2⟩ := set_pair
      ((interval.set (2 * k) ((xcsf.MAX_CON - xcsf.MIN_CON) * (drand rng).1 + xcsf.MIN_CON)).set
        (2 * k + 1) ((xcsf.MAX_CON - xcsf.MIN_CON) * (drand (drand rng).2).1 + xcsf.MIN_CON))
      (2 * k)
      (cond_rect_bounds xcsf
        (((interval.set (2 * k) ((xcsf.MAX_CON - xcsf.MIN_CON) * (drand rng).1 +
          xcsf.MIN_CON)).set (2 * k + 1) ((xcsf.MAX_CON - xcsf.MIN_CON) *
          (drand (drand rng).2).1 + xcsf.MIN_CON)).getD (2 * k) 0)
        (((interval.set (2 * k) ((xcsf.MAX_CON - xcsf.MIN_CON) * (drand rng).1 +
          xcsf.MIN_CON)).set (2 * k + 1) ((xcsf.MAX_CON - xcsf.MIN_CON) *
          (drand (drand rng).2).1 + xcsf.MIN_CON)).getD (2 * k + 1) 0)).1
      (cond_rect_bounds xcsf
        (((interval.set (2 * k) ((xcsf.MAX_CON - xcsf.MIN_CON) * (drand rng).1 +
          xcsf.MIN_CON)).set (2 * k + 1) ((xcsf.MAX_CON - xcsf.MIN_CON) *
          (drand (drand rng).2).1 + xcsf.MIN_CON)).getD (2 * k) 0)
        (((interval.set (2 * k) ((xcsf.MAX_CON - xcsf.MIN_CON) * (drand rng).1 +
          xcsf.MIN_CON)).set (2 * k + 1) ((xcsf.MAX_CON - xcsf.MIN_CON) *
          (drand (drand rng).2).1 + xcsf.MIN_CON)).getD (2 * k + 1) 0)).2 (by omega)
    obtain ⟨il, ikeep, inew⟩ := ih (k + 1) _ (drand (drand rng).2).2 (by omega)
      (by rw [hl2, hl1, hlen])
    refine ⟨il, ?_, ?_⟩
    · intro j hj
      rw [ikeep j (by omega), ho2 j (by omega) (by omega),
        getD_set_ne _ _ _ _ (by omega), getD_set_ne _ _ _ _ (by omega)]
    · intro j h1 h2
      rcases Nat.eq_or_lt_of_le h1 with heq | hlt
      · subst heq
        exact ⟨_, _, by rw [ikeep (2 * k) (by omega), ha2],
          by rw [ikeep (2 * k + 1) (by omega), hb2]⟩
      · exact inew j hlt h2

/-- Loop invariant of `cond_rect_mutate`: started at index `2 * k` on an array
of `2 * d` entries, the loop keeps the length, leaves the entries below `2 * k`
as they are and gives every dimension from `k` on a pair returned by
`cond_rect_bounds`. -/
theorem cond_rect_mutate_loop_spec (xcsf : XCSF) (pm step : ℚ) (d : Nat) :
    ∀ n k (interval : List ℚ) (mod : Bool) (rng : Rng), d - k = n → interval.length = d * 2 →
      (cond_rect_mutate_loop xcsf pm step (d * 2) interval mod rng (2 * k)).1.length = d * 2 ∧
      (∀ j, j < 2 * k →
        (cond_rect_mutate_loop xcsf pm step (d * 2) interval mod rng (2 * k)).1.getD j 0
          = interval.getD j 0) ∧
      (∀ j, k ≤ j → j < d → ∃ a b : ℚ,
        (cond_rect_mutate_loop xcsf pm step (d * 2) interval mod rng (2 * k)).1.getD (2 * j) 0
          = (cond_rect_bounds xcsf a b).1 ∧
        (cond_rect_mutate_loop xcsf pm step (d * 2) interval mod rng (2 * k)).1.getD
          (2 * j + 1) 0 = (cond_rect_bounds xcsf a b).2) := by
  intro n
  induction n with
  | zero =>
    intro k interval mod rng hk hlen
    rw [cond_rect_mutate_loop, if_neg (by omega)]
    exact ⟨hlen, fun j _ => rfl, fun j h1 h2 => by omega⟩
  | succ n ih =>
    intro k interval mod rng hk hlen
    have key : ∀ (m : List ℚ) (md : Bool) (r : Rng), m.length = d * 2 →
        (∀ j, j < 2 * k → m.getD j 0 = interval.getD j 0) →
        (cond_rect_mutate_loop xcsf pm step (d * 2)
          ((m.set (2 * k) (cond_rect_bounds xcsf (m.getD (2 * k) 0) (m.getD (2 * k + 1) 0)).1).set
            (2 * k + 1) (cond_rect_bounds xcsf (m.getD (2 * k) 0) (m.getD (2 * k + 1) 0)).2)
          md r (2 * (k + 1))).1.length = d * 2 ∧
        (∀ j, j < 2 * k →
          (cond_rect_mutate_loop xcsf pm step (d * 2)
            ((m.set (2 * k) (cond_rect_bounds xcsf (m.getD (2 * k) 0)
              (m.getD (2 * k + 1) 0)).1).set
              (2 * k + 1) (cond_rect_bounds xcsf (m.getD (2 * k) 0) (m.getD (2 * k + 1) 0)).2)
            md r (2 * (k + 1))).1.getD j 0 = interval.getD j 0) ∧
        (∀ j, k ≤ j → j < d → ∃ a b : ℚ,
          (cond_rect_mutate_loop xcsf pm step (d * 2)
            ((m.set (2 * k) (cond_rect_bounds xcsf (m.getD (2 * k) 0)
              (m.getD (2 * k + 1) 0)).1).set
              (2 * k + 1) (cond_rect_bounds xcsf (m.getD (2 * k) 0) (m.getD (2 * k + 1) 0)).2)
            md r (2 * (k + 1))).1.getD (2 * j) 0 = (cond_rect_bounds xcsf a b).1 ∧
          (cond_rect_mutate_loop xcsf pm step (d * 2)
            ((m.set (2 * k) (cond_rect_bounds xcsf (m.getD (2 * k) 0)
              (m.getD (2 * k + 1) 0)).1).set
              (2 * k + 1) (cond_rect_bounds xcsf (m.getD (2 * k) 0) (m.getD (2 * k + 1) 0)).2)
            md r (2 * (k + 1))).1.getD (2 * j + 1) 0 = (cond_rect_bounds xcsf a b).2) := by
      intro m md r hm hframe
      obtain ⟨hl2, ha2, hb2, ho2⟩ := set_pair m (2 * k)
        (cond_rect_bounds xcsf (m.getD (2 * k) 0) (m.getD (2 * k + 1) 0)).1
        (cond_rect_bounds xcsf (m.getD (2 * k) 0) (m.getD (2 * k + 1) 0)).2 (by omega)
      obtain ⟨il, ikeep, inew⟩ := ih (k + 1) _ md r (by omega) (by rw [hl2, hm])
      refine ⟨il, ?_, ?_⟩
      · intro j hj
        rw [ikeep j (by omega), ho2 j (by omega) (by omega), hframe j hj]
      · intro j h1 h2
        rcases Nat.eq_or_lt_of_le h1 with heq | hlt
        · subst heq
          exact ⟨_, _, by rw [ikeep (2 * k) (by omega), ha2],
            by rw [ikeep (2 * k + 1) (by omega), hb2]⟩
        · exact inew j hlt h2
    rw [cond_rect_mutate_loop, if_pos (by omega)]
    have hstep : 2 * k + 2 = 2 * (k + 1) := by ring
    simp only [hstep]
    refine key _ _ _ ?_ ?_
    · split_ifs <;> simp [hlen]
    · intro j hj
      split_ifs
      · rw [getD_set_ne _ _ _ _ (by omega), getD_set_ne _ _ _ _ (by omega)]
      · rw [getD_set_ne _ _ _ _ (by omega)]
      · rw [getD_set_ne _ _ _ _ (by omega)]
      · rfl

/-- The swap loop of `cond_rect_crossover` returns `changed = true` when it is
entered with `changed = true`. -/
theorem cond_rect_crossover_loop_changed (cl1 cl2 : List ℚ) (p2 : Int) :
    ∀ n (i : Int) (i1 i2 : List ℚ), (p2 - i).toNat = n →
      (cond_rect_crossover_loop cl1 cl2 p2 i1 i2 true i).2.2 = true := by
  intro n
  induction n with
  | zero =>
    intro i i1 i2 hn
    rw [cond_rect_crossover_loop, if_neg (by omega)]
  | succ n ih =>
    intro i i1 i2 hn
    rw [cond_rect_crossover_loop, if_pos (by omega)]
    split_ifs
    · exact ih (i + 1) _ _ (by omega)
    · exact ih (i + 1) _ _ (by omega)

/-- When the swap loop of `cond_rect_crossover` returns `changed = false`, it
has written to neither interval array. -/
theorem cond_rect_crossover_loop_unchanged (cl1 cl2 : List ℚ) (p2 : Int) :
    ∀ n (i : Int) (i1 i2 : List ℚ) (changed : Bool), (p2 - i).toNat = n →
      (cond_rect_crossover_loop cl1 cl2 p2 i1 i2 changed i).2.2 = false →
      (cond_rect_crossover_loop cl1 cl2 p2 i1 i2 changed i).1 = i1 ∧
      (cond_rect_crossover_loop cl1 cl2 p2 i1 i2 changed i).2.1 = i2 := by
  intro n
  induction n with
  | zero =>
    intro i i1 i2 changed hn _
    rw [cond_rect_crossover_loop, if_neg (by omega)]
    exact ⟨rfl, rfl⟩
  | succ n ih =>
    intro i i1 i2 changed hn hres
    rw [cond_rect_crossover_loop, if_pos (by omega)] at hres ⊢
    split_ifs at hres ⊢ with hne
    · rw [cond_rect_crossover_loop_changed cl1 cl2 p2 n (i + 1) _ _ (by omega)] at hres
      cases hres
    · exact ih (i + 1) i1 i2 changed (by omega) hres

/-- The swap loop of `cond_rect_crossover` keeps the lengths of both arrays. -/
theorem cond_rect_crossover_loop_length (cl1 cl2 : List ℚ) (p2 : Int) :
    ∀ n (i : Int) (i1 i2 : List ℚ) (changed : Bool), (p2 - i).toNat = n →
      (cond_rect_crossover_loop cl1 cl2 p2 i1 i2 changed i).1.length = i1.length ∧
      (cond_rect_crossover_loop cl1 cl2 p2 i1 i2 changed i).2.1.length = i2.length := by
  intro n
  induction n with
  | zero =>
    intro i i1 i2 changed hn
    rw [cond_rect_crossover_loop, if_neg (by omega)]
    exact ⟨rfl, rfl⟩
  | succ n ih =>
    intro i i1 i2 changed hn
    rw [cond_rect_crossover_loop, if_pos (by omega)]
    split_ifs
    · have h := ih (i + 1) (i1.set i.toNat (cl2.getD i.toNat 0))
        (i2.set i.toNat (i1.getD i.toNat 0)) true (by omega)
      simpa using h
    · exact ih (i + 1) i1 i2 changed (by omega)

/-- Copying back the first `n` entries of an array of length `n` over an array
of the same length gives the array copied from. -/
theorem memcpy_take (dst src : List ℚ) (n : Nat) (hs : src.length = n) (hd : dst.length = n) :
    memcpy dst (src.take n) n = src := by
  simp [memcpy, ← hs, hd.trans hs.symm]

/-- On two conditions of the shape given by `cond_rect_init`,
`cond_rect_crossover` returns with both interval arrays as they were. -/
theorem cond_rect_crossover_intervals (xcsf : XCSF) (c1 c2 : CL) (rng : Rng)
    (h1 : c1.cond.shaped xcsf) (h2 : c2.cond.shaped xcsf) :
    (cond_rect_crossover xcsf c1 c2 rng).1.cond.interval = c1.cond.interval ∧
    (cond_rect_crossover xcsf c1 c2 rng).2.1.cond.interval = c2.cond.interval := by
  unfold cond_rect_crossover
  simp only
  split_ifs with hp hch
  · obtain ⟨l1, l2⟩ := cond_rect_crossover_loop_length
      (c1.cond.interval.take c1.cond.interval_length)
      (c2.cond.interval.take c1.cond.interval_length)
      (cond_rect_crossover_points (irand 0 c1.cond.interval_length (drand rng).2).1
        (irand 0 c1.cond.interval_length
          (irand 0 c1.cond.interval_length (drand rng).2).2).1).2 _
      (cond_rect_crossover_points (irand 0 c1.cond.interval_length (drand rng).2).1
        (irand 0 c1.cond.interval_length
          (irand 0 c1.cond.interval_length (drand rng).2).2).1).1
      c1.cond.interval c2.cond.interval false rfl
    have e2 : c2.cond.interval.length = c1.cond.interval_length := by
      rw [h2.2, h2.1, h1.1]
    exact ⟨memcpy_take _ _ _ h1.2 (l1.trans h1.2), memcpy_take _ _ _ e2 (l2.trans e2)⟩
  · have hf := cond_rect_crossover_loop_unchanged
      (c1.cond.interval.take c1.cond.interval_length)
      (c2.cond.interval.take c1.cond.interval_length)
      (cond_rect_crossover_points (irand 0 c1.cond.interval_length (drand rng).2).1
        (irand 0 c1.cond.interval_length
          (irand 0 c1.cond.interval_length (drand rng).2).2).1).2 _
      (cond_rect_crossover_points (irand 0 c1.cond.interval_length (drand rng).2).1
        (irand 0 c1.cond.interval_length
          (irand 0 c1.cond.interval_length (drand rng).2).2).1).1
      c1.cond.interval c2.cond.interval false rfl (by simpa using hch)
    exact hf
  · exact ⟨rfl, rfl⟩

/-- C6: after each of `cond_rect_rand`, `cond_rect_cover` and `cond_rect_mutate`,
for any parameters and random draws, and after `cond_rect_crossover` on two
conditions that were ordered before, every dimension `i` of every affected
condition satisfies `lower_i <= upper_i`. -/
theorem cond_rect_ordered :
    (∀ (xcsf : XCSF) (c : CL) (rng : Rng), c.cond.shaped xcsf →
      ∀ i, i < xcsf.num_x_vars →
        (cond_rect_rand xcsf c rng).1.cond.lower i ≤ (cond_rect_rand xcsf c rng).1.cond.upper i) ∧
    (∀ (xcsf : XCSF) (c : CL) (x : List ℚ) (rng : Rng), c.cond.shaped xcsf →
      ∀ i, i < xcsf.num_x_vars →
        (cond_rect_cover xcsf c x rng).1.cond.lower i
          ≤ (cond_rect_cover xcsf c x rng).1.cond.upper i) ∧
    (∀ (sam_adapt : XCSF → List ℚ → Rng → List ℚ × Rng) (xcsf : XCSF) (c : CL) (rng : Rng),
      c.cond.shaped xcsf →
      ∀ i, i < xcsf.num_x_vars →
        (cond_rect_mutate sam_adapt xcsf c rng).2.1.cond.lower i
          ≤ (cond_rect_mutate sam_adapt xcsf c rng).2.1.cond.upper i) ∧
    (∀ (xcsf : XCSF) (c1 c2 : CL) (rng : Rng), c1.cond.shaped xcsf → c2.cond.shaped xcsf →
      (∀ i, i < xcsf.num_x_vars → c1.cond.lower i ≤ c1.cond.upper i) →
      (∀ i, i < xcsf.num_x_vars → c2.cond.lower i ≤ c2.cond.upper i) →
      ∀ i, i < xcsf.num_x_vars →
        (cond_rect_crossover xcsf c1 c2 rng).1.cond.lower i
            ≤ (cond_rect_crossover xcsf c1 c2 rng).1.cond.upper i ∧
          (cond_rect_crossover xcsf c1 c2 rng).2.1.cond.lower i
            ≤ (cond_rect_crossover xcsf c1 c2 rng).2.1.cond.upper i) := by
  refine ⟨?_, ?_, ?_, ?_⟩
  · intro xcsf c rng hc i hi
    obtain ⟨a, b, e1, e2⟩ := (cond_rect_rand_loop_spec xcsf xcsf.num_x_vars _ 0
      c.cond.interval rng rfl (by rw [hc.2, hc.1])).2.2 i (Nat.zero_le i) hi
    simp only [COND_RECT.lower, COND_RECT.upper, cond_rect_rand, hc.1]
    simp only [Nat.mul_zero] at e1 e2
    rw [e1, e2]
    exact cond_rect_bounds_ordered xcsf a b
  · intro xcsf c x rng hc i hi
    obtain ⟨n1, n2, e1, e2⟩ := (cond_rect_cover_loop_spec xcsf x xcsf.num_x_vars _ 0
      c.cond.interval rng rfl (by rw [hc.2, hc.1])).2.2 i (Nat.zero_le i) hi
    simp only [COND_RECT.lower, COND_RECT.upper, cond_rect_cover, hc.1]
    simp only [Nat.mul_zero] at e1 e2
    rw [e1, e2]
    exact cond_rect_bounds_ordered xcsf _ _
  · intro sam_adapt xcsf c rng hc i hi
    simp only [COND_RECT.lower, COND_RECT.upper, cond_rect_mutate, hc.1]
    obtain ⟨a, b, e1, e2⟩ := (cond_rect_mutate_loop_spec
      (if xcsf.NUM_SAM > 0 then
        ({ xcsf with P_MUTATION := (sam_adapt xcsf c.cond.mu rng).1.getD 0 0 },
          (sam_adapt xcsf c.cond.mu rng).1,
          if xcsf.NUM_SAM > 1 then (sam_adapt xcsf c.cond.mu rng).1.getD 1 0
          else xcsf.S_MUTATION, (sam_adapt xcsf c.cond.mu rng).2)
      else (xcsf, c.cond.mu, xcsf.S_MUTATION, rng)).1
      (if xcsf.NUM_SAM > 0 then
        ({ xcsf with P_MUTATION := (sam_adapt xcsf c.cond.mu rng).1.getD 0 0 },
          (sam_adapt xcsf c.cond.mu rng).1,
          if xcsf.NUM_SAM > 1 then (sam_adapt xcsf c.cond.mu rng).1.getD 1 0
          else xcsf.S_MUTATION, (sam_adapt xcsf c.cond.mu rng).2)
      else (xcsf, c.cond.mu, xcsf.S_MUTATION, rng)).1.P_MUTATION
      (if xcsf.NUM_SAM > 0 then
        ({ xcsf with P_MUTATION := (sam_adapt xcsf c.cond.mu rng).1.getD 0 0 },
          (sam_adapt xcsf c.cond.mu rng).1,
          if xcsf.NUM_SAM > 1 then (sam_adapt xcsf c.cond.mu rng).1.getD 1 0
          else xcsf.S_MUTATION, (sam_adapt xcsf c.cond.mu rng).2)
      else (xcsf, c.cond.mu, xcsf.S_MUTATION, rng)).2.2.1
      xcsf.num_x_vars _ 0 c.cond.interval false
      (if xcsf.NUM_SAM > 0 then
        ({ xcsf with P_MUTATION := (sam_adapt xcsf c.cond.mu rng).1.getD 0 0 },
          (sam_adapt xcsf c.cond.mu rng).1,
          if xcsf.NUM_SAM > 1 then (sam_adapt xcsf c.cond.mu rng).1.getD 1 0
          else xcsf.S_MUTATION, (sam_adapt xcsf c.cond.mu rng).2)
      else (xcsf, c.cond.mu, xcsf.S_MUTATION, rng)).2.2.2
      rfl (by rw [hc.2, hc.1])).2.2 i (Nat.zero_le i) hi
    simp only [Nat.mul_zero] at e1 e2
    rw [e1, e2]
    exact cond_rect_bounds_ordered _ a b
  · intro xcsf c1 c2 rng h1 h2 o1 o2 i hi
    obtain ⟨e1, e2⟩ := cond_rect_crossover_intervals xcsf c1 c2 rng h1 h2
    simp only [COND_RECT.lower, COND_RECT.upper, e1, e2]
    exact ⟨o1 i hi, o2 i hi⟩

/-- Witness of C6: the ordering invariant after `cond_rect_rand`,
`cond_rect_cover`, `cond_rect_mutate` and `cond_rect_crossover` on the
one-dimensional test condition. -/
theorem cond_rect_ordered_witness :
    (cond_rect_rand cover_xcsf cover_cl half_rng).1.cond.lower 0
      ≤ (cond_rect_rand cover_xcsf cover_cl half_rng).1.cond.upper 0 ∧
    (cond_rect_cover cover_xcsf cover_cl [1 / 2] half_rng).1.cond.lower 0
      ≤ (cond_rect_cover cover_xcsf cover_cl [1 / 2] half_rng).1.cond.upper 0 ∧
    (cond_rect_mutate (fun _ mu rng => (mu, rng)) cover_xcsf cover_cl half_rng).2.1.cond.lower 0
      ≤ (cond_rect_mutate (fun _ mu rng => (mu, rng)) cover_xcsf cover_cl
          half_rng).2.1.cond.upper 0 ∧
    ((cond_rect_crossover cover_xcsf cover_cl cover_cl half_rng).1.cond.lower 0
        ≤ (cond_rect_crossover cover_xcsf cover_cl cover_cl half_rng).1.cond.upper 0 ∧
      (cond_rect_crossover cover_xcsf cover_cl cover_cl half_rng).2.1.cond.lower 0
        ≤ (cond_rect_crossover cover_xcsf cover_cl cover_cl half_rng).2.1.cond.upper 0) :=
  have hs : cover_cl.cond.shaped cover_xcsf := by
    simp [COND_RECT.shaped, cover_xcsf, cover_cl]
  have h0 : 0 < cover_xcsf.num_x_vars := by simp [cover_xcsf]
  have ho : ∀ i, i < cover_xcsf.num_x_vars → cover_cl.cond.lower i ≤ cover_cl.cond.upper i := by
    intro i hi
    have hi0 : i = 0 := by simpa [cover_xcsf] using hi
    subst hi0
    simp [COND_RECT.lower, COND_RECT.upper, cover_cl]
  ⟨cond_rect_ordered.1 cover_xcsf cover_cl half_rng hs 0 h0,
    cond_rect_ordered.2.1 cover_xcsf cover_cl [1 / 2] half_rng hs 0 h0,
    cond_rect_ordered.2.2.1 (fun _ mu rng => (mu, rng)) cover_xcsf cover_cl half_rng hs 0 h0,
    cond_rect_ordered.2.2.2 cover_xcsf cover_cl cover_cl half_rng hs hs ho ho 0 h0⟩

/-! ## Offspring initialisation -/

/-- C7: for offspring `c1`, `c2` distinct from each other and from the parents,
`ea_init_offspring` gives, when `cmod` is true, both offspring
`err = ERR_REDUC * (p1.err + p2.err) / 2` and
`fit = FIT_REDUC * ((p1.fit / p1.num + p2.fit / p2.num) / 2)`; when `cmod` is
false, offspring `k` gets `err = ERR_REDUC * pk.err` and
`fit = FIT_REDUC * (pk.fit / pk.num)` from its own parent; the parents are
unchanged. -/
theorem ea_init_offspring_spec (s : State) (c1p c2p c1 c2 : Ptr) (cmod : Bool)
    (h12 : c1 ≠ c2) (h11 : c1 ≠ c1p) (h1p2 : c1 ≠ c2p) (h21 : c2 ≠ c1p) (h22 : c2 ≠ c2p) :
    (cmod = true →
      ((ea_init_offspring s c1p c2p c1 c2 cmod).heap c1).err
        = s.xcsf.ERR_REDUC * ((s.heap c1p).err + (s.heap c2p).err) / 2 ∧
      ((ea_init_offspring s c1p c2p c1 c2 cmod).heap c2).err
        = s.xcsf.ERR_REDUC * ((s.heap c1p).err + (s.heap c2p).err) / 2 ∧
      ((ea_init_offspring s c1p c2p c1 c2 cmod).heap c1).fit
        = s.xcsf.FIT_REDUC *
          (((s.heap c1p).fit / (s.heap c1p).num + (s.heap c2p).fit / (s.heap c2p).num) / 2) ∧
      ((ea_init_offspring s c1p c2p c1 c2 cmod).heap c2).fit
        = s.xcsf.FIT_REDUC *
          (((s.heap c1p).fit / (s.heap c1p).num + (s.heap c2p).fit / (s.heap c2p).num) / 2)) ∧
    (cmod = false →
      ((ea_init_offspring s c1p c2p c1 c2 cmod).heap c1).err
        = s.xcsf.ERR_REDUC * (s.heap c1p).err ∧
      ((ea_init_offspring s c1p c2p c1 c2 cmod).heap c2).err
        = s.xcsf.ERR_REDUC * (s.heap c2p).err ∧
      ((ea_init_offspring s c1p c2p c1 c2 cmod).heap c1).fit
        = s.xcsf.FIT_REDUC * ((s.heap c1p).fit / (s.heap c1p).num) ∧
      ((ea_init_offspring s c1p c2p c1 c2 cmod).heap c2).fit
        = s.xcsf.FIT_REDUC * ((s.heap c2p).fit / (s.heap c2p).num)) ∧
    (ea_init_offspring s c1p c2p c1 c2 cmod).heap c1p = s.heap c1p ∧
    (ea_init_offspring s c1p c2p c1 c2 cmod).heap c2p = s.heap c2p := by
  have h12' : c2 ≠ c1 := fun e => h12 e.symm
  have h11' : c1p ≠ c1 := fun e => h11 e.symm
  have h1p2' : c2p ≠ c1 := fun e => h1p2 e.symm
  have h21' : c1p ≠ c2 := fun e => h21 e.symm
  have h22' : c2p ≠ c2 := fun e => h22 e.symm
  refine ⟨?_, ?_, ?_, ?_⟩
  · intro hc
    subst hc
    simp [ea_init_offspring, set_err, set_fit, Function.update, h12, h12', h11', h1p2', h21',
      h22']
    refine ⟨?_, Or.inl ?_⟩ <;> norm_num <;> ring
  · intro hc
    subst hc
    simp [ea_init_offspring, set_err, set_fit, Function.update, h12, h12', h11', h1p2', h21',
      h22']
  · cases cmod <;>
      simp [ea_init_offspring, set_err, set_fit, Function.update, h11', h21']
  · cases cmod <;>
      simp [ea_init_offspring, set_err, set_fit, Function.update, h1p2', h22']

/-- Witness of C7: two parents at the pointers `0` and `1`, two offspring at
`2` and `3`, crossover having modified the offspring. -/
theorem ea_init_offspring_spec_witness :
    ((ea_init_offspring (ea_state 150) 0 1 2 3 true).heap 2).err
      = (ea_state 150).xcsf.ERR_REDUC *
          (((ea_state 150).heap 0).err + ((ea_state 150).heap 1).err) / 2 :=
  ((ea_init_offspring_spec (ea_state 150) 0 1 2 3 true (by decide) (by decide) (by decide)
    (by decide) (by decide)).1 rfl).1

/-! ## Subsumption of offspring -/

/-- The loop of `ea_subsume` appends to `candidates` the members of the list
that subsume the offspring, in list order. -/
theorem ea_subsume_loop_eq (E : Ext) (s : State) (c : Ptr) :
    ∀ (l candidates : List Ptr),
      ea_subsume_loop E s c l candidates
        = candidates ++ l.filter (subsumes_offspring E s c) := by
  intro l
  induction l with
  | nil => intro candidates; simp [ea_subsume_loop]
  | cons p l ih =>
    intro candidates
    by_cases hp : subsumes_offspring E s c p = true
    · have hp' := hp
      unfold subsumes_offspring at hp'
      rw [ea_subsume_loop, if_pos hp', ih, List.filter_cons_of_pos hp]
      simp
    · have hp' := hp
      unfold subsumes_offspring at hp'
      rw [ea_subsume_loop, if_neg hp', ih, List.filter_cons_of_neg hp]

/-- The result of `ea_subsume` when the first parent subsumes the offspring. -/
theorem ea_subsume_parent1 (E : Ext) (s : State) (c c1p c2p : Ptr) (set : Set)
    (h1 : subsumes_offspring E s c c1p = true) :
    ea_subsume E s c c1p c2p set = some (cl_free (incr_pset_num (incr_num s c1p)) c) := by
  unfold subsumes_offspring at h1
  rw [ea_subsume, if_pos h1]

/-- The result of `ea_subsume` when the first parent does not subsume the
offspring and the second does. -/
theorem ea_subsume_parent2 (E : Ext) (s : State) (c c1p c2p : Ptr) (set : Set)
    (h1 : subsumes_offspring E s c c1p = false) (h2 : subsumes_offspring E s c c2p = true) :
    ea_subsume E s c c1p c2p set = some (cl_free (incr_pset_num (incr_num s c2p)) c) := by
  unfold subsumes_offspring at h1 h2
  rw [ea_subsume, if_neg (by simp [h1]), if_pos h2]

/-- The result of `ea_subsume` when no parent subsumes the offspring, some
member of the set does and the integer drawn is an index of `candidates`. -/
theorem ea_subsume_member (E : Ext) (s : State) (c c1p c2p : Ptr) (set : Set)
    (h1 : subsumes_offspring E s c c1p = false) (h2 : subsumes_offspring E s c c2p = false)
    (hr0 : 0 ≤ s.rng.int 0)
    (hr1 : s.rng.int 0 < ((set.list.filter (subsumes_offspring E s c)).length : Int)) :
    ea_subsume E s c c1p c2p set
      = some (cl_free (incr_pset_num (incr_num
          { s with rng := (rand_uniform_int 0
            ((set.list.filter (subsumes_offspring E s c)).length : Int) s.rng).2 }
          ((set.list.filter (subsumes_offspring E s c)).getD (s.rng.int 0).toNat 0))) c) := by
  unfold subsumes_offspring at h1 h2
  rw [ea_subsume, if_neg (by simp [h1]), if_neg (by simp [h2])]
  simp only [ea_subsume_loop_eq, List.nil_append]
  have hpos : ((set.list.filter (subsumes_offspring E s c)).length : Int) > 0 := by omega
  rw [if_pos hpos, if_pos ⟨hr0, hr1⟩]
  rfl

/-- The result of `ea_subsume` when neither a parent nor a member of the set
subsumes the offspring. -/
theorem ea_subsume_none (E : Ext) (s : State) (c c1p c2p : Ptr) (set : Set)
    (h1 : subsumes_offspring E s c c1p = false) (h2 : subsumes_offspring E s c c2p = false)
    (h3 : ∀ m, m ∈ set.list → subsumes_offspring E s c m = false) :
    ea_subsume E s c c1p c2p set
      = some { s with xcsf := { s.xcsf with pset := clset_add s.heap s.xcsf.pset c } } := by
  have hf : set.list.filter (subsumes_offspring E s c) = [] := by
    rw [List.filter_eq_nil_iff]
    intro m hm
    simp [h3 m hm]
  unfold subsumes_offspring at h1 h2
  rw [ea_subsume, if_neg (by simp [h1]), if_neg (by simp [h2])]
  simp only [ea_subsume_loop_eq, List.nil_append, hf]
  simp

/-- The effect of `++(p->num); ++(xcsf->pset.num); cl_free(xcsf, c)`. -/
theorem absorbed_intro (s : State) (c p : Ptr) :
    absorbed s (cl_free (incr_pset_num (incr_num s p)) c) c p := by
  refine ⟨?_, ?_, rfl, rfl⟩
  · simp [cl_free, incr_pset_num, incr_num]
  · intro r hr
    simp [cl_free, incr_pset_num, incr_num, Function.update, hr]

/-- The effect of `clset_add(&xcsf->pset, c)`. -/
theorem inserted_intro (s : State) (c : Ptr) :
    inserted s { s with xcsf := { s.xcsf with pset := clset_add s.heap s.xcsf.pset c } } c :=
  ⟨rfl, rfl, rfl⟩

/-- The result of `ea_subsume` when no parent subsumes the offspring, some
member of the set does and the integer drawn is not an index of `candidates`. -/
theorem ea_subsume_out_of_range (E : Ext) (s : State) (c c1p c2p : Ptr) (set : Set)
    (h1 : subsumes_offspring E s c c1p = false) (h2 : subsumes_offspring E s c c2p = false)
    (h3 : ¬ ∀ m, m ∈ set.list → subsumes_offspring E s c m = false)
    (hr : ¬ (0 ≤ s.rng.int 0 ∧
      s.rng.int 0 < ((set.list.filter (subsumes_offspring E s c)).length : Int))) :
    ea_subsume E s c c1p c2p set = none := by
  have hpos : ((set.list.filter (subsumes_offspring E s c)).length : Int) > 0 := by
    push_neg at h3
    obtain ⟨m, hm, hq⟩ := h3
    have hmem : m ∈ set.list.filter (subsumes_offspring E s c) := by
      rw [List.mem_filter]
      exact ⟨hm, by simpa using hq⟩
    have := List.length_pos_of_mem hmem
    omega
  unfold subsumes_offspring at h1 h2
  rw [ea_subsume, if_neg (by simp [h1]), if_neg (by simp [h2])]
  simp only [ea_subsume_loop_eq, List.nil_append]
  rw [if_pos hpos]
  exact if_neg hr

/-- C8: in `ea_subsume` for an offspring `c`: if parent 1 is a subsumer and more
general than `c`, exactly the numerosity of parent 1 is incremented by 1;
otherwise if parent 2 qualifies, exactly that of parent 2; otherwise if a
member of the set qualifies (and the integer drawn is an index among the
qualifying members), exactly that of one qualifying member; in each of these
cases `c` is freed and not added to the population.  An offspring that was
not in the population before is in it afterwards if and only if neither a
parent nor a member of the set qualifies. -/
theorem ea_subsume_cases (E : Ext) (s : State) (c c1p c2p : Ptr) (set : Set) :
    (subsumes_offspring E s c c1p = true →
      ∃ t, ea_subsume E s c c1p c2p set = some t ∧ absorbed s t c c1p) ∧
    (subsumes_offspring E s c c1p = false → subsumes_offspring E s c c2p = true →
      ∃ t, ea_subsume E s c c1p c2p set = some t ∧ absorbed s t c c2p) ∧
    (subsumes_offspring E s c c1p = false → subsumes_offspring E s c c2p = false →
      (∃ m, m ∈ set.list ∧ subsumes_offspring E s c m = true) →
      0 ≤ s.rng.int 0 →
      s.rng.int 0 < ((set.list.filter (subsumes_offspring E s c)).length : Int) →
      ∃ m, m ∈ set.list ∧ subsumes_offspring E s c m = true ∧
        ∃ t, ea_subsume E s c c1p c2p set = some t ∧ absorbed s t c m) ∧
    (subsumes_offspring E s c c1p = false → subsumes_offspring E s c c2p = false →
      (∀ m, m ∈ set.list → subsumes_offspring E s c m = false) →
      ∃ t, ea_subsume E s c c1p c2p set = some t ∧ inserted s t c) ∧
    (c ∉ s.xcsf.pset.list → ∀ t, ea_subsume E s c c1p c2p set = some t →
      (c ∈ t.xcsf.pset.list ↔
        (subsumes_offspring E s c c1p = false ∧ subsumes_offspring E s c c2p = false ∧
          ∀ m, m ∈ set.list → subsumes_offspring E s c m = false))) := by
  refine ⟨?_, ?_, ?_, ?_, ?_⟩
  · intro h1
    exact ⟨_, ea_subsume_parent1 E s c c1p c2p set h1, absorbed_intro s c c1p⟩
  · intro h1 h2
    exact ⟨_, ea_subsume_parent2 E s c c1p c2p set h1 h2, absorbed_intro s c c2p⟩
  · intro h1 h2 _ hr0 hr1
    have hlt : (s.rng.int 0).toNat < (set.list.filter (subsumes_offspring E s c)).length := by
      omega
    have hmem : (set.list.filter (subsumes_offspring E s c)).getD (s.rng.int 0).toNat 0
        ∈ set.list.filter (subsumes_offspring E s c) := by
      rw [List.getD_eq_getElem _ _ hlt]
      exact List.getElem_mem _
    rw [List.mem_filter] at hmem
    refine ⟨_, hmem.1, hmem.2, _, ea_subsume_member E s c c1p c2p set h1 h2 hr0 hr1, ?_⟩
    exact absorbed_intro _ c _
  · intro h1 h2 h3
    exact ⟨_, ea_subsume_none E s c c1p c2p set h1 h2 h3, inserted_intro s c⟩
  · intro hc t ht
    by_cases h1 : subsumes_offspring E s c c1p = true
    · rw [ea_subsume_parent1 E s c c1p c2p set h1] at ht
      have e := (absorbed_intro s c c1p).2.2.1
      rw [Option.some.inj ht] at e
      rw [e]
      simp [hc, h1]
    · have h1' : subsumes_offspring E s c c1p = false := by simpa using h1
      by_cases h2 : subsumes_offspring E s c c2p = true
      · rw [ea_subsume_parent2 E s c c1p c2p set h1' h2] at ht
        have e := (absorbed_intro s c c2p).2.2.1
        rw [Option.some.inj ht] at e
        rw [e]
        simp [hc, h2]
      · have h2' : subsumes_offspring E s c c2p = false := by simpa using h2
        by_cases h3 : ∀ m, m ∈ set.list → subsumes_offspring E s c m = false
        · rw [ea_subsume_none E s c c1p c2p set h1' h2' h3] at ht
          have e := (inserted_intro s c).1
          rw [Option.some.inj ht] at e
          rw [e]
          exact ⟨fun _ => ⟨h1', h2', h3⟩, fun _ => List.mem_cons_self _ _⟩
        · by_cases hr : 0 ≤ s.rng.int 0 ∧
              s.rng.int 0 < ((set.list.filter (subsumes_offspring E s c)).length : Int)
          · rw [ea_subsume_member E s c c1p c2p set h1' h2' hr.1 hr.2] at ht
            have e := (absorbed_intro
              { s with rng := (rand_uniform_int 0
                ((set.list.filter (subsumes_offspring E s c)).length : Int) s.rng).2 } c
              ((set.list.filter (subsumes_offspring E s c)).getD (s.rng.int 0).toNat 0)).2.2.1
            rw [Option.some.inj ht] at e
            rw [e]
            constructor
            · intro hin
              exact absurd hin hc
            · intro hall
              exact absurd hall.2.2 h3
          · rw [ea_subsume_out_of_range E s c c1p c2p set h1' h2' h3 hr] at ht
            cases ht

/-- Witness of C8: the first parent of the test state subsumes the offspring. -/
theorem ea_subsume_cases_witness :
    subsumes_offspring ea_ext (ea_state 150) 2 0 = true ∧
    ∃ t, ea_subsume ea_ext (ea_state 150) 2 0 1 ea_set = some t ∧
      absorbed (ea_state 150) t 2 0 :=
  have h : subsumes_offspring ea_ext (ea_state 150) 2 0 = true := by
    simp [subsumes_offspring, ea_ext, ea_state, ea_heap]
    norm_num
  ⟨h, (ea_subsume_cases ea_ext (ea_state 150) 2 0 1 ea_set).1 h⟩

/-! ## Adding offspring -/

/-- C9: in `ea_add`, when neither crossover nor mutation modified the offspring,
the offspring is freed and not added to the population, the numerosity of its
own parent `c1p` is incremented by exactly 1, no other classifier changes and
no random number is drawn, whatever the value of `EA_SUBSUMPTION`; when the
offspring was modified and `EA_SUBSUMPTION` is off, the offspring is added to
the population and no classifier changes. -/
theorem ea_add_spec (E : Ext) (s : State) (set : Set) (c1p c2p c1 : Ptr) (cmod mmod : Bool) :
    (cmod = false → mmod = false →
      ∃ t, ea_add E s set c1p c2p c1 cmod mmod = some t ∧ absorbed s t c1 c1p ∧
        t.rng = s.rng) ∧
    ((cmod = true ∨ mmod = true) → s.xcsf.EA_SUBSUMPTION = false →
      ∃ t, ea_add E s set c1p c2p c1 cmod mmod = some t ∧ inserted s t c1) := by
  constructor
  · intro hc hm
    subst hc hm
    exact ⟨_, by simp [ea_add], absorbed_intro s c1 c1p, rfl⟩
  · intro hcm hsub
    refine ⟨_, ?_, inserted_intro s c1⟩
    rcases hcm with h | h <;> subst h <;> simp [ea_add, hsub]

/-- Witness of C9: an unmodified offspring of the first parent of the test
state. -/
theorem ea_add_spec_witness :
    ∃ t, ea_add ea_ext (ea_state 150) ea_set 0 1 2 false false = some t ∧
      absorbed (ea_state 150) t 2 0 ∧ t.rng = (ea_state 150).rng :=
  (ea_add_spec ea_ext (ea_state 150) ea_set 0 1 2 false false).1 rfl rfl

/-! ## The numerosity counter under subsumption -/

/-- C10 fails as stated: in the test state the first parent subsumes the
offspring and the call of `ea_subsume` raises `pset.num` from 2 to 3. -/
theorem ea_subsume_pset_num_grows :
    subsumes_offspring ea_ext (ea_state 150) 2 0 = true ∧
    (ea_state 150).xcsf.pset.num = 2 ∧
    (ea_subsume ea_ext (ea_state 150) 2 0 1 ea_set).map (fun t => t.xcsf.pset.num) = some 3 := by
  have h : subsumes_offspring ea_ext (ea_state 150) 2 0 = true := by
    simp [subsumes_offspring, ea_ext, ea_state, ea_heap]
    norm_num
  refine ⟨h, rfl, ?_⟩
  rw [ea_subsume_parent1 _ _ _ _ _ _ h]
  simp [cl_free, incr_pset_num, incr_num, ea_state]

/-- C10, amended: whenever `ea_subsume` subsumes an offspring (under parent 1,
parent 2 or a member of the set), the call increases the population
numerosity counter `pset.num` by exactly 1. -/
theorem ea_subsume_pset_num (E : Ext) (s : State) (c c1p c2p : Ptr) (set : Set) :
    (subsumes_offspring E s c c1p = true →
      ∃ t, ea_subsume E s c c1p c2p set = some t ∧
        t.xcsf.pset.num = s.xcsf.pset.num + 1) ∧
    (subsumes_offspring E s c c1p = false → subsumes_offspring E s c c2p = true →
      ∃ t, ea_subsume E s c c1p c2p set = some t ∧
        t.xcsf.pset.num = s.xcsf.pset.num + 1) ∧
    (subsumes_offspring E s c c1p = false → subsumes_offspring E s c c2p = false →
      0 ≤ s.rng.int 0 →
      s.rng.int 0 < ((set.list.filter (subsumes_offspring E s c)).length : Int) →
      ∃ t, ea_subsume E s c c1p c2p set = some t ∧
        t.xcsf.pset.num = s.xcsf.pset.num + 1) := by
  refine ⟨?_, ?_, ?_⟩
  · intro h1
    exact ⟨_, ea_subsume_parent1 E s c c1p c2p set h1, rfl⟩
  · intro h1 h2
    exact ⟨_, ea_subsume_parent2 E s c c1p c2p set h1 h2, rfl⟩
  · intro h1 h2 hr0 hr1
    exact ⟨_, ea_subsume_member E s c c1p c2p set h1 h2 hr0 hr1, rfl⟩

/-- Witness of the amended C10: the first parent of the test state subsumes
the offspring and `pset.num` grows by one. -/
theorem ea_subsume_pset_num_witness :
    ∃ t, ea_subsume ea_ext (ea_state 150) 2 0 1 ea_set = some t ∧
      t.xcsf.pset.num = (ea_state 150).xcsf.pset.num + 1 :=
  (ea_subsume_pset_num ea_ext (ea_state 150) 2 0 1 ea_set).1 (by
    simp [subsumes_offspring, ea_ext, ea_state, ea_heap]
    norm_num)

/-! ## The trigger of the EA -/

/-- The part of `ea` after the check never returns through the early `return`. -/
theorem ea_run_not_skipped (E : Ext) (fuel : Nat) (s : State) (set : Set) (u : State) :
    ea_run E fuel s set ≠ some (EaExit.skipped, u) := by
  unfold ea_run
  simp only
  split
  · simp
  · split
    · simp
    · simp

/-- The statement `++(p->num)` changes no `time` field. -/
theorem incr_num_time (s : State) (p q : Ptr) :
    ((incr_num s p).heap q).time = (s.heap q).time := by
  unfold incr_num
  by_cases h : q = p <;> simp [Function.update, h]

/-- The statement `p->err = v` changes no `time` field. -/
theorem set_err_time (s : State) (p q : Ptr) (v : ℚ) :
    ((set_err s p v).heap q).time = (s.heap q).time := by
  unfold set_err
  by_cases h : q = p <;> simp [Function.update, h]

/-- The statement `p->fit = v` changes no `time` field. -/
theorem set_fit_time (s : State) (p q : Ptr) (v : ℚ) :
    ((set_fit s p v).heap q).time = (s.heap q).time := by
  unfold set_fit
  by_cases h : q = p <;> simp [Function.update, h]

/-- The function `ea_init_offspring` changes no `time` field. -/
theorem ea_init_offspring_time (s : State) (c1p c2p c1 c2 q : Ptr) (cmod : Bool) :
    ((ea_init_offspring s c1p c2p c1 c2 cmod).heap q).time = (s.heap q).time := by
  cases cmod <;> simp [ea_init_offspring, set_err_time, set_fit_time]

/-- The function `ea_init_offspring` leaves the `XCSF` structure as it is. -/
theorem ea_init_offspring_xcsf (s : State) (c1p c2p c1 c2 : Ptr) (cmod : Bool) :
    (ea_init_offspring s c1p c2p c1 c2 cmod).xcsf = s.xcsf := by
  cases cmod <;> rfl

/-- Roulette wheel selection when both draws are at most the fitness of the
first classifier of the list: both parents are that classifier, and only the
generator has changed. -/
theorem ea_select_roulette_first (fuel : Nat) (s : State) (set : Set) (iter : Ptr)
    (next : List Ptr) (ht : s.xcsf.EA_SELECT_TYPE = EA_SELECT_ROULETTE)
    (hl : set.list = iter :: next) (h0 : s.rng.real 0 ≤ (s.heap iter).fit)
    (h1 : s.rng.real 1 ≤ (s.heap iter).fit) :
    ∃ t, ea_select fuel s set = some (iter, iter, t) ∧ t.xcsf = s.xcsf ∧ t.heap = s.heap ∧
      t.next = s.next ∧ t.freed = s.freed := by
  have e1 : ∀ fs, ea_select_rw s set fs
      = some (iter, { s with rng := (rand_uniform 0 fs s.rng).2 }) := by
    intro fs
    unfold ea_select_rw
    simp only [hl]
    have hn : ¬ ((rand_uniform 0 fs s.rng).1 > (s.heap iter).fit) := not_lt.mpr h0
    rw [ea_select_rw_loop.eq_def, if_neg hn]
    rfl
  have e2 : ∀ fs, ea_select_rw { s with rng := (rand_uniform 0 fs s.rng).2 } set fs
      = some (iter, { s with rng := (rand_uniform 0 fs (rand_uniform 0 fs s.rng).2).2 }) := by
    intro fs
    unfold ea_select_rw
    simp only [hl]
    have hn : ¬ ((rand_uniform 0 fs (rand_uniform 0 fs s.rng).2).1 > (s.heap iter).fit) :=
      not_lt.mpr h1
    rw [ea_select_rw_loop.eq_def, if_neg hn]
    rfl
  unfold ea_select
  rw [if_pos ht]
  simp only [e1, e2]
  exact ⟨_, rfl, rfl, rfl, rfl, rfl⟩

/-- One pass through the body of the offspring loop with the external
functions `ea_ext`, for parents allocated earlier: both offspring are
unmodified and discarded, the clock, `LAMBDA` and the `time` of every
classifier allocated earlier are as before. -/
theorem ea_ext_offspring (s : State) (set : Set) (c1p c2p : Ptr) :
    ∃ t, ea_offspring ea_ext s set c1p c2p = some t ∧ t.xcsf.time = s.xcsf.time ∧
      t.xcsf.LAMBDA = s.xcsf.LAMBDA ∧
      ∀ q, q < s.next → (t.heap q).time = (s.heap q).time := by
  unfold ea_offspring
  simp only [ea_ext, ea_add, Bool.not_false, Bool.and_self, if_true]
  refine ⟨_, rfl, ?_, ?_, ?_⟩
  · simp [cl_free, incr_pset_num, incr_num, ea_init_offspring_xcsf, malloc]
  · simp [cl_free, incr_pset_num, incr_num, ea_init_offspring_xcsf, malloc]
  · intro q hq
    have hq1 : q ≠ s.next := Nat.ne_of_lt hq
    have hq2 : q ≠ s.next + 1 := Nat.ne_of_lt (Nat.lt_succ_of_lt hq)
    simp [cl_free, incr_pset_num, incr_num_time, ea_init_offspring_time, malloc,
      Function.update, hq1, hq2]

/-- C3 fails as stated: with `THETA_EA = 50`, both classifiers of the set at
`time = 100` (mean time 100) and the clock incremented to `t = 150`, the EA
runs: `ea` returns at the end of its body, with the clock at 150 and the time
of both classifiers set to 150. -/
theorem ea_runs_at_threshold :
    (ea_state 149).xcsf.THETA_EA = 50 ∧
    clset_mean_time (ea_state 149).heap ea_set = 100 ∧
    ∃ t, ea ea_ext 5 (ea_state 149) ea_set = some (EaExit.completed, t) ∧
      t.xcsf.time = 150 ∧ (t.heap 0).time = 150 ∧ (t.heap 1).time = 150 := by
  have hmean : clset_mean_time (ea_state 149).heap ea_set = 100 := by
    simp [clset_mean_time, ea_state, ea_set, ea_heap]
    norm_num
  refine ⟨rfl, hmean, ?_⟩
  have hguard : ¬ (ea_set.size = 0 ∨
      ((incr_time (ea_state 149)).xcsf.time : ℚ)
        - clset_mean_time (incr_time (ea_state 149)).heap ea_set
        < (incr_time (ea_state 149)).xcsf.THETA_EA) := by
    have e : (incr_time (ea_state 149)).heap = (ea_state 149).heap := rfl
    rw [e, hmean]
    simp [incr_time, ea_state, ea_set]
    norm_num
  obtain ⟨s1, hsel, hx1, hh1, hn1, -⟩ := ea_select_roulette_first 5
    (clset_set_times (incr_time (ea_state 149)) ea_set) ea_set 0 [1] rfl rfl
    (by simp [clset_set_times, incr_time, ea_state, ea_set, ea_heap])
    (by simp [clset_set_times, incr_time, ea_state, ea_set, ea_heap])
  obtain ⟨s2, hoff, hx2, hl2, hh2⟩ := ea_ext_offspring s1 ea_set 0 0
  have hL1 : s1.xcsf.LAMBDA = 2 := by rw [hx1]; rfl
  have hT1 : s1.xcsf.time = 150 := by rw [hx1]; rfl
  have hloop : ea_loop ea_ext ea_set 0 0 5 s1 0 = some s2 := by
    rw [ea_loop, if_pos (by rw [hL1]; decide)]
    simp only [hoff]
    rw [ea_loop, if_neg (by rw [hl2, hL1]; decide)]
  refine ⟨s2, ?_, ?_, ?_, ?_⟩
  · unfold ea
    simp only
    rw [if_neg hguard]
    unfold ea_run
    simp only [hsel, hloop]
    rfl
  · rw [hx2, hT1]
  · rw [hh2 0 (by rw [hn1]; decide), hh1]
    simp [clset_set_times, incr_time, ea_state, ea_set, Function.update]
  · rw [hh2 1 (by rw [hn1]; decide), hh1]
    simp [clset_set_times, incr_time, ea_state, ea_set, Function.update]

/-- C3, amended: `ea` passes the check and runs the EA (sets the times, selects
the parents, creates the offspring) if and only if the set is non-empty and
`t - mean_time(set) >= THETA_EA`, where `t` is the incremented clock; otherwise
it returns at the check with only the clock incremented. -/
theorem ea_trigger (E : Ext) (fuel : Nat) (s : State) (set : Set) :
    ((∀ u, ea E fuel s set ≠ some (EaExit.skipped, u)) ↔
      (set.size ≠ 0 ∧
        s.xcsf.THETA_EA ≤ ((s.xcsf.time + 1 : Int) : ℚ) - clset_mean_time s.heap set)) ∧
    ((set.size ≠ 0 ∧
        s.xcsf.THETA_EA ≤ ((s.xcsf.time + 1 : Int) : ℚ) - clset_mean_time s.heap set) →
      ea E fuel s set = ea_run E fuel (incr_time s) set) ∧
    (¬ (set.size ≠ 0 ∧
        s.xcsf.THETA_EA ≤ ((s.xcsf.time + 1 : Int) : ℚ) - clset_mean_time s.heap set) →
      ea E fuel s set = some (EaExit.skipped, incr_time s)) := by
  have hrun : (set.size ≠ 0 ∧
        s.xcsf.THETA_EA ≤ ((s.xcsf.time + 1 : Int) : ℚ) - clset_mean_time s.heap set) →
      ea E fuel s set = ea_run E fuel (incr_time s) set := by
    intro hg
    unfold ea
    simp only
    rw [if_neg]
    intro hor
    rcases hor with h0 | hlt
    · exact hg.1 h0
    · exact absurd hg.2 (not_le.mpr hlt)
  have hskip : ¬ (set.size ≠ 0 ∧
        s.xcsf.THETA_EA ≤ ((s.xcsf.time + 1 : Int) : ℚ) - clset_mean_time s.heap set) →
      ea E fuel s set = some (EaExit.skipped, incr_time s) := by
    intro hg
    unfold ea
    simp only
    rw [if_pos]
    by_cases h0 : set.size = 0
    · exact Or.inl h0
    · right
      by_contra hlt
      exact hg ⟨h0, not_lt.mp hlt⟩
  refine ⟨⟨?_, ?_⟩, hrun, hskip⟩
  · intro hall
    by_contra hg
    exact hall _ (hskip hg)
  · intro hg u
    rw [hrun hg]
    exact ea_run_not_skipped E fuel (incr_time s) set u

/-- Witness of the amended C3: with `THETA_EA = 50` and both classifiers of the
set at `time = 100`, the EA runs at `t = 150` and at `t = 151` and is skipped
at `t = 149`. -/
theorem ea_trigger_witness :
    ea ea_ext 5 (ea_state 149) ea_set = ea_run ea_ext 5 (incr_time (ea_state 149)) ea_set ∧
    ea ea_ext 5 (ea_state 150) ea_set = ea_run ea_ext 5 (incr_time (ea_state 150)) ea_set ∧
    ea ea_ext 5 (ea_state 148) ea_set = some (EaExit.skipped, incr_time (ea_state 148)) :=
  have hmean : ∀ t, clset_mean_time (ea_state t).heap ea_set = 100 := by
    intro t
    simp [clset_mean_time, ea_state, ea_set, ea_heap]
    norm_num
  ⟨(ea_trigger ea_ext 5 (ea_state 149) ea_set).2.1 (by
      rw [hmean]
      simp [ea_state, ea_set]
      norm_num),
    (ea_trigger ea_ext 5 (ea_state 150) ea_set).2.1 (by
      rw [hmean]
      simp [ea_state, ea_set]
      norm_num),
    (ea_trigger ea_ext 5 (ea_state 148) ea_set).2.2 (by
      rw [hmean]
      simp [ea_state, ea_set]
      norm_num)⟩

/-! ## The numerosity-counter invariant -/

/-- The sum of the numerosities over a list that does not hold `p` does not
depend on the classifier at `p`. -/
theorem num_sum_frame (h h' : Heap) (p : Ptr) (hothers : ∀ r, r ≠ p → h' r = h r) :
    ∀ l : List Ptr, p ∉ l →
      (l.map fun q => (h' q).num).sum = (l.map fun q => (h q).num).sum := by
  intro l
  induction l with
  | nil => intro _; rfl
  | cons q l ih =>
    intro hp
    have hq : q ≠ p := fun e => hp (by rw [e]; exact List.mem_cons_self _ _)
    have hl : p ∉ l := fun e => hp (List.mem_cons_of_mem _ e)
    simp only [List.map_cons, List.sum_cons, ih hl, hothers q hq]

/-- Raising the numerosity of one member of a list without repetition by one
raises the sum of the numerosities over the list by one. -/
theorem num_sum_incr (h h' : Heap) (p : Ptr) (hnum : (h' p).num = (h p).num + 1)
    (hothers : ∀ r, r ≠ p → h' r = h r) :
    ∀ l : List Ptr, l.Nodup → p ∈ l →
      (l.map fun q => (h' q).num).sum = (l.map fun q => (h q).num).sum + 1 := by
  intro l
  induction l with
  | nil => intro _ hp; cases hp
  | cons q l ih =>
    intro hnd hp
    rw [List.nodup_cons] at hnd
    by_cases hq : q = p
    · subst hq
      simp only [List.map_cons, List.sum_cons, num_sum_frame h h' q hothers l hnd.1, hnum]
      ring
    · have hl : p ∈ l := by
        rcases List.mem_cons.mp hp with e | e
        · exact absurd e.symm hq
        · exact e
      simp only [List.map_cons, List.sum_cons, ih hnd.2 hl, hothers q hq]
      ring

/-- The numerosity-counter invariant survives discarding an offspring in
favour of a member of the population. -/
theorem pset_num_inv_absorbed (s : State) (c p : Ptr) (hinv : pset_num_inv s)
    (hp : p ∈ s.xcsf.pset.list) :
    pset_num_inv (cl_free (incr_pset_num (incr_num s p)) c) := by
  obtain ⟨hnum, hothers, -, -⟩ := absorbed_intro s c p
  refine ⟨hinv.1, ?_⟩
  have hsum := num_sum_incr s.heap (cl_free (incr_pset_num (incr_num s p)) c).heap p hnum
    hothers s.xcsf.pset.list hinv.1 hp
  have hcnt : (cl_free (incr_pset_num (incr_num s p)) c).xcsf.pset.num
      = s.xcsf.pset.num + 1 := rfl
  have hlist : (cl_free (incr_pset_num (incr_num s p)) c).xcsf.pset.list
      = s.xcsf.pset.list := rfl
  unfold clset_num_sum
  rw [hcnt, hlist, hsum, hinv.2]
  rfl

/-- C11: if before `ea_add` the population list holds every classifier once,
the counter `pset.num` equals the sum of `num` over the population members,
and both parents and all set members are population members, then after
every outcome of `ea_add` that does not insert the offspring (identical
offspring discarded, or offspring subsumed by a parent or a set member)
`pset.num` still equals the sum of `num` over the population members. -/
theorem ea_add_keeps_num_counter (E : Ext) (s t : State) (set : Set) (c1p c2p c1 : Ptr)
    (cmod mmod : Bool) (hinv : pset_num_inv s)
    (h1 : c1p ∈ s.xcsf.pset.list) (h2 : c2p ∈ s.xcsf.pset.list)
    (hset : ∀ m, m ∈ set.list → m ∈ s.xcsf.pset.list)
    (ht : ea_add E s set c1p c2p c1 cmod mmod = some t)
    (hni : t.xcsf.pset.list = s.xcsf.pset.list) :
    pset_num_inv t := by
  have hins : ∀ c, some { s with xcsf := { s.xcsf with pset := clset_add s.heap s.xcsf.pset c } }
      = some t → pset_num_inv t := by
    intro c e
    have e' := (inserted_intro s c).1
    rw [Option.some.inj e, hni] at e'
    exact absurd e'.symm (List.cons_ne_self _ _)
  unfold ea_add at ht
  split_ifs at ht with hid hsub
  · rw [← Option.some.inj ht]
    exact pset_num_inv_absorbed s c1 c1p hinv h1
  · by_cases q1 : subsumes_offspring E s c1 c1p = true
    · rw [ea_subsume_parent1 E s c1 c1p c2p set q1] at ht
      rw [← Option.some.inj ht]
      exact pset_num_inv_absorbed s c1 c1p hinv h1
    · have q1' : subsumes_offspring E s c1 c1p = false := by simpa using q1
      by_cases q2 : subsumes_offspring E s c1 c2p = true
      · rw [ea_subsume_parent2 E s c1 c1p c2p set q1' q2] at ht
        rw [← Option.some.inj ht]
        exact pset_num_inv_absorbed s c1 c2p hinv h2
      · have q2' : subsumes_offspring E s c1 c2p = false := by simpa using q2
        by_cases q3 : ∀ m, m ∈ set.list → subsumes_offspring E s c1 m = false
        · rw [ea_subsume_none E s c1 c1p c2p set q1' q2' q3] at ht
          exact hins c1 ht
        · by_cases hr : 0 ≤ s.rng.int 0 ∧
              s.rng.int 0 < ((set.list.filter (subsumes_offspring E s c1)).length : Int)
          · rw [ea_subsume_member E s c1 c1p c2p set q1' q2' hr.1 hr.2] at ht
            rw [← Option.some.inj ht]
            have hlt : (s.rng.int 0).toNat
                < (set.list.filter (subsumes_offspring E s c1)).length := by omega
            have hmem : (set.list.filter (subsumes_offspring E s c1)).getD
                (s.rng.int 0).toNat 0 ∈ set.list.filter (subsumes_offspring E s c1) := by
              rw [List.getD_eq_getElem _ _ hlt]
              exact List.getElem_mem _
            exact pset_num_inv_absorbed
              { s with rng := (rand_uniform_int 0
                ((set.list.filter (subsumes_offspring E s c1)).length : Int) s.rng).2 } c1 _
              hinv (hset _ (List.mem_filter.mp hmem).1)
          · rw [ea_subsume_out_of_range E s c1 c1p c2p set q1' q2' q3 hr] at ht
            cases ht
  · exact hins c1 ht

/-- Witness of C11: an unmodified offspring of the first parent of the test
state is discarded and the counter still equals the sum. -/
theorem ea_add_keeps_num_counter_witness :
    pset_num_inv (ea_state 150) ∧
    pset_num_inv (cl_free (incr_pset_num (incr_num (ea_state 150) 0)) 2) :=
  have hinv : pset_num_inv (ea_state 150) := by
    refine ⟨by simp [ea_state], ?_⟩
    simp [clset_num_sum, ea_state, ea_heap]
  ⟨hinv, ea_add_keeps_num_counter ea_ext (ea_state 150) _ ea_set 0 1 2 false false hinv
    (by simp [ea_state]) (by simp [ea_state])
    (by intro m hm; simpa [ea_set, ea_state] using hm)
    (by simp [ea_add]) rfl⟩

/-! ## Classifier invariants of the offspring -/

/-- The statement `p->err = v` with `v >= 0` leaves the error of `q`
non-negative when it was so before or when `q` is `p`. -/
theorem set_err_err_nonneg (s : State) (p q : Ptr) (v : ℚ) (hv : 0 ≤ v)
    (h : 0 ≤ (s.heap q).err ∨ q = p) : 0 ≤ ((set_err s p v).heap q).err := by
  unfold set_err
  by_cases hq : q = p
  · simp [Function.update, hq, hv]
  · rcases h with h | h
    · simpa [Function.update, hq] using h
    · exact absurd h hq

/-- The statement `p->fit = v` changes no error. -/
theorem set_fit_err (s : State) (p q : Ptr) (v : ℚ) :
    ((set_fit s p v).heap q).err = (s.heap q).err := by
  unfold set_fit
  by_cases hq : q = p <;> simp [Function.update, hq]

/-- The statement `p->fit = v` with `v > 0` leaves the fitness of `q` positive
when it was so before or when `q` is `p`. -/
theorem set_fit_fit_pos (s : State) (p q : Ptr) (v : ℚ) (hv : 0 < v)
    (h : 0 < (s.heap q).fit ∨ q = p) : 0 < ((set_fit s p v).heap q).fit := by
  unfold set_fit
  by_cases hq : q = p
  · simp [Function.update, hq, hv]
  · rcases h with h | h
    · simpa [Function.update, hq] using h
    · exact absurd h hq

/-- The statement `p->err = v` changes no fitness. -/
theorem set_err_fit (s : State) (p q : Ptr) (v : ℚ) :
    ((set_err s p v).heap q).fit = (s.heap q).fit := by
  unfold set_err
  by_cases hq : q = p <;> simp [Function.update, hq]

/-- The statement `p->err = v` changes no numerosity. -/
theorem set_err_num (s : State) (p q : Ptr) (v : ℚ) :
    ((set_err s p v).heap q).num = (s.heap q).num := by
  unfold set_err
  by_cases hq : q = p <;> simp [Function.update, hq]

/-- The statement `p->fit = v` changes no numerosity. -/
theorem set_fit_num (s : State) (p q : Ptr) (v : ℚ) :
    ((set_fit s p v).heap q).num = (s.heap q).num := by
  unfold set_fit
  by_cases hq : q = p <;> simp [Function.update, hq]

/-- A positive fitness divided by a numerosity of at least one is positive. -/
theorem fit_div_num_pos (f : ℚ) (n : Int) (hf : 0 < f) (hn : 1 ≤ n) : 0 < f / (n : ℚ) := by
  have hq : (0 : ℚ) < (n : ℚ) := by
    have : (0 : Int) < n := by omega
    exact_mod_cast this
  exact div_pos hf hq

/-- C12: if both parents have `fit > 0`, `err >= 0` and `num >= 1`, and
`FIT_REDUC > 0` and `ERR_REDUC >= 0`, then after `ea_init_offspring` both
offspring have `fit > 0` and `err >= 0`, for either value of `cmod`. -/
theorem ea_init_offspring_invariants (s : State) (c1p c2p c1 c2 : Ptr) (cmod : Bool)
    (hf1 : 0 < (s.heap c1p).fit) (he1 : 0 ≤ (s.heap c1p).err) (hn1 : 1 ≤ (s.heap c1p).num)
    (hf2 : 0 < (s.heap c2p).fit) (he2 : 0 ≤ (s.heap c2p).err) (hn2 : 1 ≤ (s.heap c2p).num)
    (hF : 0 < s.xcsf.FIT_REDUC) (hE : 0 ≤ s.xcsf.ERR_REDUC) :
    0 < ((ea_init_offspring s c1p c2p c1 c2 cmod).heap c1).fit ∧
    0 ≤ ((ea_init_offspring s c1p c2p c1 c2 cmod).heap c1).err ∧
    0 < ((ea_init_offspring s c1p c2p c1 c2 cmod).heap c2).fit ∧
    0 ≤ ((ea_init_offspring s c1p c2p c1 c2 cmod).heap c2).err := by
  have hx : ∀ (t : State) (p : Ptr) (v : ℚ), (set_err t p v).xcsf = t.xcsf := fun _ _ _ => rfl
  have hy : ∀ (t : State) (p : Ptr) (v : ℚ), (set_fit t p v).xcsf = t.xcsf := fun _ _ _ => rfl
  cases cmod
  · unfold ea_init_offspring
    simp only [Bool.false_eq_true, if_false]
    have v1 : 0 ≤ s.xcsf.ERR_REDUC * (s.heap c1p).err := mul_nonneg hE he1
    generalize hs1 : set_err s c1 (s.xcsf.ERR_REDUC * (s.heap c1p).err) = s1
    have x1 : s1.xcsf = s.xcsf := by rw [← hs1]; rfl
    have e1 : ∀ q, (0 ≤ (s.heap q).err ∨ q = c1) → 0 ≤ (s1.heap q).err := by
      intro q h; rw [← hs1]; exact set_err_err_nonneg s c1 q _ v1 h
    have f1 : ∀ q, (s1.heap q).fit = (s.heap q).fit := by
      intro q; rw [← hs1]; exact set_err_fit s c1 q _
    have n1 : ∀ q, (s1.heap q).num = (s.heap q).num := by
      intro q; rw [← hs1]; exact set_err_num s c1 q _
    have v2 : 0 ≤ s1.xcsf.ERR_REDUC * (s1.heap c2p).err :=
      mul_nonneg (by rw [x1]; exact hE) (e1 c2p (Or.inl he2))
    generalize hs2 : set_err s1 c2 (s1.xcsf.ERR_REDUC * (s1.heap c2p).err) = s2
    have x2 : s2.xcsf = s.xcsf := by rw [← hs2, ← x1]; rfl
    have e2 : ∀ q, (0 ≤ (s1.heap q).err ∨ q = c2) → 0 ≤ (s2.heap q).err := by
      intro q h; rw [← hs2]; exact set_err_err_nonneg s1 c2 q _ v2 h
    have f2 : ∀ q, (s2.heap q).fit = (s.heap q).fit := by
      intro q; rw [← hs2, set_err_fit, f1]
    have n2 : ∀ q, (s2.heap q).num = (s.heap q).num := by
      intro q; rw [← hs2, set_err_num, n1]
    have v3 : 0 < s2.xcsf.FIT_REDUC * ((s2.heap c1p).fit / ((s2.heap c1p).num : ℚ)) := by
      rw [x2, f2, n2]
      exact mul_pos hF (fit_div_num_pos _ _ hf1 hn1)
    generalize hs3 : set_fit s2 c1
      (s2.xcsf.FIT_REDUC * ((s2.heap c1p).fit / ((s2.heap c1p).num : ℚ))) = s3
    have x3 : s3.xcsf = s.xcsf := by rw [← hs3, ← x2]; rfl
    have f3 : ∀ q, (0 < (s2.heap q).fit ∨ q = c1) → 0 < (s3.heap q).fit := by
      intro q h; rw [← hs3]; exact set_fit_fit_pos s2 c1 q _ v3 h
    have e3 : ∀ q, (s3.heap q).err = (s2.heap q).err := by
      intro q; rw [← hs3]; exact set_fit_err s2 c1 q _
    have n3 : ∀ q, (s3.heap q).num = (s.heap q).num := by
      intro q; rw [← hs3, set_fit_num, n2]
    have v4 : 0 < s3.xcsf.FIT_REDUC * ((s3.heap c2p).fit / ((s3.heap c2p).num : ℚ)) := by
      rw [x3, n3]
      exact mul_pos hF (fit_div_num_pos _ _ (f3 c2p (Or.inl (by rw [f2]; exact hf2))) hn2)
    refine ⟨?_, ?_, ?_, ?_⟩
    · exact set_fit_fit_pos s3 c2 c1 _ v4 (Or.inl (f3 c1 (Or.inr rfl)))
    · rw [set_fit_err, e3]
      exact e2 c1 (Or.inl (e1 c1 (Or.inr rfl)))
    · exact set_fit_fit_pos s3 c2 c2 _ v4 (Or.inr rfl)
    · rw [set_fit_err, e3]
      exact e2 c2 (Or.inr rfl)
  · unfold ea_init_offspring
    simp only [if_true]
    have v1 : 0 ≤ s.xcsf.ERR_REDUC * (((s.heap c1p).err + (s.heap c2p).err) * 0.5) := by
      apply mul_nonneg hE
      apply mul_nonneg (add_nonneg he1 he2)
      norm_num
    generalize hs1 : set_err s c1
      (s.xcsf.ERR_REDUC * (((s.heap c1p).err + (s.heap c2p).err) * 0.5)) = s1
    have x1 : s1.xcsf = s.xcsf := by rw [← hs1]; rfl
    have e1 : ∀ q, (0 ≤ (s.heap q).err ∨ q = c1) → 0 ≤ (s1.heap q).err := by
      intro q h; rw [← hs1]; exact set_err_err_nonneg s c1 q _ v1 h
    have f1 : ∀ q, (s1.heap q).fit = (s.heap q).fit := by
      intro q; rw [← hs1]; exact set_err_fit s c1 q _
    have n1 : ∀ q, (s1.heap q).num = (s.heap q).num := by
      intro q; rw [← hs1]; exact set_err_num s c1 q _
    have v2 : 0 ≤ (s1.heap c1).err := e1 c1 (Or.inr rfl)
    generalize hs2 : set_err s1 c2 (s1.heap c1).err = s2
    have x2 : s2.xcsf = s.xcsf := by rw [← hs2, ← x1]; rfl
    have e2 : ∀ q, (0 ≤ (s1.heap q).err ∨ q = c2) → 0 ≤ (s2.heap q).err := by
      intro q h; rw [← hs2]; exact set_err_err_nonneg s1 c2 q _ v2 h
    have f2 : ∀ q, (s2.heap q).fit = (s.heap q).fit := by
      intro q; rw [← hs2, set_err_fit, f1]
    have n2 : ∀ q, (s2.heap q).num = (s.heap q).num := by
      intro q; rw [← hs2, set_err_num, n1]
    have v3 : 0 < (s2.heap c1p).fit / ((s2.heap c1p).num : ℚ) := by
      rw [f2, n2]
      exact fit_div_num_pos _ _ hf1 hn1
    generalize hs3 : set_fit s2 c1 ((s2.heap c1p).fit / ((s2.heap c1p).num : ℚ)) = s3
    have x3 : s3.xcsf = s.xcsf := by rw [← hs3, ← x2]; rfl
    have f3 : ∀ q, (0 < (s2.heap q).fit ∨ q = c1) → 0 < (s3.heap q).fit := by
      intro q h; rw [← hs3]; exact set_fit_fit_pos s2 c1 q _ v3 h
    have e3 : ∀ q, (s3.heap q).err = (s2.heap q).err := by
      intro q; rw [← hs3]; exact set_fit_err s2 c1 q _
    have n3 : ∀ q, (s3.heap q).num = (s.heap q).num := by
      intro q; rw [← hs3, set_fit_num, n2]
    have v4 : 0 < (s3.heap c2p).fit / ((s3.heap c2p).num : ℚ) := by
      rw [n3]
      exact fit_div_num_pos _ _ (f3 c2p (Or.inl (by rw [f2]; exact hf2))) hn2
    generalize hs4 : set_fit s3 c2 ((s3.heap c2p).fit / ((s3.heap c2p).num : ℚ)) = s4
    have x4 : s4.xcsf = s.xcsf := by rw [← hs4, ← x3]; rfl
    have f4 : ∀ q, (0 < (s3.heap q).fit ∨ q = c2) → 0 < (s4.heap q).fit := by
      intro q h; rw [← hs4]; exact set_fit_fit_pos s3 c2 q _ v4 h
    have e4 : ∀ q, (s4.heap q).err = (s2.heap q).err := by
      intro q; rw [← hs4, set_fit_err, e3]
    have v5 : 0 < s4.xcsf.FIT_REDUC * (((s4.heap c1).fit + (s4.heap c2).fit) * 0.5) := by
      rw [x4]
      apply mul_pos hF
      apply mul_pos (add_pos (f4 c1 (Or.inl (f3 c1 (Or.inr rfl)))) (f4 c2 (Or.inr rfl)))
      norm_num
    generalize hs5 : set_fit s4 c1
      (s4.xcsf.FIT_REDUC * (((s4.heap c1).fit + (s4.heap c2).fit) * 0.5)) = s5
    have f5 : ∀ q, (0 < (s4.heap q).fit ∨ q = c1) → 0 < (s5.heap q).fit := by
      intro q h; rw [← hs5]; exact set_fit_fit_pos s4 c1 q _ v5 h
    have e5 : ∀ q, (s5.heap q).err = (s2.heap q).err := by
      intro q; rw [← hs5, set_fit_err, e4]
    have v6 : 0 < (s5.heap c1).fit := f5 c1 (Or.inr rfl)
    refine ⟨?_, ?_, ?_, ?_⟩
    · exact set_fit_fit_pos s5 c2 c1 _ v6 (Or.inl v6)
    · rw [set_fit_err, e5]
      exact e2 c1 (Or.inl (e1 c1 (Or.inr rfl)))
    · exact set_fit_fit_pos s5 c2 c2 _ v6 (Or.inr rfl)
    · rw [set_fit_err, e5]
      exact e2 c2 (Or.inr rfl)

/-- Witness of C12: the two parents of the test state and two offspring. -/
theorem ea_init_offspring_invariants_witness :
    0 < ((ea_init_offspring (ea_state 150) 0 1 2 3 true).heap 2).fit ∧
    0 ≤ ((ea_init_offspring (ea_state 150) 0 1 2 3 true).heap 2).err ∧
    0 < ((ea_init_offspring (ea_state 150) 0 1 2 3 true).heap 3).fit ∧
    0 ≤ ((ea_init_offspring (ea_state 150) 0 1 2 3 true).heap 3).err :=
  ea_init_offspring_invariants (ea_state 150) 0 1 2 3 true
    (by simp [ea_state, ea_heap]) (by simp [ea_state, ea_heap])
    (by simp [ea_state, ea_heap])
    (by simp [ea_state, ea_heap]) (by simp [ea_state, ea_heap])
    (by simp [ea_state, ea_heap])
    (by simp [ea_state]) (by simp [ea_state])

/-! ## Crossover -/

/-- C13 on the code: with `P_CROSSOVER = 1`, the draw `0.5` and both integer
draws `0`, the crossover points are `p1 = 0 < p2 = 1` and the conditions
`[1, 5]` and `[2, 9]` differ at index `0`; the swap loop exchanges the entries
at index `0`, `cond_rect_crossover` returns true, and both interval arrays are
as they were before the call: the exchange has been undone. -/
theorem cond_rect_crossover_reverts :
    (drand half_rng).1 < cross_xcsf.P_CROSSOVER ∧
    cond_rect_crossover_points 0 0 = (0, 1) ∧
    cond_rect_crossover_loop [1, 5] [2, 9] 1 [1, 5] [2, 9] false 0 = ([2, 5], [1, 9], true) ∧
    (cond_rect_crossover cross_xcsf cross_a cross_b half_rng).2.2.1 = true ∧
    (cond_rect_crossover cross_xcsf cross_a cross_b half_rng).1.cond.interval = [1, 5] ∧
    (cond_rect_crossover cross_xcsf cross_a cross_b half_rng).2.1.cond.interval = [2, 9] := by
  have hd : (drand half_rng).1 < cross_xcsf.P_CROSSOVER := by
    simp [drand, half_rng, cross_xcsf]
    norm_num
  have hp : cond_rect_crossover_points 0 0 = (0, 1) := by
    simp [cond_rect_crossover_points]
  have hl : cond_rect_crossover_loop [1, 5] [2, 9] 1 [1, 5] [2, 9] false 0
      = ([2, 5], [1, 9], true) := by
    rw [cond_rect_crossover_loop, if_pos (by decide)]
    rw [if_pos (by norm_num)]
    rw [cond_rect_crossover_loop, if_neg (by decide)]
    simp
  refine ⟨hd, hp, hl, ?_, ?_, ?_⟩
  · unfold cond_rect_crossover
    simp only [if_pos hd]
    simp [irand, drand, half_rng, hp, cross_a, cross_b, hl]
  · unfold cond_rect_crossover
    simp only [if_pos hd]
    simp [irand, drand, half_rng, hp, cross_a, cross_b, hl, memcpy]
  · unfold cond_rect_crossover
    simp only [if_pos hd]
    simp [irand, drand, half_rng, hp, cross_a, cross_b, hl, memcpy]

/-- The value of `changed` returned by the swap loop of `cond_rect_crossover`
does not depend on the order of the two copies nor on the arrays written. -/
theorem cond_rect_crossover_loop_flag_symm (cl1 cl2 : List ℚ) (p2 : Int) :
    ∀ n (i : Int) (i1 i2 j1 j2 : List ℚ) (changed : Bool), (p2 - i).toNat = n →
      (cond_rect_crossover_loop cl1 cl2 p2 i1 i2 changed i).2.2
        = (cond_rect_crossover_loop cl2 cl1 p2 j1 j2 changed i).2.2 := by
  intro n
  induction n with
  | zero =>
    intro i i1 i2 j1 j2 changed hn
    rw [cond_rect_crossover_loop, if_neg (by omega)]
    rw [cond_rect_crossover_loop, if_neg (by omega)]
  | succ n ih =>
    intro i i1 i2 j1 j2 changed hn
    rw [cond_rect_crossover_loop, if_pos (by omega)]
    conv_rhs => rw [cond_rect_crossover_loop, if_pos (show i < p2 by omega)]
    by_cases hne : cl1.getD i.toNat 0 ≠ cl2.getD i.toNat 0
    · rw [if_pos hne, if_pos (fun e => hne e.symm)]
      exact ih (i + 1) _ _ _ _ true (by omega)
    · rw [if_neg hne, if_neg (fun e => hne (fun e' => e e'.symm))]
      exact ih (i + 1) _ _ _ _ changed (by omega)

/-- On two conditions of the shape given by `cond_rect_init`,
`cond_rect_crossover` returns both classifiers as they were. -/
theorem cond_rect_crossover_children (xcsf : XCSF) (c1 c2 : CL) (rng : Rng)
    (h1 : c1.cond.shaped xcsf) (h2 : c2.cond.shaped xcsf) :
    (cond_rect_crossover xcsf c1 c2 rng).1 = c1 ∧
    (cond_rect_crossover xcsf c1 c2 rng).2.1 = c2 := by
  obtain ⟨e1, e2⟩ := cond_rect_crossover_intervals xcsf c1 c2 rng h1 h2
  have f1 : (cond_rect_crossover xcsf c1 c2 rng).1
      = { c1 with cond := { c1.cond with
            interval := (cond_rect_crossover xcsf c1 c2 rng).1.cond.interval } } := by
    unfold cond_rect_crossover
    simp only
    split_ifs <;> rfl
  have f2 : (cond_rect_crossover xcsf c1 c2 rng).2.1
      = { c2 with cond := { c2.cond with
            interval := (cond_rect_crossover xcsf c1 c2 rng).2.1.cond.interval } } := by
    unfold cond_rect_crossover
    simp only
    split_ifs <;> rfl
  rw [e1] at f1
  rw [e2] at f2
  exact ⟨f1, f2⟩

/-- C16: for two conditions `a`, `b` of equal dimension and any sequence of
random draws, `cond_rect_crossover(a, b)` and `cond_rect_crossover(b, a)` run
from the same draws yield swapped children, the same returned value and the
same generator afterwards. -/
theorem cond_rect_crossover_symmetric (xcsf : XCSF) (a b : CL) (rng : Rng)
    (ha : a.cond.shaped xcsf) (hb : b.cond.shaped xcsf) :
    (cond_rect_crossover xcsf a b rng).1 = (cond_rect_crossover xcsf b a rng).2.1 ∧
    (cond_rect_crossover xcsf a b rng).2.1 = (cond_rect_crossover xcsf b a rng).1 ∧
    (cond_rect_crossover xcsf a b rng).2.2.1 = (cond_rect_crossover xcsf b a rng).2.2.1 ∧
    (cond_rect_crossover xcsf a b rng).2.2.2 = (cond_rect_crossover xcsf b a rng).2.2.2 := by
  obtain ⟨x1, x2⟩ := cond_rect_crossover_children xcsf a b rng ha hb
  obtain ⟨y1, y2⟩ := cond_rect_crossover_children xcsf b a rng hb ha
  have hlen : b.cond.interval_length = a.cond.interval_length := by rw [hb.1, ha.1]
  refine ⟨by rw [x1, y2], by rw [x2, y1], ?_, ?_⟩
  · unfold cond_rect_crossover
    simp only [hlen]
    have hflag := cond_rect_crossover_loop_flag_symm
      (a.cond.interval.take a.cond.interval_length)
      (b.cond.interval.take a.cond.interval_length)
      (cond_rect_crossover_points (irand 0 a.cond.interval_length (drand rng).2).1
        (irand 0 a.cond.interval_length
          (irand 0 a.cond.interval_length (drand rng).2).2).1).2 _
      (cond_rect_crossover_points (irand 0 a.cond.interval_length (drand rng).2).1
        (irand 0 a.cond.interval_length
          (irand 0 a.cond.interval_length (drand rng).2).2).1).1
      a.cond.interval b.cond.interval b.cond.interval a.cond.interval false rfl
    split_ifs with hp hc1 hc2 hc2 <;> simp_all
  · unfold cond_rect_crossover
    simp only [hlen]
    split_ifs <;> rfl

/-- Witness of C16: the two one-dimensional test conditions. -/
theorem cond_rect_crossover_symmetric_witness :
    (cond_rect_crossover cross_xcsf cross_a cross_b half_rng).1
      = (cond_rect_crossover cross_xcsf cross_b cross_a half_rng).2.1 ∧
    (cond_rect_crossover cross_xcsf cross_a cross_b half_rng).2.1
      = (cond_rect_crossover cross_xcsf cross_b cross_a half_rng).1 ∧
    (cond_rect_crossover cross_xcsf cross_a cross_b half_rng).2.2.1
      = (cond_rect_crossover cross_xcsf cross_b cross_a half_rng).2.2.1 ∧
    (cond_rect_crossover cross_xcsf cross_a cross_b half_rng).2.2.2
      = (cond_rect_crossover cross_xcsf cross_b cross_a half_rng).2.2.2 :=
  cond_rect_crossover_symmetric cross_xcsf cross_a cross_b half_rng
    (by simp [COND_RECT.shaped, cross_xcsf, cross_a])
    (by simp [COND_RECT.shaped, cross_xcsf, cross_b])

/-! ## Laws of subsumption -/

/-- The loop of `cond_rect_subsumes` on twice the same array returns `true`
from every index. -/
theorem cond_rect_subsumes_loop_self (l : List ℚ) (len : Nat) :
    ∀ n i, len - i ≤ n → cond_rect_subsumes_loop l l len i = true := by
  intro n
  induction n with
  | zero =>
    intro i hi
    rw [cond_rect_subsumes_loop, if_neg (by omega)]
  | succ n ih =>
    intro i hi
    rw [cond_rect_subsumes_loop]
    split_ifs with h1 h2
    · simp at h2
    · exact ih (i + 2) (by omega)
    · rfl

/-- C17: for every hyperrectangle condition `a`, `cond_rect_subsumes(a, a)` is
true. -/
theorem cond_rect_subsumes_refl (xcsf : XCSF) (a : CL) :
    cond_rect_subsumes xcsf a a = true :=
  cond_rect_subsumes_loop_self a.cond.interval a.cond.interval_length _ 0 (le_refl _)

/-- The value returned by `cond_rect_subsumes` on a first condition of the
shape given by `cond_rect_init`. -/
theorem cond_rect_subsumes_spec (xcsf : XCSF) (c1 c2 : CL) (h1 : c1.cond.shaped xcsf) :
    cond_rect_subsumes xcsf c1 c2 = true ↔
      ∀ i, i < xcsf.num_x_vars →
        c1.cond.lower i ≤ c2.cond.lower i ∧ c2.cond.upper i ≤ c1.cond.upper i := by
  have h := cond_rect_subsumes_loop_iff c1.cond.interval c2.cond.interval xcsf.num_x_vars _ 0 rfl
  simp only [cond_rect_subsumes, COND_RECT.lower, COND_RECT.upper, h1.1]
  simpa using h

/-- C19: for conditions `a`, `b` of equal dimension with
`cond_rect_subsumes(a, b)` true, every input matched by `b` is matched by `a`. -/
theorem cond_rect_subsumes_sound (xcsf : XCSF) (a b : CL) (x : List ℚ)
    (ha : a.cond.shaped xcsf) (hb : b.cond.shaped xcsf)
    (hs : cond_rect_subsumes xcsf a b = true)
    (hm : (cond_rect_match xcsf b x).2 = true) :
    (cond_rect_match xcsf a x).2 = true := by
  rw [cond_rect_subsumes_spec xcsf a b ha] at hs
  rw [cond_rect_match_spec xcsf b x hb] at hm
  rw [cond_rect_match_spec xcsf a x ha]
  intro i hi
  exact ⟨le_trans (hs i hi).1 (hm i hi).1, le_trans (hm i hi).2 (hs i hi).2⟩

/-- Witness of C19: the first test condition subsumes the small condition of
the generality test, and the centre of the small condition is matched by
both. -/
theorem cond_rect_subsumes_sound_witness :
    (cond_rect_match test_xcsf test_true [0.6, 0.7, 0.2, 0.3, 0.0]).2 = true :=
  cond_rect_subsumes_sound test_xcsf test_true test_small [0.6, 0.7, 0.2, 0.3, 0.0]
    (by simp [COND_RECT.shaped, test_true, test_cl, test_xcsf, COND_RECT.ofCenterSpread])
    (by simp [COND_RECT.shaped, test_small, test_cl, test_xcsf, COND_RECT.ofCenterSpread])
    (by
      simp [cond_rect_subsumes, cond_rect_subsumes_loop, test_true, test_small, test_cl,
        COND_RECT.ofCenterSpread]
      norm_num)
    (by
      simp [cond_rect_match, cond_rect_match_loop, test_small, test_cl,
        COND_RECT.ofCenterSpread]
      norm_num)

/-- C18: for conditions `a`, `b` of equal dimension, if `cond_rect_subsumes(a, b)`
and `cond_rect_subsumes(b, a)` are both true, then `cond_rect_match(a, x)` and
`cond_rect_match(b, x)` return the same value for every input `x`. -/
theorem cond_rect_subsumes_antisymm (xcsf : XCSF) (a b : CL) (x : List ℚ)
    (ha : a.cond.shaped xcsf) (hb : b.cond.shaped xcsf)
    (hab : cond_rect_subsumes xcsf a b = true) (hba : cond_rect_subsumes xcsf b a = true) :
    (cond_rect_match xcsf a x).2 = (cond_rect_match xcsf b x).2 := by
  rw [cond_rect_subsumes_spec xcsf a b ha] at hab
  rw [cond_rect_subsumes_spec xcsf b a hb] at hba
  rw [Bool.eq_iff_iff, cond_rect_match_spec xcsf a x ha, cond_rect_match_spec xcsf b x hb]
  constructor
  · intro h i hi
    exact ⟨le_trans (hba i hi).1 (h i hi).1, le_trans (h i hi).2 (hba i hi).2⟩
  · intro h i hi
    exact ⟨le_trans (hab i hi).1 (h i hi).1, le_trans (h i hi).2 (hab i hi).2⟩

/-- Witness of C18: the first test condition before and after a call of
`cond_rect_match`, which differ in the match flag only. -/
theorem cond_rect_subsumes_antisymm_witness :
    (cond_rect_match test_xcsf test_true test_x).2
      = (cond_rect_match test_xcsf (cond_rect_match test_xcsf test_true test_x).1 test_x).2 :=
  cond_rect_subsumes_antisymm test_xcsf test_true
    (cond_rect_match test_xcsf test_true test_x).1 test_x
    (by simp [COND_RECT.shaped, test_true, test_cl, test_xcsf, COND_RECT.ofCenterSpread])
    (by simp [COND_RECT.shaped, cond_rect_match, test_true, test_cl, test_xcsf,
      COND_RECT.ofCenterSpread])
    (cond_rect_subsumes_loop_self test_true.cond.interval _ _ 0 (le_refl _))
    (cond_rect_subsumes_loop_self test_true.cond.interval _ _ 0 (le_refl _))

/-! ## The bounds invariant -/

/-- With `MIN_CON <= MAX_CON`, both values returned by `cond_rect_bounds` lie in
`[MIN_CON, MAX_CON]`. -/
theorem cond_rect_bounds_in_range (xcsf : XCSF) (a b : ℚ) (h : xcsf.MIN_CON ≤ xcsf.MAX_CON) :
    (xcsf.MIN_CON ≤ (cond_rect_bounds xcsf a b).1 ∧
      (cond_rect_bounds xcsf a b).1 ≤ xcsf.MAX_CON) ∧
    (xcsf.MIN_CON ≤ (cond_rect_bounds xcsf a b).2 ∧
      (cond_rect_bounds xcsf a b).2 ≤ xcsf.MAX_CON) := by
  unfold cond_rect_bounds
  simp only
  split_ifs <;> refine ⟨⟨?_, ?_⟩, ?_, ?_⟩ <;> linarith

/-- The function `cond_rect_bounds` reads no parameter but `MIN_CON` and
`MAX_CON`. -/
theorem cond_rect_bounds_congr (xcsf xcsf' : XCSF) (a b : ℚ)
    (hmin : xcsf'.MIN_CON = xcsf.MIN_CON) (hmax : xcsf'.MAX_CON = xcsf.MAX_CON) :
    cond_rect_bounds xcsf' a b = cond_rect_bounds xcsf a b := by
  unfold cond_rect_bounds
  rw [hmin, hmax]

/-- After `cond_rect_mutate` every dimension of the condition is a pair
returned by `cond_rect_bounds`. -/
theorem cond_rect_mutate_dims (sam_adapt : XCSF → List ℚ → Rng → List ℚ × Rng) (xcsf : XCSF)
    (c : CL) (rng : Rng) (hc : c.cond.shaped xcsf) (i : Nat) (hi : i < xcsf.num_x_vars) :
    ∃ a b : ℚ,
      (cond_rect_mutate sam_adapt xcsf c rng).2.1.cond.lower i = (cond_rect_bounds xcsf a b).1 ∧
      (cond_rect_mutate sam_adapt xcsf c rng).2.1.cond.upper i
        = (cond_rect_bounds xcsf a b).2 := by
  simp only [COND_RECT.lower, COND_RECT.upper, cond_rect_mutate, hc.1]
  by_cases hsam : xcsf.NUM_SAM > 0
  · simp only [if_pos hsam]
    obtain ⟨a, b, e1, e2⟩ := (cond_rect_mutate_loop_spec
      { xcsf with P_MUTATION := (sam_adapt xcsf c.cond.mu rng).1.getD 0 0 }
      ((sam_adapt xcsf c.cond.mu rng).1.getD 0 0)
      (if xcsf.NUM_SAM > 1 then (sam_adapt xcsf c.cond.mu rng).1.getD 1 0 else xcsf.S_MUTATION)
      xcsf.num_x_vars _ 0 c.cond.interval false (sam_adapt xcsf c.cond.mu rng).2
      rfl (by rw [hc.2, hc.1])).2.2 i (Nat.zero_le i) hi
    simp only [Nat.mul_zero] at e1 e2
    refine ⟨a, b, ?_, ?_⟩
    · rw [e1]
      exact congrArg Prod.fst (cond_rect_bounds_congr xcsf _ a b rfl rfl)
    · rw [e2]
      exact congrArg Prod.snd (cond_rect_bounds_congr xcsf _ a b rfl rfl)
  · simp only [if_neg hsam]
    obtain ⟨a, b, e1, e2⟩ := (cond_rect_mutate_loop_spec xcsf xcsf.P_MUTATION xcsf.S_MUTATION
      xcsf.num_x_vars _ 0 c.cond.interval false rng rfl (by rw [hc.2, hc.1])).2.2 i
      (Nat.zero_le i) hi
    simp only [Nat.mul_zero] at e1 e2
    exact ⟨a, b, e1, e2⟩

/-- C20: if `MIN_CON <= MAX_CON`, then after each of `cond_rect_rand`,
`cond_rect_cover` and `cond_rect_mutate`, for every input, step size and random
draws, every interval endpoint of the condition lies in `[MIN_CON, MAX_CON]`. -/
theorem cond_rect_within_bounds :
    (∀ (xcsf : XCSF) (c : CL) (rng : Rng), xcsf.MIN_CON ≤ xcsf.MAX_CON → c.cond.shaped xcsf →
      ∀ i, i < xcsf.num_x_vars →
        (xcsf.MIN_CON ≤ (cond_rect_rand xcsf c rng).1.cond.lower i ∧
          (cond_rect_rand xcsf c rng).1.cond.lower i ≤ xcsf.MAX_CON) ∧
        (xcsf.MIN_CON ≤ (cond_rect_rand xcsf c rng).1.cond.upper i ∧
          (cond_rect_rand xcsf c rng).1.cond.upper i ≤ xcsf.MAX_CON)) ∧
    (∀ (xcsf : XCSF) (c : CL) (x : List ℚ) (rng : Rng), xcsf.MIN_CON ≤ xcsf.MAX_CON →
      c.cond.shaped xcsf →
      ∀ i, i < xcsf.num_x_vars →
        (xcsf.MIN_CON ≤ (cond_rect_cover xcsf c x rng).1.cond.lower i ∧
          (cond_rect_cover xcsf c x rng).1.cond.lower i ≤ xcsf.MAX_CON) ∧
        (xcsf.MIN_CON ≤ (cond_rect_cover xcsf c x rng).1.cond.upper i ∧
          (cond_rect_cover xcsf c x rng).1.cond.upper i ≤ xcsf.MAX_CON)) ∧
    (∀ (sam_adapt : XCSF → List ℚ → Rng → List ℚ × Rng) (xcsf : XCSF) (c : CL) (rng : Rng),
      xcsf.MIN_CON ≤ xcsf.MAX_CON → c.cond.shaped xcsf →
      ∀ i, i < xcsf.num_x_vars →
        (xcsf.MIN_CON ≤ (cond_rect_mutate sam_adapt xcsf c rng).2.1.cond.lower i ∧
          (cond_rect_mutate sam_adapt xcsf c rng).2.1.cond.lower i ≤ xcsf.MAX_CON) ∧
        (xcsf.MIN_CON ≤ (cond_rect_mutate sam_adapt xcsf c rng).2.1.cond.upper i ∧
          (cond_rect_mutate sam_adapt xcsf c rng).2.1.cond.upper i ≤ xcsf.MAX_CON)) := by
  refine ⟨?_, ?_, ?_⟩
  · intro xcsf c rng hmm hc i hi
    obtain ⟨a, b, e1, e2⟩ := (cond_rect_rand_loop_spec xcsf xcsf.num_x_vars _ 0
      c.cond.interval rng rfl (by rw [hc.2, hc.1])).2.2 i (Nat.zero_le i) hi
    simp only [COND_RECT.lower, COND_RECT.upper, cond_rect_rand, hc.1]
    simp only [Nat.mul_zero] at e1 e2
    rw [e1, e2]
    exact cond_rect_bounds_in_range xcsf a b hmm
  · intro xcsf c x rng hmm hc i hi
    obtain ⟨n1, n2, e1, e2⟩ := (cond_rect_cover_loop_spec xcsf x xcsf.num_x_vars _ 0
      c.cond.interval rng rfl (by rw [hc.2, hc.1])).2.2 i (Nat.zero_le i) hi
    simp only [COND_RECT.lower, COND_RECT.upper, cond_rect_cover, hc.1]
    simp only [Nat.mul_zero] at e1 e2
    rw [e1, e2]
    exact cond_rect_bounds_in_range xcsf _ _ hmm
  · intro sam_adapt xcsf c rng hmm hc i hi
    obtain ⟨a, b, e1, e2⟩ := cond_rect_mutate_dims sam_adapt xcsf c rng hc i hi
    rw [e1, e2]
    exact cond_rect_bounds_in_range xcsf a b hmm

/-- Witness of C20: the bounds invariant after `cond_rect_rand`,
`cond_rect_cover` and `cond_rect_mutate` on the one-dimensional test condition
with bounds `[0, 1]`. -/
theorem cond_rect_within_bounds_witness :
    ((cover_xcsf.MIN_CON ≤ (cond_rect_rand cover_xcsf cover_cl half_rng).1.cond.lower 0 ∧
        (cond_rect_rand cover_xcsf cover_cl half_rng).1.cond.lower 0 ≤ cover_xcsf.MAX_CON) ∧
      (cover_xcsf.MIN_CON ≤ (cond_rect_rand cover_xcsf cover_cl half_rng).1.cond.upper 0 ∧
        (cond_rect_rand cover_xcsf cover_cl half_rng).1.cond.upper 0 ≤ cover_xcsf.MAX_CON)) ∧
    ((cover_xcsf.MIN_CON ≤ (cond_rect_cover cover_xcsf cover_cl [2] half_rng).1.cond.lower 0 ∧
        (cond_rect_cover cover_xcsf cover_cl [2] half_rng).1.cond.lower 0
          ≤ cover_xcsf.MAX_CON) ∧
      (cover_xcsf.MIN_CON ≤ (cond_rect_cover cover_xcsf cover_cl [2] half_rng).1.cond.upper 0 ∧
        (cond_rect_cover cover_xcsf cover_cl [2] half_rng).1.cond.upper 0
          ≤ cover_xcsf.MAX_CON)) ∧
    ((cover_xcsf.MIN_CON
          ≤ (cond_rect_mutate (fun _ mu rng => (mu, rng)) cover_xcsf cover_cl
              half_rng).2.1.cond.lower 0 ∧
        (cond_rect_mutate (fun _ mu rng => (mu, rng)) cover_xcsf cover_cl
            half_rng).2.1.cond.lower 0 ≤ cover_xcsf.MAX_CON) ∧
      (cover_xcsf.MIN_CON
          ≤ (cond_rect_mutate (fun _ mu rng => (mu, rng)) cover_xcsf cover_cl
              half_rng).2.1.cond.upper 0 ∧
        (cond_rect_mutate (fun _ mu rng => (mu, rng)) cover_xcsf cover_cl
            half_rng).2.1.cond.upper 0 ≤ cover_xcsf.MAX_CON)) :=
  have hs : cover_cl.cond.shaped cover_xcsf := by
    simp [COND_RECT.shaped, cover_xcsf, cover_cl]
  have h0 : 0 < cover_xcsf.num_x_vars := by simp [cover_xcsf]
  have hmm : cover_xcsf.MIN_CON ≤ cover_xcsf.MAX_CON := by simp [cover_xcsf]
  ⟨cond_rect_within_bounds.1 cover_xcsf cover_cl half_rng hmm hs 0 h0,
    cond_rect_within_bounds.2.1 cover_xcsf cover_cl [2] half_rng hmm hs 0 h0,
    cond_rect_within_bounds.2.2 (fun _ mu rng => (mu, rng)) cover_xcsf cover_cl half_rng hmm
      hs 0 h0⟩

/-! ## Mutation -/

/-- The loop of `cond_rect_mutate` returns `mod = true` when it is entered with
`mod = true`. -/
theorem cond_rect_mutate_loop_mod_true (xcsf : XCSF) (pm step : ℚ) (len : Nat) :
    ∀ n (i : Nat) (interval : List ℚ) (rng : Rng), len - i ≤ n →
      (cond_rect_mutate_loop xcsf pm step len interval true rng i).2.1 = true := by
  intro n
  induction n with
  | zero =>
    intro i interval rng hn
    rw [cond_rect_mutate_loop, if_neg (by omega)]
  | succ n ih =>
    intro i interval rng hn
    rw [cond_rect_mutate_loop]
    by_cases hi : i < len
    · rw [if_pos hi]
      simp only
      by_cases t1 : (drand rng).1 < pm
      · simp only [if_pos t1]
        by_cases t2 : (drand (drand (drand rng).2).2).1 < pm
        · simp only [if_pos t2]
          exact ih _ _ _ (by omega)
        · simp only [if_neg t2]
          exact ih _ _ _ (by omega)
      · simp only [if_neg t1]
        by_cases t2 : (drand (drand rng).2).1 < pm
        · simp only [if_pos t2]
          exact ih _ _ _ (by omega)
        · simp only [if_neg t2]
          exact ih _ _ _ (by omega)
    · rw [if_neg hi]

/-- When no draw of the generator is below the mutation probability, the loop
of `cond_rect_mutate` returns `mod` as it was. -/
theorem cond_rect_mutate_loop_quiet (xcsf : XCSF) (pm step : ℚ) (len : Nat) :
    ∀ n (i : Nat) (interval : List ℚ) (mod : Bool) (rng : Rng), len - i ≤ n →
      (∀ m, ¬ rng.real m < pm) →
      (cond_rect_mutate_loop xcsf pm step len interval mod rng i).2.1 = mod := by
  intro n
  induction n with
  | zero =>
    intro i interval mod rng hn _
    rw [cond_rect_mutate_loop, if_neg (by omega)]
  | succ n ih =>
    intro i interval mod rng hn hq
    rw [cond_rect_mutate_loop]
    by_cases hi : i < len
    · rw [if_pos hi]
      simp only
      have t1 : ¬ (drand rng).1 < pm := hq 0
      have t2 : ¬ (drand (drand rng).2).1 < pm := hq 1
      simp only [if_neg t1, if_neg t2]
      exact ih _ _ _ _ (by omega) (fun m => hq (m + 1 + 1))
    · rw [if_neg hi]

/-- Loop invariant of `cond_rect_mutate` for a run that returns `mod = false`:
started at index `2 * k` on an array of `2 * d` entries, the loop keeps the
length, leaves the entries below `2 * k` as they are and replaces every
dimension from `k` on by the pair that `cond_rect_bounds` returns for it. -/
theorem cond_rect_mutate_loop_false_spec (xcsf : XCSF) (pm step : ℚ) (d : Nat) :
    ∀ n k (interval : List ℚ) (mod : Bool) (rng : Rng), d - k = n → interval.length = d * 2 →
      (cond_rect_mutate_loop xcsf pm step (d * 2) interval mod rng (2 * k)).2.1 = false →
      (cond_rect_mutate_loop xcsf pm step (d * 2) interval mod rng (2 * k)).1.length = d * 2 ∧
      (∀ j, j < 2 * k →
        (cond_rect_mutate_loop xcsf pm step (d * 2) interval mod rng (2 * k)).1.getD j 0
          = interval.getD j 0) ∧
      (∀ j, k ≤ j → j < d →
        (cond_rect_mutate_loop xcsf pm step (d * 2) interval mod rng (2 * k)).1.getD (2 * j) 0
          = (cond_rect_bounds xcsf (interval.getD (2 * j) 0) (interval.getD (2 * j + 1) 0)).1 ∧
        (cond_rect_mutate_loop xcsf pm step (d * 2) interval mod rng (2 * k)).1.getD
          (2 * j + 1) 0
          = (cond_rect_bounds xcsf (interval.getD (2 * j) 0) (interval.getD (2 * j + 1) 0)).2) := by
  intro n
  induction n with
  | zero =>
    intro k interval mod rng hk hlen _
    rw [cond_rect_mutate_loop, if_neg (by omega)]
    exact ⟨hlen, fun j _ => rfl, fun j h1 h2 => by omega⟩
  | succ n ih =>
    intro k interval mod rng hk hlen hres
    have hstep : 2 * k + 2 = 2 * (k + 1) := by ring
    rw [cond_rect_mutate_loop, if_pos (by omega)] at hres ⊢
    simp only [hstep] at hres ⊢
    by_cases t1 : (drand rng).1 < pm
    · exfalso
      simp only [if_pos t1] at hres
      by_cases t2 : (drand (drand (drand rng).2).2).1 < pm
      · simp only [if_pos t2] at hres
        rw [cond_rect_mutate_loop_mod_true xcsf pm step (d * 2) _ _ _ _ (le_refl _)] at hres
        cases hres
      · simp only [if_neg t2] at hres
        rw [cond_rect_mutate_loop_mod_true xcsf pm step (d * 2) _ _ _ _ (le_refl _)] at hres
        cases hres
    · simp only [if_neg t1] at hres ⊢
      by_cases t2 : (drand (drand rng).2).1 < pm
      · exfalso
        simp only [if_pos t2] at hres
        rw [cond_rect_mutate_loop_mod_true xcsf pm step (d * 2) _ _ _ _ (le_refl _)] at hres
        cases hres
      · simp only [if_neg t2] at hres ⊢
        obtain ⟨hl2, ha2, hb2, ho2⟩ := set_pair interval (2 * k)
          (cond_rect_bounds xcsf (interval.getD (2 * k) 0) (interval.getD (2 * k + 1) 0)).1
          (cond_rect_bounds xcsf (interval.getD (2 * k) 0) (interval.getD (2 * k + 1) 0)).2
          (by omega)
        obtain ⟨il, ikeep, inew⟩ := ih (k + 1) _ mod _ (by omega) (by rw [hl2, hlen]) hres
        refine ⟨il, ?_, ?_⟩
        · intro j hj
          rw [ikeep j (by omega), ho2 j (by omega) (by omega)]
        · intro j h1 h2
          rcases Nat.eq_or_lt_of_le h1 with heq | hlt
          · subst heq
            exact ⟨by rw [ikeep (2 * k) (by omega), ha2],
              by rw [ikeep (2 * k + 1) (by omega), hb2]⟩
          · obtain ⟨f1, f2⟩ := inew j hlt h2
            rw [ho2 (2 * j) (by omega) (by omega), ho2 (2 * j + 1) (by omega) (by omega)] at f1 f2
            exact ⟨f1, f2⟩

/-- The function `cond_rect_bounds` returns a pair that is in order and within
`[MIN_CON, MAX_CON]` as it is. -/
theorem cond_rect_bounds_id (xcsf : XCSF) (a b : ℚ) (h1 : xcsf.MIN_CON ≤ a) (h2 : a ≤ b)
    (h3 : b ≤ xcsf.MAX_CON) : cond_rect_bounds xcsf a b = (a, b) := by
  unfold cond_rect_bounds
  have ha1 : ¬ a < xcsf.MIN_CON := not_lt.mpr h1
  have ha2 : ¬ a > xcsf.MAX_CON := not_lt.mpr (le_trans h2 h3)
  have hb1 : ¬ b < xcsf.MIN_CON := not_lt.mpr (le_trans h1 h2)
  have hb2 : ¬ b > xcsf.MAX_CON := not_lt.mpr h3
  have hab : ¬ a > b := not_lt.mpr h2
  simp only [if_neg ha1, if_neg ha2, if_neg hb1, if_neg hb2, if_neg hab]

/-- When `cond_rect_mutate` returns false, it has replaced every dimension of
the condition by the pair that `cond_rect_bounds` returns for it. -/
theorem cond_rect_mutate_false_dims (sam_adapt : XCSF → List ℚ → Rng → List ℚ × Rng)
    (xcsf : XCSF) (c : CL) (rng : Rng) (hc : c.cond.shaped xcsf)
    (hf : (cond_rect_mutate sam_adapt xcsf c rng).2.2.1 = false) (i : Nat)
    (hi : i < xcsf.num_x_vars) :
    (cond_rect_mutate sam_adapt xcsf c rng).2.1.cond.lower i
      = (cond_rect_bounds xcsf (c.cond.lower i) (c.cond.upper i)).1 ∧
    (cond_rect_mutate sam_adapt xcsf c rng).2.1.cond.upper i
      = (cond_rect_bounds xcsf (c.cond.lower i) (c.cond.upper i)).2 := by
  simp only [COND_RECT.lower, COND_RECT.upper, cond_rect_mutate, hc.1] at hf ⊢
  by_cases hsam : xcsf.NUM_SAM > 0
  · simp only [if_pos hsam] at hf ⊢
    obtain ⟨e1, e2⟩ := (cond_rect_mutate_loop_false_spec
      { xcsf with P_MUTATION := (sam_adapt xcsf c.cond.mu rng).1.getD 0 0 }
      ((sam_adapt xcsf c.cond.mu rng).1.getD 0 0)
      (if xcsf.NUM_SAM > 1 then (sam_adapt xcsf c.cond.mu rng).1.getD 1 0 else xcsf.S_MUTATION)
      xcsf.num_x_vars _ 0 c.cond.interval false (sam_adapt xcsf c.cond.mu rng).2
      rfl (by rw [hc.2, hc.1]) hf).2.2 i (Nat.zero_le i) hi
    simp only [Nat.mul_zero] at e1 e2
    constructor
    · rw [e1]
      exact congrArg Prod.fst (cond_rect_bounds_congr xcsf _ _ _ rfl rfl)
    · rw [e2]
      exact congrArg Prod.snd (cond_rect_bounds_congr xcsf _ _ _ rfl rfl)
  · simp only [if_neg hsam] at hf ⊢
    obtain ⟨e1, e2⟩ := (cond_rect_mutate_loop_false_spec xcsf xcsf.P_MUTATION xcsf.S_MUTATION
      xcsf.num_x_vars _ 0 c.cond.interval false rng rfl (by rw [hc.2, hc.1]) hf).2.2 i
      (Nat.zero_le i) hi
    simp only [Nat.mul_zero] at e1 e2
    exact ⟨e1, e2⟩

/-- With `P_MUTATION = 0`, `NUM_SAM = 0` and draws in `[0, 1)`, `cond_rect_mutate`
returns false. -/
theorem cond_rect_mutate_zero_false (sam_adapt : XCSF → List ℚ → Rng → List ℚ × Rng)
    (xcsf : XCSF) (c : CL) (rng : Rng) (hpm : xcsf.P_MUTATION = 0) (hns : xcsf.NUM_SAM = 0)
    (hr : rng.unit) : (cond_rect_mutate sam_adapt xcsf c rng).2.2.1 = false := by
  have hsam : ¬ xcsf.NUM_SAM > 0 := by rw [hns]; decide
  simp only [cond_rect_mutate, if_neg hsam]
  exact cond_rect_mutate_loop_quiet xcsf xcsf.P_MUTATION xcsf.S_MUTATION _ _ 0 _ false rng
    (le_refl _) (fun m => by rw [hpm]; exact not_lt.mpr (hr m).1)

/-- The generator `half_rng` returns `0.5` and stays as it is. -/
theorem drand_half_rng : drand half_rng = (1 / 2, half_rng) := rfl

/-- The loop of `cond_rect_mutate` with `P_MUTATION = 0` on the condition
`[-1, 2]` and bounds `[0, 1]`. -/
theorem cond_rect_mutate_loop_wide :
    cond_rect_mutate_loop cover_xcsf 0 (1 / 10) 2 [-1, 2] false half_rng 0
      = ([0, 1], false, half_rng) := by
  rw [cond_rect_mutate_loop, if_pos (by decide)]
  norm_num [drand_half_rng, cond_rect_bounds, cover_xcsf]
  rw [cond_rect_mutate_loop, if_neg (by decide)]

/-- The loop of `cond_rect_mutate` with `P_MUTATION = 1` and step size `2` on
the condition `[1, 5]`, every draw being `0.5`. -/
theorem cond_rect_mutate_loop_still :
    cond_rect_mutate_loop mutate_xcsf 1 2 2 [1, 5] false half_rng 0
      = ([1, 5], true, half_rng) := by
  rw [cond_rect_mutate_loop, if_pos (by decide)]
  norm_num [drand_half_rng, cond_rect_bounds, mutate_xcsf]
  rw [cond_rect_mutate_loop, if_neg (by decide)]

/-- The generator `late_rng` returns `0.75` and stays as it is. -/
theorem drand_late_rng : drand late_rng = (3 / 4, late_rng) := rfl

/-- The loop of `cond_rect_mutate` with `P_MUTATION = 1` and step size `2` on
the condition `[1, 5]`, every draw being `0.75`. -/
theorem cond_rect_mutate_loop_moved :
    cond_rect_mutate_loop mutate_xcsf 1 2 2 [1, 5] false late_rng 0
      = ([2, 6], true, late_rng) := by
  rw [cond_rect_mutate_loop, if_pos (by decide)]
  norm_num [drand_late_rng, cond_rect_bounds, mutate_xcsf]
  rw [cond_rect_mutate_loop, if_neg (by decide)]

/-- C14 fails as stated: with `P_MUTATION = 0`, `NUM_SAM = 0`, bounds `[0, 1]` and
every draw equal to `0.5`, `cond_rect_mutate` on the condition `[-1, 2]` returns
false and leaves the condition `[0, 1]`: both endpoints have changed. -/
theorem cond_rect_mutate_zero_clamps :
    cover_xcsf.P_MUTATION = 0 ∧ cover_xcsf.NUM_SAM = 0 ∧
    (cond_rect_mutate sam_keep cover_xcsf wide_cl half_rng).2.2.1 = false ∧
    wide_cl.cond.interval = [-1, 2] ∧
    (cond_rect_mutate sam_keep cover_xcsf wide_cl half_rng).2.1.cond.interval = [0, 1] := by
  have e1 : (cond_rect_mutate sam_keep cover_xcsf wide_cl half_rng).2.2.1
      = (cond_rect_mutate_loop cover_xcsf 0 (1 / 10) 2 [-1, 2] false half_rng 0).2.1 := rfl
  have e2 : (cond_rect_mutate sam_keep cover_xcsf wide_cl half_rng).2.1.cond.interval
      = (cond_rect_mutate_loop cover_xcsf 0 (1 / 10) 2 [-1, 2] false half_rng 0).1 := rfl
  rw [e1, e2, cond_rect_mutate_loop_wide]
  exact ⟨rfl, rfl, rfl, rfl, rfl⟩

/-- C14, amended: with `P_MUTATION = 0` and `NUM_SAM = 0`, for every condition and
every sequence of random draws in `[0, 1)`, `cond_rect_mutate` returns false and
replaces every dimension by the pair that `cond_rect_bounds` returns for it; it
leaves every interval endpoint unchanged when the endpoints of every dimension
were in order and within `[MIN_CON, MAX_CON]`. -/
theorem cond_rect_mutate_zero (sam_adapt : XCSF → List ℚ → Rng → List ℚ × Rng)
    (xcsf : XCSF) (c : CL) (rng : Rng) (hc : c.cond.shaped xcsf)
    (hpm : xcsf.P_MUTATION = 0) (hns : xcsf.NUM_SAM = 0) (hr : rng.unit) :
    (cond_rect_mutate sam_adapt xcsf c rng).2.2.1 = false ∧
    (∀ i, i < xcsf.num_x_vars →
      (cond_rect_mutate sam_adapt xcsf c rng).2.1.cond.lower i
        = (cond_rect_bounds xcsf (c.cond.lower i) (c.cond.upper i)).1 ∧
      (cond_rect_mutate sam_adapt xcsf c rng).2.1.cond.upper i
        = (cond_rect_bounds xcsf (c.cond.lower i) (c.cond.upper i)).2) ∧
    ((∀ i, i < xcsf.num_x_vars →
        xcsf.MIN_CON ≤ c.cond.lower i ∧ c.cond.lower i ≤ c.cond.upper i ∧
          c.cond.upper i ≤ xcsf.MAX_CON) →
      ∀ i, i < xcsf.num_x_vars →
        (cond_rect_mutate sam_adapt xcsf c rng).2.1.cond.lower i = c.cond.lower i ∧
        (cond_rect_mutate sam_adapt xcsf c rng).2.1.cond.upper i = c.cond.upper i) := by
  have hf := cond_rect_mutate_zero_false sam_adapt xcsf c rng hpm hns hr
  have hd := cond_rect_mutate_false_dims sam_adapt xcsf c rng hc hf
  refine ⟨hf, hd, ?_⟩
  intro hin i hi
  obtain ⟨e1, e2⟩ := hd i hi
  rw [cond_rect_bounds_id xcsf _ _ (hin i hi).1 (hin i hi).2.1 (hin i hi).2.2] at e1 e2
  exact ⟨e1, e2⟩

/-- Witness of the amended C14: the one-dimensional condition `[0, 0]` within the
bounds `[0, 1]`. -/
theorem cond_rect_mutate_zero_witness :
    (cond_rect_mutate sam_keep cover_xcsf cover_cl half_rng).2.2.1 = false ∧
    (cond_rect_mutate sam_keep cover_xcsf cover_cl half_rng).2.1.cond.lower 0
      = cover_cl.cond.lower 0 ∧
    (cond_rect_mutate sam_keep cover_xcsf cover_cl half_rng).2.1.cond.upper 0
      = cover_cl.cond.upper 0 :=
  have h := cond_rect_mutate_zero sam_keep cover_xcsf cover_cl half_rng
    (by simp [COND_RECT.shaped, cover_xcsf, cover_cl]) rfl rfl
    (by
      intro n
      simp [half_rng]
      norm_num)
  ⟨h.1, h.2.2 (by
    intro i hi
    have hi0 : i = 0 := by simpa [cover_xcsf] using hi
    subst hi0
    simp [COND_RECT.lower, COND_RECT.upper, cover_cl, cover_xcsf]) 0 (by simp [cover_xcsf])⟩

/-- C15 fails as stated, in both directions: with `P_MUTATION = 1`, step size
`2`, bounds `[0, 10]` and every draw equal to `0.5`, `cond_rect_mutate` on the
condition `[1, 5]` returns true and leaves the condition `[1, 5]`; with
`P_MUTATION = 0` and bounds `[0, 1]` it returns false on the condition `[-1, 2]`
and leaves the condition `[0, 1]`. -/
theorem cond_rect_mutate_flag_not_change :
    ((cond_rect_mutate sam_keep mutate_xcsf cross_a half_rng).2.2.1 = true ∧
      cross_a.cond.interval = [1, 5] ∧
      (cond_rect_mutate sam_keep mutate_xcsf cross_a half_rng).2.1.cond.interval = [1, 5]) ∧
    ((cond_rect_mutate sam_keep cover_xcsf wide_cl half_rng).2.2.1 = false ∧
      wide_cl.cond.interval = [-1, 2] ∧
      (cond_rect_mutate sam_keep cover_xcsf wide_cl half_rng).2.1.cond.interval = [0, 1]) := by
  have e1 : (cond_rect_mutate sam_keep cover_xcsf wide_cl half_rng).2.2.1
      = (cond_rect_mutate_loop cover_xcsf 0 (1 / 10) 2 [-1, 2] false half_rng 0).2.1 := rfl
  have e2 : (cond_rect_mutate sam_keep cover_xcsf wide_cl half_rng).2.1.cond.interval
      = (cond_rect_mutate_loop cover_xcsf 0 (1 / 10) 2 [-1, 2] false half_rng 0).1 := rfl
  have e3 : (cond_rect_mutate sam_keep mutate_xcsf cross_a half_rng).2.2.1
      = (cond_rect_mutate_loop mutate_xcsf 1 2 2 [1, 5] false half_rng 0).2.1 := rfl
  have e4 : (cond_rect_mutate sam_keep mutate_xcsf cross_a half_rng).2.1.cond.interval
      = (cond_rect_mutate_loop mutate_xcsf 1 2 2 [1, 5] false half_rng 0).1 := rfl
  rw [e1, e2, e3, e4, cond_rect_mutate_loop_wide, cond_rect_mutate_loop_still]
  exact ⟨⟨rfl, rfl, rfl⟩, rfl, rfl, rfl⟩

/-- C15, amended: for every condition whose endpoints are in order and within
`[MIN_CON, MAX_CON]` in every dimension, every parameters and random draws, if
at least one interval endpoint has a different value after `cond_rect_mutate`
than before, then `cond_rect_mutate` returned true. -/
theorem cond_rect_mutate_changed_true (sam_adapt : XCSF → List ℚ → Rng → List ℚ × Rng)
    (xcsf : XCSF) (c : CL) (rng : Rng) (hc : c.cond.shaped xcsf)
    (hin : ∀ i, i < xcsf.num_x_vars →
      xcsf.MIN_CON ≤ c.cond.lower i ∧ c.cond.lower i ≤ c.cond.upper i ∧
        c.cond.upper i ≤ xcsf.MAX_CON)
    (hch : ∃ i, i < xcsf.num_x_vars ∧
      ((cond_rect_mutate sam_adapt xcsf c rng).2.1.cond.lower i ≠ c.cond.lower i ∨
        (cond_rect_mutate sam_adapt xcsf c rng).2.1.cond.upper i ≠ c.cond.upper i)) :
    (cond_rect_mutate sam_adapt xcsf c rng).2.2.1 = true := by
  by_contra hne
  have hf : (cond_rect_mutate sam_adapt xcsf c rng).2.2.1 = false := by simpa using hne
  obtain ⟨i, hi, hdiff⟩ := hch
  obtain ⟨e1, e2⟩ := cond_rect_mutate_false_dims sam_adapt xcsf c rng hc hf i hi
  rw [cond_rect_bounds_id xcsf _ _ (hin i hi).1 (hin i hi).2.1 (hin i hi).2.2] at e1 e2
  rcases hdiff with h | h
  · exact h e1
  · exact h e2

/-- Witness of the amended C15: with `P_MUTATION = 1`, step size `2` and every
draw equal to `0.75`, the condition `[1, 5]` becomes `[2, 6]` and
`cond_rect_mutate` returns true. -/
theorem cond_rect_mutate_changed_true_witness :
    (cond_rect_mutate sam_keep mutate_xcsf cross_a late_rng).2.1.cond.lower 0 = 2 ∧
    cross_a.cond.lower 0 = 1 ∧
    (cond_rect_mutate sam_keep mutate_xcsf cross_a late_rng).2.2.1 = true :=
  have e : (cond_rect_mutate sam_keep mutate_xcsf cross_a late_rng).2.1.cond.lower 0 = 2 := by
    have e4 : (cond_rect_mutate sam_keep mutate_xcsf cross_a late_rng).2.1.cond.interval
        = (cond_rect_mutate_loop mutate_xcsf 1 2 2 [1, 5] false late_rng 0).1 := rfl
    simp only [COND_RECT.lower, e4, cond_rect_mutate_loop_moved]
    rfl
  have e0 : cross_a.cond.lower 0 = 1 := rfl
  ⟨e, e0, cond_rect_mutate_changed_true sam_keep mutate_xcsf cross_a late_rng
    (by simp [COND_RECT.shaped, mutate_xcsf, cross_a])
    (by
      intro i hi
      have hi0 : i = 0 := by simpa [mutate_xcsf] using hi
      subst hi0
      simp [COND_RECT.lower, COND_RECT.upper, cross_a, mutate_xcsf]
      norm_num)
    ⟨0, by simp [mutate_xcsf], Or.inl (by rw [e, e0]; norm_num)⟩⟩

/-! ## Covering an input within the bounds -/

/-- C27: if `MIN_CON <= x_i <= MAX_CON` in every dimension and `S_MUTATION >= 0`,
then for every sequence of random draws in `[0, 1)` `cond_rect_cover(x)` produces
a condition with `lower_i <= x_i <= upper_i` in every dimension, and
`cond_rect_match(x)` returns true on it. -/
theorem cond_rect_cover_encloses (xcsf : XCSF) (c : CL) (x : List ℚ) (rng : Rng)
    (hc : c.cond.shaped xcsf) (_hx : x.length = xcsf.num_x_vars)
    (hin : ∀ i, i < xcsf.num_x_vars → xcsf.MIN_CON ≤ x.getD i 0 ∧ x.getD i 0 ≤ xcsf.MAX_CON)
    (hs : 0 ≤ xcsf.S_MUTATION) (hr : rng.unit) :
    (∀ i, i < xcsf.num_x_vars →
      (cond_rect_cover xcsf c x rng).1.cond.lower i ≤ x.getD i 0 ∧
        x.getD i 0 ≤ (cond_rect_cover xcsf c x rng).1.cond.upper i) ∧
    (cond_rect_match xcsf (cond_rect_cover xcsf c x rng).1 x).2 = true := by
  have hdim : ∀ i, i < xcsf.num_x_vars →
      (cond_rect_cover xcsf c x rng).1.cond.lower i ≤ x.getD i 0 ∧
        x.getD i 0 ≤ (cond_rect_cover xcsf c x rng).1.cond.upper i := by
    intro i hi
    obtain ⟨n1, n2, e1, e2⟩ :=
      (cond_rect_cover_loop_spec xcsf x xcsf.num_x_vars _ 0 c.cond.interval rng rfl
        (by rw [hc.2, hc.1])).2.2 i (Nat.zero_le i) hi
    have hb := cond_rect_bounds_encloses xcsf (x.getD i 0 - xcsf.S_MUTATION * rng.real n1)
      (x.getD i 0 + xcsf.S_MUTATION * rng.real n2) (x.getD i 0)
      (by nlinarith [mul_nonneg hs (hr n1).1]) (by nlinarith [mul_nonneg hs (hr n2).1])
      (hin i hi).1 (hin i hi).2
    simp only [COND_RECT.lower, COND_RECT.upper, cond_rect_cover, hc.1]
    simp only [Nat.mul_zero] at e1 e2
    rw [e1, e2]
    exact hb
  refine ⟨hdim, ?_⟩
  rw [cond_rect_match_spec xcsf _ x (cond_rect_cover_shaped xcsf c x rng hc)]
  exact hdim

/-- Witness of C27: the input `x = [0.5]` inside the bounds `[0, 1]`. -/
theorem cond_rect_cover_encloses_witness :
    ((cond_rect_cover cover_xcsf cover_cl [1 / 2] half_rng).1.cond.lower 0 ≤ 1 / 2 ∧
      1 / 2 ≤ (cond_rect_cover cover_xcsf cover_cl [1 / 2] half_rng).1.cond.upper 0) ∧
    (cond_rect_match cover_xcsf (cond_rect_cover cover_xcsf cover_cl [1 / 2] half_rng).1
      [1 / 2]).2 = true :=
  have h := cond_rect_cover_encloses cover_xcsf cover_cl [1 / 2] half_rng
    (by simp [COND_RECT.shaped, cover_xcsf, cover_cl])
    (by simp [cover_xcsf])
    (by
      intro i hi
      have h0 : i = 0 := by simpa [cover_xcsf] using hi
      subst h0
      simp [cover_xcsf]
      norm_num)
    (by simp [cover_xcsf])
    (by
      intro n
      simp [half_rng]
      norm_num)
  ⟨by simpa using h.1 0 (by simp [cover_xcsf]), h.2⟩

/-! ## Roulette wheel selection -/

/-- Loop invariant of `ea_select_rw`: when the draw is at most the accumulated
fitness plus the fitness of the remaining nodes, the loop stops at a node of
the list, the first at which the accumulated fitness reaches the draw. -/
theorem ea_select_rw_loop_spec (heap : Heap) (p : ℚ) :
    ∀ (next : List Ptr) (iter : Ptr) (sum : ℚ),
      p ≤ sum + (next.map fun q => (heap q).fit).sum →
      ∃ k, k ≤ next.length ∧
        ea_select_rw_loop heap p iter next sum = some ((iter :: next).getD k 0) ∧
        p ≤ sum + ((next.take k).map fun q => (heap q).fit).sum ∧
        ∀ j, j < k → sum + ((next.take j).map fun q => (heap q).fit).sum < p := by
  intro next
  induction next with
  | nil =>
    intro iter sum hp
    have hn : ¬ p > sum := by
      simp only [List.map_nil, List.sum_nil, add_zero] at hp
      exact not_lt.mpr hp
    refine ⟨0, le_refl _, ?_, ?_, ?_⟩
    · rw [ea_select_rw_loop.eq_def, if_neg hn]
      rfl
    · simpa using not_lt.mp hn
    · intro j hj
      omega
  | cons a rest ih =>
    intro iter sum hp
    by_cases hgt : p > sum
    · obtain ⟨k, hk, hres, hle, hfirst⟩ := ih a (sum + (heap a).fit) (by
        simp only [List.map_cons, List.sum_cons] at hp
        linarith)
      refine ⟨k + 1, by simpa using hk, ?_, ?_, ?_⟩
      · rw [ea_select_rw_loop.eq_def, if_pos hgt]
        simp only
        rw [hres]
        rfl
      · simp only [List.take_succ_cons, List.map_cons, List.sum_cons]
        linarith
      · intro j hj
        cases j with
        | zero => simpa using hgt
        | succ j =>
          have := hfirst j (by omega)
          simp only [List.take_succ_cons, List.map_cons, List.sum_cons]
          linarith
    · refine ⟨0, Nat.zero_le _, ?_, ?_, ?_⟩
      · rw [ea_select_rw_loop.eq_def, if_neg hgt]
        rfl
      · simpa using not_lt.mp hgt
      · intro j hj
        omega

/-- C30: for a non-empty set whose fitnesses are all `>= 0`, with `fit_sum` the sum
of the fitnesses of the members and a draw `p` with `0 <= p <= fit_sum`,
`ea_select_rw` does not step past the last node of the list and returns the
first classifier in list order whose cumulative fitness is `>= p`. -/
theorem ea_select_rw_first (s : State) (set : Set) (fit_sum : ℚ)
    (hne : set.list ≠ [])
    (_hfit : ∀ m, m ∈ set.list → 0 ≤ (s.heap m).fit)
    (hsum : fit_sum = clset_total_fit s.heap set)
    (_hp0 : 0 ≤ (rand_uniform 0 fit_sum s.rng).1)
    (hp1 : (rand_uniform 0 fit_sum s.rng).1 ≤ fit_sum) :
    ∃ k, k < set.list.length ∧
      ea_select_rw s set fit_sum
        = some (set.list.getD k 0, { s with rng := (rand_uniform 0 fit_sum s.rng).2 }) ∧
      (rand_uniform 0 fit_sum s.rng).1 ≤ cum_fit s.heap set.list (k + 1) ∧
      ∀ j, j < k → cum_fit s.heap set.list (j + 1) < (rand_uniform 0 fit_sum s.rng).1 := by
  cases hl : set.list with
  | nil => exact absurd hl hne
  | cons iter next =>
    obtain ⟨k, hk, hres, hle, hfirst⟩ := ea_select_rw_loop_spec s.heap
      (rand_uniform 0 fit_sum s.rng).1 next iter (s.heap iter).fit (by
        rw [hsum] at hp1
        simpa [clset_total_fit, hl] using hp1)
    refine ⟨k, by simpa using Nat.lt_succ_of_le hk, ?_, ?_, ?_⟩
    · unfold ea_select_rw
      simp only [hl, hres]
      rfl
    · simpa [cum_fit] using hle
    · intro j hj
      simpa [cum_fit] using hfirst j hj

/-- Witness of C30: the set of the test state with fitnesses `1` and `2` and
the draw `0`, which is at most the fitness sum `3`. -/
theorem ea_select_rw_first_witness :
    ∃ k, k < ea_set.list.length ∧
      ea_select_rw (ea_state 150) ea_set 3
        = some (ea_set.list.getD k 0,
            { ea_state 150 with rng := (rand_uniform 0 3 (ea_state 150).rng).2 }) ∧
      (rand_uniform 0 3 (ea_state 150).rng).1 ≤ cum_fit (ea_state 150).heap ea_set.list (k + 1) ∧
      ∀ j, j < k →
        cum_fit (ea_state 150).heap ea_set.list (j + 1) < (rand_uniform 0 3 (ea_state 150).rng).1 :=
  ea_select_rw_first (ea_state 150) ea_set 3 (by simp [ea_set])
    (by
      intro m hm
      simp only [ea_set, List.mem_cons, List.mem_singleton, List.not_mem_nil, or_false] at hm
      rcases hm with h | h <;> subst h <;> simp [ea_state, ea_heap])
    (by
      simp [clset_total_fit, ea_set, ea_state, ea_heap]
      norm_num)
    (by simp [rand_uniform, drand, ea_state])
    (by simp [rand_uniform, drand, ea_state])

/-! ## Tournament selection -/

/-- One scan of `ea_select_tournament` over the list `l`, entered with the
winner `w`: the scan draws once per node; it ends without a winner only when
it was entered without one and no node was admitted; a winner it ends with
was the winner on entry or a node admitted in the scan, and its fitness is at
least that of every node admitted in the scan and of the winner on entry. -/
theorem ea_select_tournament_scan_spec (s : State) :
    ∀ (l : List Ptr) (w : Option Ptr) (rng : Rng),
      (ea_select_tournament_scan s l w rng).2 = rng.advance l.length ∧
      ((ea_select_tournament_scan s l w rng).1 = none →
        w = none ∧ ∀ j, j < l.length → ¬ rng.real j < s.xcsf.EA_SELECT_SIZE) ∧
      (∀ p, (ea_select_tournament_scan s l w rng).1 = some p →
        (w = some p ∨
          ∃ k, k < l.length ∧ l.getD k 0 = p ∧ rng.real k < s.xcsf.EA_SELECT_SIZE) ∧
        (∀ j, j < l.length → rng.real j < s.xcsf.EA_SELECT_SIZE →
          (s.heap (l.getD j 0)).fit ≤ (s.heap p).fit) ∧
        (∀ q, w = some q → (s.heap q).fit ≤ (s.heap p).fit)) := by
  intro l
  induction l with
  | nil =>
    intro w rng
    refine ⟨rfl, ?_, ?_⟩
    · intro h
      exact ⟨h, fun j hj => by simp at hj⟩
    · intro p h
      refine ⟨Or.inl h, fun j hj => by simp at hj, ?_⟩
      intro q hq
      have e : w = some p := h
      rw [e] at hq
      cases hq
      exact le_refl _
  | cons a rest ih =>
    intro w rng
    have hd1 : (rand_uniform 0 1 rng).1 = rng.real 0 := rfl
    have hd2 : (rand_uniform 0 1 rng).2 = rng.advance 1 := rfl
    have hadv : ∀ g : Rng, (g.advance 1).advance rest.length = g.advance (rest.length + 1) :=
      fun _ => rfl
    by_cases hc : (decide ((rand_uniform 0 1 rng).1 < s.xcsf.EA_SELECT_SIZE) &&
        (match w with
         | none => true
         | some q => decide ((s.heap a).fit > (s.heap q).fit))) = true
    · have hstep : ea_select_tournament_scan s (a :: rest) w rng
          = ea_select_tournament_scan s rest (some a) (rand_uniform 0 1 rng).2 :=
        if_pos hc
      rw [hstep]
      obtain ⟨i1, i2, i3⟩ := ih (some a) (rand_uniform 0 1 rng).2
      rw [Bool.and_eq_true] at hc
      have hadm : rng.real 0 < s.xcsf.EA_SELECT_SIZE := by simpa [hd1] using hc.1
      refine ⟨by rw [i1, hd2]; rfl, ?_, ?_⟩
      · intro h
        exact absurd (i2 h).1 (by simp)
      · intro p h
        obtain ⟨j1, j2, j3⟩ := i3 p h
        have hap : (s.heap a).fit ≤ (s.heap p).fit := j3 a rfl
        refine ⟨Or.inr ?_, ?_, ?_⟩
        · rcases j1 with e | ⟨k, hk, hk2, hk3⟩
          · have ea : a = p := by simpa using e
            exact ⟨0, by simp, by simpa using ea, hadm⟩
          · exact ⟨k + 1, by simpa using hk, by simpa using hk2, hk3⟩
        · intro j hj hjadm
          cases j with
          | zero => simpa using hap
          | succ j =>
            have := j2 j (by simpa using hj) hjadm
            simpa using this
        · intro q hq
          subst hq
          have hlt : (s.heap a).fit > (s.heap q).fit := by simpa using hc.2
          exact le_trans (le_of_lt hlt) hap
    · have hstep : ea_select_tournament_scan s (a :: rest) w rng
          = ea_select_tournament_scan s rest w (rand_uniform 0 1 rng).2 :=
        if_neg hc
      rw [hstep]
      obtain ⟨i1, i2, i3⟩ := ih w (rand_uniform 0 1 rng).2
      refine ⟨by rw [i1, hd2]; rfl, ?_, ?_⟩
      · intro h
        obtain ⟨hw, hnone⟩ := i2 h
        refine ⟨hw, ?_⟩
        intro j hj
        cases j with
        | zero =>
          intro hadm
          apply hc
          subst hw
          simpa [hd1] using hadm
        | succ j => exact hnone j (by simpa using hj)
      · intro p h
        obtain ⟨j1, j2, j3⟩ := i3 p h
        refine ⟨?_, ?_, j3⟩
        · rcases j1 with e | ⟨k, hk, hk2, hk3⟩
          · exact Or.inl e
          · exact Or.inr ⟨k + 1, by simpa using hk, by simpa using hk2, hk3⟩
        · intro j hj hjadm
          cases j with
          | zero =>
            cases hw : w with
            | none =>
              exfalso
              apply hc
              subst hw
              simpa [hd1] using hjadm
            | some q =>
              have hq := j3 q hw
              have hnot : ¬ (s.heap a).fit > (s.heap q).fit := by
                intro hgt
                apply hc
                subst hw
                simp [hd1, hjadm, hgt]
              simpa using le_trans (not_lt.mp hnot) hq
          | succ j =>
            have := j2 j (by simpa using hj) hjadm
            simpa using this

/-- C21: whenever `ea_select_tournament` returns, some number `m` of scans in which
no classifier was admitted came first, and in the scan after them the winner
is a member of the set that was admitted (its draw was below `EA_SELECT_SIZE`)
and whose fitness is greater than or equal to the fitness of every classifier
admitted in that scan. -/
theorem ea_select_tournament_best :
    ∀ (fuel : Nat) (s : State) (set : Set) (w : Ptr) (t : State),
      ea_select_tournament fuel s set = some (w, t) →
      ∃ m,
        (∀ i, i < m * set.list.length → ¬ s.rng.real i < s.xcsf.EA_SELECT_SIZE) ∧
        (∃ k, k < set.list.length ∧ set.list.getD k 0 = w ∧
          (s.rng.advance (m * set.list.length)).real k < s.xcsf.EA_SELECT_SIZE) ∧
        (∀ j, j < set.list.length →
          (s.rng.advance (m * set.list.length)).real j < s.xcsf.EA_SELECT_SIZE →
          (s.heap (set.list.getD j 0)).fit ≤ (s.heap w).fit) ∧
        t = { s with rng := s.rng.advance ((m + 1) * set.list.length) } := by
  intro fuel
  induction fuel with
  | zero =>
    intro s set w t h
    simp [ea_select_tournament] at h
  | succ fuel ih =>
    intro s set w t h
    obtain ⟨i1, i2, i3⟩ := ea_select_tournament_scan_spec s set.list none s.rng
    rw [ea_select_tournament] at h
    cases hr : (ea_select_tournament_scan s set.list none s.rng).1 with
    | some winner =>
      rw [hr] at h
      simp only [Option.some.injEq, Prod.mk.injEq] at h
      obtain ⟨hw, ht⟩ := h
      subst hw
      obtain ⟨j1, j2, -⟩ := i3 winner hr
      refine ⟨0, ?_, ?_, ?_, ?_⟩
      · intro i hi
        simp at hi
      · rcases j1 with e | ⟨k, hk, hk2, hk3⟩
        · cases e
        · exact ⟨k, hk, hk2, by simpa [Rng.advance] using hk3⟩
      · intro j hj hadm
        exact j2 j hj (by simpa [Rng.advance] using hadm)
      · rw [← ht, i1]
        simp
    | none =>
      rw [hr] at h
      simp only at h
      obtain ⟨-, hnone⟩ := i2 hr
      obtain ⟨m, k1, k2, k3, k4⟩ := ih _ set w t h
      simp only [i1] at k1 k2 k3 k4
      refine ⟨m + 1, ?_, ?_, ?_, ?_⟩
      · intro i hi
        by_cases hlt : i < set.list.length
        · exact hnone i hlt
        · have hsplit : i = (i - set.list.length) + set.list.length := by omega
          have := k1 (i - set.list.length) (by
            rw [Nat.add_mul, Nat.one_mul] at hi
            omega)
          rw [hsplit]
          simpa [Rng.advance] using this
      · obtain ⟨k, hk, hk2, hk3⟩ := k2
        refine ⟨k, hk, hk2, ?_⟩
        have e : k + (m + 1) * set.list.length = k + m * set.list.length + set.list.length := by
          ring
        simpa [Rng.advance, e] using hk3
      · intro j hj hadm
        apply k3 j hj
        have e : j + (m + 1) * set.list.length = j + m * set.list.length + set.list.length := by
          ring
        simpa [Rng.advance, e] using hadm
      · rw [k4]
        have e : ∀ x : Nat, x + (m + 1 + 1) * set.list.length
            = x + (m + 1) * set.list.length + set.list.length := by
          intro x
          ring
        simp [Rng.advance, e]

/-- The tournament on `tour_state`: the first scan admits nobody, the second
admits both classifiers and the fitter one, at pointer `1`, wins. -/
theorem ea_select_tournament_tour :
    ea_select_tournament 3 tour_state ea_set
      = some (1, { tour_state with rng := tour_state.rng.advance 4 }) := by
  simp [ea_select_tournament, ea_select_tournament_scan, rand_uniform, drand, tour_state,
    tour_rng, ea_set, ea_heap, Rng.advance]
  norm_num

/-- The statement of `ea_select_tournament_best` holds of the tournament on
`tour_state`, where one scan without a winner comes first. -/
theorem ea_select_tournament_best_witness :
    ea_select_tournament 3 tour_state ea_set
      = some (1, { tour_state with rng := tour_state.rng.advance 4 }) ∧
    ∃ m,
      (∀ i, i < m * ea_set.list.length →
        ¬ tour_state.rng.real i < tour_state.xcsf.EA_SELECT_SIZE) ∧
      (∃ k, k < ea_set.list.length ∧ ea_set.list.getD k 0 = 1 ∧
        (tour_state.rng.advance (m * ea_set.list.length)).real k
          < tour_state.xcsf.EA_SELECT_SIZE) ∧
      (∀ j, j < ea_set.list.length →
        (tour_state.rng.advance (m * ea_set.list.length)).real j
          < tour_state.xcsf.EA_SELECT_SIZE →
        (tour_state.heap (ea_set.list.getD j 0)).fit ≤ (tour_state.heap 1).fit) ∧
      ({ tour_state with rng := tour_state.rng.advance 4 } : State)
        = { tour_state with rng := tour_state.rng.advance ((m + 1) * ea_set.list.length) } :=
  ⟨ea_select_tournament_tour,
    ea_select_tournament_best 3 tour_state ea_set 1 _ ea_select_tournament_tour⟩

/-! ## Selecting the loss function -/

/-- C22: `loss_set_func` installs `loss_mse` when `LOSS_FUNC = 0` and `loss_rmse`
when `LOSS_FUNC = 1`, changing no other field, and for every other value of
`LOSS_FUNC` it terminates with failure, so that no loss function is
installed. -/
theorem loss_set_func_spec (xcsf : XCSF) :
    (xcsf.LOSS_FUNC = 0 →
      loss_set_func xcsf = some { xcsf with loss_ptr := some LossPtr.loss_mse }) ∧
    (xcsf.LOSS_FUNC = 1 →
      loss_set_func xcsf = some { xcsf with loss_ptr := some LossPtr.loss_rmse }) ∧
    (xcsf.LOSS_FUNC ≠ 0 → xcsf.LOSS_FUNC ≠ 1 → loss_set_func xcsf = none) := by
  refine ⟨?_, ?_, ?_⟩
  · intro h
    simp [loss_set_func, h]
  · intro h
    simp [loss_set_func, h]
  · intro h0 h1
    simp [loss_set_func, h0, h1]

/-- The statement of `loss_set_func_spec` holds of the values `0`, `1`, `2` and
`-1` of `LOSS_FUNC`. -/
theorem loss_set_func_spec_witness :
    loss_set_func { LOSS_FUNC := 0 } = some { LOSS_FUNC := 0, loss_ptr := some LossPtr.loss_mse } ∧
    loss_set_func { LOSS_FUNC := 1 } = some { LOSS_FUNC := 1, loss_ptr := some LossPtr.loss_rmse } ∧
    loss_set_func { LOSS_FUNC := 2 } = none ∧
    loss_set_func { LOSS_FUNC := -1 } = none :=
  ⟨(loss_set_func_spec { LOSS_FUNC := 0 }).1 rfl,
   (loss_set_func_spec { LOSS_FUNC := 1 }).2.1 rfl,
   (loss_set_func_spec { LOSS_FUNC := 2 }).2.2 (by decide) (by decide),
   (loss_set_func_spec { LOSS_FUNC := -1 }).2.2 (by decide) (by decide)⟩

/-! ## The clock -/

/-- The function `ea_subsume` leaves the clock as it is. -/
theorem ea_subsume_clock (E : Ext) (s : State) (c c1p c2p : Ptr) (set : Set) (t : State)
    (h : ea_subsume E s c c1p c2p set = some t) : t.xcsf.time = s.xcsf.time := by
  unfold ea_subsume at h
  simp only at h
  split_ifs at h <;> simp only [Option.some.injEq] at h <;> subst h <;> rfl

/-- The function `ea_add` leaves the clock as it is. -/
theorem ea_add_clock (E : Ext) (s : State) (set : Set) (c1p c2p c1 : Ptr) (cmod mmod : Bool)
    (t : State) (h : ea_add E s set c1p c2p c1 cmod mmod = some t) :
    t.xcsf.time = s.xcsf.time := by
  unfold ea_add at h
  split_ifs at h
  · simp only [Option.some.injEq] at h
    subst h
    rfl
  · exact ea_subsume_clock E s c1 c1p c2p set t h
  · simp only [Option.some.injEq] at h
    subst h
    rfl

/-- One pass through the body of the offspring loop leaves the clock as it is,
when the external functions do. -/
theorem ea_offspring_clock (E : Ext) (hE : E.keeps_time) (s : State) (set : Set)
    (c1p c2p : Ptr) (t : State) (h : ea_offspring E s set c1p c2p = some t) :
    t.xcsf.time = s.xcsf.time := by
  obtain ⟨hinit, hcopy, hcross, hmut, -⟩ := hE
  unfold ea_offspring at h
  simp only at h
  split at h
  · simp at h
  · rename_i s1 h1
    rw [ea_add_clock E _ set _ _ _ _ _ t h, ea_add_clock E _ set _ _ _ _ _ s1 h1,
      ea_init_offspring_xcsf, hmut, hmut, hcross, hcopy, hcopy, hinit, hinit]
    rfl

/-- The offspring loop leaves the clock as it is, when the external functions
do. -/
theorem ea_loop_clock (E : Ext) (hE : E.keeps_time) (set : Set) (c1p c2p : Ptr) :
    ∀ (fuel : Nat) (s : State) (i : Int) (t : State),
      ea_loop E set c1p c2p fuel s i = some t → t.xcsf.time = s.xcsf.time := by
  intro fuel
  induction fuel with
  | zero =>
    intro s i t h
    rw [ea_loop] at h
    split_ifs at h
    simp only [Option.some.injEq] at h
    subst h
    rfl
  | succ fuel ih =>
    intro s i t h
    rw [ea_loop] at h
    split_ifs at h
    · split at h
      · simp at h
      · rename_i s1 h1
        rw [ih s1 (i + 1) t h, ea_offspring_clock E hE s set c1p c2p s1 h1]
    · simp only [Option.some.injEq] at h
      subst h
      rfl

/-- Tournament selection changes only the generator. -/
theorem ea_select_tournament_xcsf :
    ∀ (fuel : Nat) (s : State) (set : Set) (w : Ptr) (t : State),
      ea_select_tournament fuel s set = some (w, t) → t.xcsf = s.xcsf := by
  intro fuel
  induction fuel with
  | zero =>
    intro s set w t h
    simp [ea_select_tournament] at h
  | succ fuel ih =>
    intro s set w t h
    rw [ea_select_tournament] at h
    split at h
    · simp only [Option.some.injEq, Prod.mk.injEq] at h
      rw [← h.2]
    · have hx := ih _ set w t h
      exact hx

/-- Roulette wheel selection changes only the generator. -/
theorem ea_select_rw_xcsf (s : State) (set : Set) (fit_sum : ℚ) (w : Ptr) (t : State)
    (h : ea_select_rw s set fit_sum = some (w, t)) : t.xcsf = s.xcsf := by
  unfold ea_select_rw at h
  split at h
  · simp at h
  · simp only [Option.map_eq_some', Prod.mk.injEq] at h
    obtain ⟨_, -, -, ht⟩ := h
    rw [← ht]

/-- Parent selection leaves the `XCSF` structure as it is. -/
theorem ea_select_xcsf (fuel : Nat) (s : State) (set : Set) (c1p c2p : Ptr) (t : State)
    (h : ea_select fuel s set = some (c1p, c2p, t)) : t.xcsf = s.xcsf := by
  unfold ea_select at h
  split_ifs at h
  · simp only at h
    split at h
    · simp at h
    · rename_i a s1 h1
      split at h
      · simp at h
      · rename_i b s2 h2
        simp only [Option.some.injEq, Prod.mk.injEq] at h
        rw [← h.2.2, ea_select_rw_xcsf s1 set _ b s2 h2, ea_select_rw_xcsf s set _ a s1 h1]
  · split at h
    · simp at h
    · rename_i a s1 h1
      split at h
      · simp at h
      · rename_i b s2 h2
        simp only [Option.some.injEq, Prod.mk.injEq] at h
        rw [← h.2.2, ea_select_tournament_xcsf fuel s1 set b s2 h2,
          ea_select_tournament_xcsf fuel s set a s1 h1]

/-- The part of `ea` after the check leaves the clock as it is, when the
external functions do. -/
theorem ea_run_clock (E : Ext) (hE : E.keeps_time) (fuel : Nat) (s : State) (set : Set)
    (x : EaExit) (t : State) (h : ea_run E fuel s set = some (x, t)) :
    t.xcsf.time = s.xcsf.time := by
  unfold ea_run at h
  simp only at h
  split at h
  · simp at h
  · rename_i c1p c2p s1 h1
    split at h
    · simp at h
    · rename_i s2 h2
      simp only [Option.some.injEq, Prod.mk.injEq] at h
      rw [← h.2, hE.2.2.2.2, ea_loop_clock E hE set c1p c2p fuel s1 0 s2 h2,
        ea_select_xcsf fuel _ set c1p c2p s1 h1]
      rfl

/-- The external functions `ea_ext` leave the clock as it is. -/
theorem ea_ext_keeps_time : ea_ext.keeps_time :=
  ⟨fun _ _ _ _ => rfl, fun _ _ _ => rfl, fun _ _ _ => rfl, fun _ _ => rfl, fun _ => rfl⟩

/-- With the external functions `ea_ext`, the clock at 149 before the call and
both classifiers of the set at `time = 100`, `ea` runs the EA and returns at
the end of its body. -/
theorem ea_ext_completes :
    ∃ t, ea ea_ext 5 (ea_state 149) ea_set = some (EaExit.completed, t) := by
  have hmean : clset_mean_time (ea_state 149).heap ea_set = 100 := by
    simp [clset_mean_time, ea_state, ea_set, ea_heap]
    norm_num
  have hguard : ¬ (ea_set.size = 0 ∨
      ((incr_time (ea_state 149)).xcsf.time : ℚ)
        - clset_mean_time (incr_time (ea_state 149)).heap ea_set
        < (incr_time (ea_state 149)).xcsf.THETA_EA) := by
    have e : (incr_time (ea_state 149)).heap = (ea_state 149).heap := rfl
    rw [e, hmean]
    simp [incr_time, ea_state, ea_set]
    norm_num
  obtain ⟨s1, hsel, hx1, -, -, -⟩ := ea_select_roulette_first 5
    (clset_set_times (incr_time (ea_state 149)) ea_set) ea_set 0 [1] rfl rfl
    (by simp [clset_set_times, incr_time, ea_state, ea_set, ea_heap])
    (by simp [clset_set_times, incr_time, ea_state, ea_set, ea_heap])
  obtain ⟨s2, hoff, -, hl2, -⟩ := ea_ext_offspring s1 ea_set 0 0
  have hL1 : s1.xcsf.LAMBDA = 2 := by rw [hx1]; rfl
  have hloop : ea_loop ea_ext ea_set 0 0 5 s1 0 = some s2 := by
    rw [ea_loop, if_pos (by rw [hL1]; decide)]
    simp only [hoff]
    rw [ea_loop, if_neg (by rw [hl2, hL1]; decide)]
  refine ⟨s2, ?_⟩
  unfold ea
  simp only
  rw [if_neg hguard]
  unfold ea_run
  simp only [hsel, hloop]
  rfl

/-- C28: when the functions outside `ea.c` leave the clock as it is, every call
of `ea` that returns has increased `xcsf.time` by exactly 1; and when the EA
does not trigger (the set is empty or the threshold test fails) `ea` returns
at the check with that as its only effect: the other fields of the `XCSF`
structure, among them the population with its list and numerosity counter,
every classifier, the allocation state and the generator are as before. -/
theorem ea_clock (E : Ext) (fuel : Nat) (s : State) (set : Set) (hE : E.keeps_time) :
    (∀ x t, ea E fuel s set = some (x, t) → t.xcsf.time = s.xcsf.time + 1) ∧
    ((set.size = 0 ∨
        ((s.xcsf.time + 1 : Int) : ℚ) - clset_mean_time s.heap set < s.xcsf.THETA_EA) →
      ea E fuel s set
        = some (EaExit.skipped, { s with xcsf := { s.xcsf with time := s.xcsf.time + 1 } })) := by
  refine ⟨?_, ?_⟩
  · intro x t h
    unfold ea at h
    simp only at h
    split_ifs at h
    · simp only [Option.some.injEq, Prod.mk.injEq] at h
      rw [← h.2]
      rfl
    · rw [ea_run_clock E hE fuel _ set x t h]
      rfl
  · intro hg
    unfold ea
    simp only
    exact if_pos hg

/-- The statement of `ea_clock` holds of the run of the EA from the clock at
149, which returns at the end of the body with the clock at 150, and of the
call from the clock at 148, where the EA does not trigger. -/
theorem ea_clock_witness :
    ea_ext.keeps_time ∧
    (∃ t, ea ea_ext 5 (ea_state 149) ea_set = some (EaExit.completed, t) ∧
      t.xcsf.time = 149 + 1) ∧
    ea ea_ext 5 (ea_state 148) ea_set
      = some (EaExit.skipped,
          { ea_state 148 with xcsf := { (ea_state 148).xcsf with time := 148 + 1 } }) := by
  obtain ⟨t, ht⟩ := ea_ext_completes
  refine ⟨ea_ext_keeps_time, ⟨t, ht, ?_⟩, ?_⟩
  · exact (ea_clock ea_ext 5 (ea_state 149) ea_set ea_ext_keeps_time).1 _ t ht
  · refine (ea_clock ea_ext 5 (ea_state 148) ea_set ea_ext_keeps_time).2 (Or.inr ?_)
    have hmean : clset_mean_time (ea_state 148).heap ea_set = 100 := by
      simp [clset_mean_time, ea_state, ea_set, ea_heap]
      norm_num
    rw [hmean]
    simp [ea_state]
    norm_num

/-! ## The mutation flags of the two offspring -/

/-- The body of the offspring loop is its first part followed by the two calls
of `ea_add`, the first with the flag `m1mod` and the second with `m2mod`. -/
theorem ea_offspring_eq (E : Ext) (s : State) (set : Set) (c1p c2p : Ptr) :
    ea_offspring E s set c1p c2p
      = match ea_add E (ea_offspring_init E s c1p c2p).s set c1p c2p
          (ea_offspring_init E s c1p c2p).c1 (ea_offspring_init E s c1p c2p).cmod
          (ea_offspring_init E s c1p c2p).m1mod with
        | none => none
        | some s1 => ea_add E s1 set c2p c1p (ea_offspring_init E s c1p c2p).c2
            (ea_offspring_init E s c1p c2p).cmod (ea_offspring_init E s c1p c2p).m2mod :=
  rfl

/-- Every result of `ea_subsume` has the offspring discarded in favour of some
classifier or inserted into the population. -/
theorem ea_subsume_outcome (E : Ext) (s : State) (c c1p c2p : Ptr) (set : Set) (t : State)
    (h : ea_subsume E s c c1p c2p set = some t) :
    (∃ p, absorbed s t c p) ∨ inserted s t c := by
  unfold ea_subsume at h
  simp only at h
  split_ifs at h <;> simp only [Option.some.injEq] at h <;> subst h
  · exact Or.inl ⟨c1p, absorbed_intro s c c1p⟩
  · exact Or.inl ⟨c2p, absorbed_intro s c c2p⟩
  · exact Or.inl ⟨_, absorbed_intro { s with rng := _ } c _⟩
  · exact Or.inr (inserted_intro s c)

/-- Every result of `ea_add` for a modified offspring has the offspring
discarded in favour of some classifier or inserted into the population. -/
theorem ea_add_modified (E : Ext) (s : State) (set : Set) (c1p c2p c1 : Ptr) (cmod : Bool)
    (t : State) (h : ea_add E s set c1p c2p c1 cmod true = some t) :
    (∃ p, absorbed s t c1 p) ∨ inserted s t c1 := by
  unfold ea_add at h
  rw [if_neg (by simp)] at h
  split_ifs at h
  · exact ea_subsume_outcome E s c1 c1p c2p set t h
  · simp only [Option.some.injEq] at h
    subst h
    exact Or.inr (inserted_intro s c1)

/-- The result of `ea_add` for an offspring that neither crossover nor mutation
has modified. -/
theorem ea_add_unmodified (E : Ext) (s : State) (set : Set) (c1p c2p c1 : Ptr) :
    ea_add E s set c1p c2p c1 false false = some (cl_free (incr_pset_num (incr_num s c1p)) c1) := by
  unfold ea_add
  rw [if_pos (by simp)]

/-- C29: in the body of the offspring loop of `ea` each offspring is added with
its own mutation flag.  When crossover made no change, the first offspring
was mutated and the second was not, the first offspring is subsumed or
inserted, and the body then returns with the second offspring discarded and
the numerosity of its own parent `c2p` incremented; when the first was not
mutated and the second was, the first offspring is discarded and the
numerosity of its own parent `c1p` is incremented, and every result of the
body has the second offspring subsumed or inserted. -/
theorem ea_offspring_own_flag (E : Ext) (s : State) (set : Set) (c1p c2p : Ptr) :
    ((ea_offspring_init E s c1p c2p).cmod = false →
      (ea_offspring_init E s c1p c2p).m1mod = true →
      (ea_offspring_init E s c1p c2p).m2mod = false →
      (ea_add E (ea_offspring_init E s c1p c2p).s set c1p c2p
          (ea_offspring_init E s c1p c2p).c1 false true = none →
        ea_offspring E s set c1p c2p = none) ∧
      ∀ s1, ea_add E (ea_offspring_init E s c1p c2p).s set c1p c2p
          (ea_offspring_init E s c1p c2p).c1 false true = some s1 →
        ((∃ p, absorbed (ea_offspring_init E s c1p c2p).s s1
            (ea_offspring_init E s c1p c2p).c1 p) ∨
          inserted (ea_offspring_init E s c1p c2p).s s1 (ea_offspring_init E s c1p c2p).c1) ∧
        ∃ t, ea_offspring E s set c1p c2p = some t ∧
          absorbed s1 t (ea_offspring_init E s c1p c2p).c2 c2p) ∧
    ((ea_offspring_init E s c1p c2p).cmod = false →
      (ea_offspring_init E s c1p c2p).m1mod = false →
      (ea_offspring_init E s c1p c2p).m2mod = true →
      ∃ s1, absorbed (ea_offspring_init E s c1p c2p).s s1
          (ea_offspring_init E s c1p c2p).c1 c1p ∧
        ea_offspring E s set c1p c2p
          = ea_add E s1 set c2p c1p (ea_offspring_init E s c1p c2p).c2 false true ∧
        ∀ t, ea_offspring E s set c1p c2p = some t →
          (∃ p, absorbed s1 t (ea_offspring_init E s c1p c2p).c2 p) ∨
            inserted s1 t (ea_offspring_init E s c1p c2p).c2) := by
  refine ⟨?_, ?_⟩
  · intro hc h1 h2
    rw [ea_offspring_eq, hc, h1, h2]
    refine ⟨fun hn => by rw [hn], ?_⟩
    intro s1 hs1
    refine ⟨ea_add_modified E _ set c1p c2p _ false s1 hs1, ?_⟩
    rw [hs1]
    exact ⟨_, ea_add_unmodified E s1 set c2p c1p _, absorbed_intro s1 _ c2p⟩
  · intro hc h1 h2
    have e : ea_offspring E s set c1p c2p
        = ea_add E (cl_free (incr_pset_num (incr_num (ea_offspring_init E s c1p c2p).s c1p))
            (ea_offspring_init E s c1p c2p).c1) set c2p c1p
            (ea_offspring_init E s c1p c2p).c2 false true := by
      rw [ea_offspring_eq, hc, h1, h2, ea_add_unmodified]
    refine ⟨_, absorbed_intro _ _ c1p, e, ?_⟩
    intro t ht
    rw [e] at ht
    exact ea_add_modified E _ set c2p c1p _ false t ht

/-- With the external functions `mutate_ext 2` the first offspring of the
classifiers `0` and `1` of `ea_state 150`, mutated, is subsumed by its
parent. -/
theorem ea_add_mutated_first :
    ea_add (mutate_ext 2) (ea_offspring_init (mutate_ext 2) (ea_state 150) 0 1).s ea_set 0 1 2
        false true
      = some (cl_free (incr_pset_num (incr_num
          (ea_offspring_init (mutate_ext 2) (ea_state 150) 0 1).s 0)) 2) := by
  have hsub : (ea_offspring_init (mutate_ext 2) (ea_state 150) 0 1).s.xcsf.EA_SUBSUMPTION
      = true := rfl
  unfold ea_add
  rw [if_neg (by simp), if_pos hsub]
  apply ea_subsume_parent1
  simp [subsumes_offspring, ea_offspring_init, mutate_ext, ea_ext, ea_state, ea_heap, malloc,
    ea_init_offspring, set_err, set_fit, Function.update]
  norm_num

/-- The statement of `ea_offspring_own_flag` holds of the offspring of the
classifiers `0` and `1` of `ea_state 150`: when only the first offspring, at
the pointer `2`, is mutated, the body returns with the second, at the pointer
`3`, discarded in favour of its parent `1`; when only the second is mutated,
the first is discarded in favour of its parent `0`. -/
theorem ea_offspring_own_flag_witness :
    (∃ s1 t,
      ea_add (mutate_ext 2) (ea_offspring_init (mutate_ext 2) (ea_state 150) 0 1).s ea_set 0 1 2
        false true = some s1 ∧
      ea_offspring (mutate_ext 2) (ea_state 150) ea_set 0 1 = some t ∧ absorbed s1 t 3 1) ∧
    (∃ s1, absorbed (ea_offspring_init (mutate_ext 3) (ea_state 150) 0 1).s s1 2 0 ∧
      ea_offspring (mutate_ext 3) (ea_state 150) ea_set 0 1
        = ea_add (mutate_ext 3) s1 ea_set 1 0 3 false true) := by
  refine ⟨?_, ?_⟩
  · obtain ⟨-, t, ht, habs⟩ :=
      ((ea_offspring_own_flag (mutate_ext 2) (ea_state 150) ea_set 0 1).1 rfl rfl rfl).2 _
        ea_add_mutated_first
    exact ⟨_, t, ea_add_mutated_first, ht, habs⟩
  · obtain ⟨s1, h1, h2, -⟩ :=
      (ea_offspring_own_flag (mutate_ext 3) (ea_state 150) ea_set 0 1).2 rfl rfl rfl
    exact ⟨s1, h1, h2⟩

/-! ## Allocation of the arrays of a convolutional layer -/

/-- C26: `malloc_layer_arrays` terminates with failure if and only if `n_biases`
or `n_outputs` lies outside `[1, N_OUTPUTS_MAX]`, or `n_weights` lies outside
`[1, N_WEIGHTS_MAX]`, or `workspace_size < 1`; otherwise it returns with
`delta`, `state` and `output` of length `n_outputs`, `weights`,
`weight_updates` and `weight_active` of length `n_weights`, `biases` and
`bias_updates` of length `n_biases` and `mu` of length 6, where `delta`,
`state`, `output`, `bias_updates` and `weight_updates` hold only zeros. -/
theorem malloc_layer_arrays_spec (X : LayerExt) (raw : Raw) (l : Layer) :
    (malloc_layer_arrays X raw l = none ↔
      ((l.n_biases < 1 ∨ X.N_OUTPUTS_MAX < l.n_biases) ∨
        (l.n_outputs < 1 ∨ X.N_OUTPUTS_MAX < l.n_outputs) ∨
        (l.n_weights < 1 ∨ X.N_WEIGHTS_MAX < l.n_weights) ∨ l.workspace_size < 1)) ∧
    (¬ ((l.n_biases < 1 ∨ X.N_OUTPUTS_MAX < l.n_biases) ∨
        (l.n_outputs < 1 ∨ X.N_OUTPUTS_MAX < l.n_outputs) ∨
        (l.n_weights < 1 ∨ X.N_WEIGHTS_MAX < l.n_weights) ∨ l.workspace_size < 1) →
      ∃ r, malloc_layer_arrays X raw l = some r ∧
        (r.delta.length : Int) = l.n_outputs ∧ (r.state.length : Int) = l.n_outputs ∧
        (r.output.length : Int) = l.n_outputs ∧
        (r.weights.length : Int) = l.n_weights ∧
        (r.weight_updates.length : Int) = l.n_weights ∧
        (r.weight_active.length : Int) = l.n_weights ∧
        (r.biases.length : Int) = l.n_biases ∧ (r.bias_updates.length : Int) = l.n_biases ∧
        r.mu.length = 6 ∧
        (∀ x, x ∈ r.delta → x = 0) ∧ (∀ x, x ∈ r.state → x = 0) ∧
        (∀ x, x ∈ r.output → x = 0) ∧ (∀ x, x ∈ r.bias_updates → x = 0) ∧
        (∀ x, x ∈ r.weight_updates → x = 0)) := by
  refine ⟨?_, ?_⟩
  · unfold malloc_layer_arrays
    constructor
    · intro h
      split_ifs at h with hc
      rcases hc with h1 | h1 | h1 | h1 | h1 | h1 | h1
      · exact Or.inl (Or.inl h1)
      · exact Or.inl (Or.inr h1)
      · exact Or.inr (Or.inl (Or.inl h1))
      · exact Or.inr (Or.inl (Or.inr h1))
      · exact Or.inr (Or.inr (Or.inl (Or.inl h1)))
      · exact Or.inr (Or.inr (Or.inl (Or.inr h1)))
      · exact Or.inr (Or.inr (Or.inr h1))
    · intro h
      rw [if_pos]
      rcases h with (h1 | h1) | (h1 | h1) | (h1 | h1) | h1
      · exact Or.inl h1
      · exact Or.inr (Or.inl h1)
      · exact Or.inr (Or.inr (Or.inl h1))
      · exact Or.inr (Or.inr (Or.inr (Or.inl h1)))
      · exact Or.inr (Or.inr (Or.inr (Or.inr (Or.inl h1))))
      · exact Or.inr (Or.inr (Or.inr (Or.inr (Or.inr (Or.inl h1)))))
      · exact Or.inr (Or.inr (Or.inr (Or.inr (Or.inr (Or.inr h1)))))
  · intro h
    push_neg at h
    obtain ⟨⟨hb1, hb2⟩, ⟨ho1, ho2⟩, ⟨hw1, hw2⟩, hs⟩ := h
    have hc : ¬ (l.n_biases < 1 ∨ l.n_biases > X.N_OUTPUTS_MAX ∨ l.n_outputs < 1 ∨
        l.n_outputs > X.N_OUTPUTS_MAX ∨ l.n_weights < 1 ∨
        l.n_weights > X.N_WEIGHTS_MAX ∨ l.workspace_size < 1) := by
      intro hc
      rcases hc with h1 | h1 | h1 | h1 | h1 | h1 | h1 <;> omega
    unfold malloc_layer_arrays
    rw [if_neg hc]
    refine ⟨_, rfl, ?_, ?_, ?_, ?_, ?_, ?_, ?_, ?_, ?_, ?_, ?_, ?_, ?_, ?_⟩
    · simp [calloc]; omega
    · simp [calloc]; omega
    · simp [calloc]; omega
    · simp [malloc_double]; omega
    · simp [calloc]; omega
    · simp [malloc_bool]; omega
    · simp [malloc_double]; omega
    · simp [calloc]; omega
    · simp [malloc_double, N_MU]
    · intro x hx
      exact List.eq_of_mem_replicate hx
    · intro x hx
      exact List.eq_of_mem_replicate hx
    · intro x hx
      exact List.eq_of_mem_replicate hx
    · intro x hx
      exact List.eq_of_mem_replicate hx
    · intro x hx
      exact List.eq_of_mem_replicate hx

/-- The statement of `malloc_layer_arrays_spec` holds of the layer `conv_small`,
for which the allocation returns. -/
theorem malloc_layer_arrays_spec_witness :
    ∃ r, malloc_layer_arrays conv_ext {} conv_small = some r ∧
      (r.delta.length : Int) = conv_small.n_outputs ∧
      (r.state.length : Int) = conv_small.n_outputs ∧
      (r.output.length : Int) = conv_small.n_outputs ∧
      (r.weights.length : Int) = conv_small.n_weights ∧
      (r.weight_updates.length : Int) = conv_small.n_weights ∧
      (r.weight_active.length : Int) = conv_small.n_weights ∧
      (r.biases.length : Int) = conv_small.n_biases ∧
      (r.bias_updates.length : Int) = conv_small.n_biases ∧
      r.mu.length = 6 ∧
      (∀ x, x ∈ r.delta → x = 0) ∧ (∀ x, x ∈ r.state → x = 0) ∧
      (∀ x, x ∈ r.output → x = 0) ∧ (∀ x, x ∈ r.bias_updates → x = 0) ∧
      (∀ x, x ∈ r.weight_updates → x = 0) :=
  (malloc_layer_arrays_spec conv_ext {} conv_small).2 (by decide)

/-! ## Mutation of the number of filters -/

/-- The value of `clamp` lies between its bounds. -/
theorem clamp_bounds (a lo hi : ℚ) (h : lo ≤ hi) : lo ≤ clamp a lo hi ∧ clamp a lo hi ≤ hi := by
  unfold clamp
  split_ifs with h1 h2
  · exact ⟨le_refl _, h⟩
  · exact ⟨h, le_refl _⟩
  · exact ⟨not_lt.mp h1, not_lt.mp h2⟩

/-- Rounding the product of a factor in `[-1, 1]` and a positive integer gives
an integer of at most that magnitude. -/
theorem round_mul_bounds (m : ℚ) (g : Int) (hg : 1 ≤ g) (h1 : -1 ≤ m) (h2 : m ≤ 1) :
    -g ≤ round (m * g) ∧ round (m * g) ≤ g := by
  have hgq : (0 : ℚ) < (g : ℚ) := by exact_mod_cast (by omega : (0 : Int) < g)
  have hup : m * g ≤ g := by nlinarith
  have hlo : -(g : ℚ) ≤ m * g := by nlinarith
  unfold round
  split_ifs with h
  · constructor
    · apply Int.le_floor.mpr
      push_cast
      linarith
    · have : Int.floor (m * g + 1 / 2) < g + 1 := by
        apply Int.floor_lt.mpr
        push_cast
        linarith
      omega
  · have h' : m * g < 0 := not_le.mp h
    constructor
    · have : Int.floor (-(m * g) + 1 / 2) < g + 1 := by
        apply Int.floor_lt.mpr
        push_cast
        linarith
      omega
    · have : -g ≤ Int.floor (-(m * g) + 1 / 2) := by
        apply Int.le_floor.mpr
        push_cast
        linarith
      omega

/-- Every number that the loop of `neural_layer_convolutional_mutate_filter`
ends with is non-zero and at most `max_neuron_grow` in magnitude. -/
theorem neural_layer_convolutional_mutate_filter_loop_bounds (l : Layer)
    (hg : 1 ≤ l.max_neuron_grow) :
    ∀ (fuel : Nat) (rng : Rng) (n : Int) (rng' : Rng),
      neural_layer_convolutional_mutate_filter_loop l fuel rng = some (n, rng') →
      n ≠ 0 ∧ -l.max_neuron_grow ≤ n ∧ n ≤ l.max_neuron_grow := by
  intro fuel
  induction fuel with
  | zero =>
    intro rng n rng' h
    simp [neural_layer_convolutional_mutate_filter_loop] at h
  | succ fuel ih =>
    intro rng n rng' h
    rw [neural_layer_convolutional_mutate_filter_loop] at h
    split_ifs at h with h0
    · exact ih _ n rng' h
    · simp only [Option.some.injEq, Prod.mk.injEq] at h
      obtain ⟨hn, -⟩ := h
      have hb := clamp_bounds (rand_normal 0 0.5 rng).1 (-1) 1 (by norm_num)
      have hr := round_mul_bounds _ l.max_neuron_grow hg hb.1 hb.2
      rw [← hn]
      exact ⟨h0, hr.1, hr.2⟩

/-- C25: for every layer with `1 <= n_filters <= max_outputs` and
`max_neuron_grow >= 1`, every value `n` returned by
`neural_layer_convolutional_mutate_filter` satisfies
`1 <= n_filters + n <= max_outputs` and `|n| <= max_neuron_grow`. -/
theorem neural_layer_convolutional_mutate_filter_bounds (fuel : Nat) (l : Layer) (mu : ℚ)
    (rng : Rng) (n : Int) (rng' : Rng) (h1 : 1 ≤ l.n_filters)
    (h2 : l.n_filters ≤ l.max_outputs) (hg : 1 ≤ l.max_neuron_grow)
    (h : neural_layer_convolutional_mutate_filter fuel l mu rng = some (n, rng')) :
    1 ≤ l.n_filters + n ∧ l.n_filters + n ≤ l.max_outputs ∧ |n| ≤ l.max_neuron_grow := by
  rw [abs_le]
  unfold neural_layer_convolutional_mutate_filter at h
  simp only at h
  split_ifs at h with hu
  · split at h
    · simp at h
    · rename_i k g hk
      obtain ⟨-, hk1, hk2⟩ :=
        neural_layer_convolutional_mutate_filter_loop_bounds l hg fuel _ k g hk
      split_ifs at h with ha hb <;> simp only [Option.some.injEq, Prod.mk.injEq] at h <;>
        obtain ⟨hn, -⟩ := h <;> subst hn <;> omega
  · simp only [Option.some.injEq, Prod.mk.injEq] at h
    obtain ⟨hn, -⟩ := h
    subst hn
    omega

/-- On `conv_small` with two filters, with the rate `mu = 1` and every draw
equal to `0.5`, the mutation of the number of filters returns 2: the rounded
value of `0.5 * 3`. -/
theorem neural_layer_convolutional_mutate_filter_half :
    neural_layer_convolutional_mutate_filter 1 { conv_small with n_filters := 2 } 1 half_rng
      = some (2, (half_rng.advance 1).advance 1) := by
  have hr : round ((1 / 2 : ℚ) * 3) = 2 := by
    unfold round
    rw [if_pos (by norm_num), Int.floor_eq_iff]
    norm_num
  have hc : clamp (1 / 2) (-1) 1 = 1 / 2 := by
    unfold clamp
    norm_num
  have hd : ∀ a b : ℚ, ∀ g : Rng, (rand_normal a b g).2 = g.advance 1 := fun _ _ _ => rfl
  have hd1 : ∀ a b : ℚ, (rand_normal a b (half_rng.advance 1)).1 = 1 / 2 := fun _ _ => rfl
  have hloop : neural_layer_convolutional_mutate_filter_loop { conv_small with n_filters := 2 } 1
      (half_rng.advance 1) = some (2, (half_rng.advance 1).advance 1) := by
    rw [neural_layer_convolutional_mutate_filter_loop]
    simp only [hd, hd1, hc]
    have hg : (({ conv_small with n_filters := 2 } : Layer).max_neuron_grow : ℚ) = 3 := by
      simp [conv_small]
    rw [hg, hr]
    rfl
  unfold neural_layer_convolutional_mutate_filter
  have hu : (rand_uniform 0 0.1 half_rng).1 < (1 : ℚ) := by
    show (1 / 2 : ℚ) < 1
    norm_num
  have hu2 : (rand_uniform 0 0.1 half_rng).2 = half_rng.advance 1 := rfl
  simp only [hu, hu2, hloop, if_true]
  rfl

/-- The statement of `neural_layer_convolutional_mutate_filter_bounds` holds of
`conv_small` with two filters, at most five outputs and `max_neuron_grow = 3`,
where the returned value is 2. -/
theorem neural_layer_convolutional_mutate_filter_bounds_witness :
    neural_layer_convolutional_mutate_filter 1 { conv_small with n_filters := 2 } 1 half_rng
      = some (2, (half_rng.advance 1).advance 1) ∧
    1 ≤ ({ conv_small with n_filters := 2 } : Layer).n_filters + 2 ∧
    ({ conv_small with n_filters := 2 } : Layer).n_filters + 2
      ≤ ({ conv_small with n_filters := 2 } : Layer).max_outputs ∧
    |(2 : Int)| ≤ ({ conv_small with n_filters := 2 } : Layer).max_neuron_grow :=
  ⟨neural_layer_convolutional_mutate_filter_half,
    neural_layer_convolutional_mutate_filter_bounds 1 { conv_small with n_filters := 2 } 1
      half_rng 2 _ (by decide) (by decide) (by decide)
      neural_layer_convolutional_mutate_filter_half⟩

/-! ## Copying a convolutional layer -/

/-- C24 fails on the layer `conv_small`, a convolutional layer with
`momentum = 0.9` and `decay = 0.01`: with a `layer_defaults` that clears the
fields, the copy has `momentum = 0` and `decay = 0`, although its other
hyperparameters, `weights`, `weight_active`, `biases` and `mu` are those of the
source.  For every `layer_defaults`, the copy does not depend on the
`momentum` and the `decay` of the source at all. -/
theorem neural_layer_convolutional_copy_drops_momentum :
    conv_small.momentum = 9 / 10 ∧ conv_small.decay = 1 / 100 ∧
    (∃ l, neural_layer_convolutional_copy conv_ext {} conv_small = some l ∧
      l.momentum = 0 ∧ l.decay = 0 ∧
      l.eta = conv_small.eta ∧ l.eta_max = conv_small.eta_max ∧
      l.eta_min = conv_small.eta_min ∧ l.weights = conv_small.weights ∧
      l.weight_active = conv_small.weight_active ∧ l.biases = conv_small.biases ∧
      l.mu = conv_small.mu) ∧
    ∀ (X : LayerExt) (raw : Raw) (src : Layer) (m d : ℚ),
      neural_layer_convolutional_copy X raw { src with momentum := m, decay := d }
        = neural_layer_convolutional_copy X raw src := by
  refine ⟨rfl, rfl, ?_, fun _ _ _ _ _ => rfl⟩
  have hm : malloc_layer_arrays conv_ext {}
      { type := conv_small.type, layer_vptr := conv_small.layer_vptr,
        options := conv_small.options, function := conv_small.function,
        height := conv_small.height, width := conv_small.width,
        channels := conv_small.channels, n_filters := conv_small.n_filters,
        stride := conv_small.stride, size := conv_small.size, pad := conv_small.pad,
        n_weights := conv_small.n_weights, n_active := conv_small.n_active,
        out_h := conv_small.out_h, out_w := conv_small.out_w, out_c := conv_small.out_c,
        n_outputs := conv_small.n_outputs, n_inputs := conv_small.n_inputs,
        max_outputs := conv_small.max_outputs, max_neuron_grow := conv_small.max_neuron_grow,
        n_biases := conv_small.n_biases, eta := conv_small.eta, eta_max := conv_small.eta_max,
        eta_min := conv_small.eta_min, workspace_size := conv_small.workspace_size } ≠ none := by
    unfold malloc_layer_arrays
    rw [if_neg (by decide)]
    simp
  unfold neural_layer_convolutional_copy
  rw [if_neg (by decide)]
  simp only [conv_ext]
  split
  · rename_i h
    exact absurd h hm
  · rename_i r h
    unfold malloc_layer_arrays at h
    rw [if_neg (by decide)] at h
    simp only [Option.some.injEq] at h
    subst h
    refine ⟨_, rfl, rfl, rfl, rfl, rfl, rfl, ?_, ?_, ?_, ?_⟩ <;>
      simp [memcpy, memcpy_bool, malloc_double, malloc_bool, conv_small, N_MU]

/-! ## Saving and loading a convolutional layer -/

/-- Reading `n` doubles from a file that starts with `n` doubles. -/
theorem read_doubles_map (rest : FILE) :
    ∀ (xs : List ℚ) (n : Nat), xs.length = n →
      read_doubles n (xs.map Elem.dbl ++ rest) = (xs, rest) := by
  intro xs
  induction xs with
  | nil =>
    intro n h
    subst h
    cases rest <;> rfl
  | cons x xs ih =>
    intro n h
    subst h
    simp [read_doubles, ih xs.length rfl]

/-- Reading `n` booleans from a file that starts with `n` booleans. -/
theorem read_bools_map (rest : FILE) :
    ∀ (xs : List Bool) (n : Nat), xs.length = n →
      read_bools n (xs.map Elem.bool ++ rest) = (xs, rest) := by
  intro xs
  induction xs with
  | nil =>
    intro n h
    subst h
    cases rest <;> rfl
  | cons x xs ih =>
    intro n h
    subst h
    simp [read_bools, ih xs.length rfl]

/-- The statement `s += fread(array, sizeof(double), nmemb, fp)` on a file that
starts with `nmemb` doubles, for an array of that length: the array becomes
those doubles. -/
theorem fread_doubles_map (get : Layer → List ℚ) (set : Layer → List ℚ → Layer)
    (nmemb : Layer → Int) (r : Layer) (s : Nat) (xs : List ℚ) (rest : FILE)
    (hn : xs.length = (nmemb r).toNat) (hg : (get r).length = xs.length) :
    fread_doubles get set nmemb (r, s, xs.map Elem.dbl ++ rest)
      = (set r xs, s + xs.length, rest) := by
  have hm : memcpy (get r) xs xs.length = xs := by
    unfold memcpy
    rw [List.take_length, List.drop_eq_nil_of_le (le_of_eq hg), List.append_nil]
  unfold fread_doubles
  simp only [← hn, read_doubles_map rest xs xs.length rfl, hm]

/-- The statement `s += fread(array, sizeof(bool), nmemb, fp)` on a file that
starts with `nmemb` booleans, for an array of that length. -/
theorem fread_bools_map (get : Layer → List Bool) (set : Layer → List Bool → Layer)
    (nmemb : Layer → Int) (r : Layer) (s : Nat) (xs : List Bool) (rest : FILE)
    (hn : xs.length = (nmemb r).toNat) (hg : (get r).length = xs.length) :
    fread_bools get set nmemb (r, s, xs.map Elem.bool ++ rest)
      = (set r xs, s + xs.length, rest) := by
  have hm : memcpy_bool (get r) xs xs.length = xs := by
    unfold memcpy_bool
    rw [List.take_length, List.drop_eq_nil_of_le (le_of_eq hg), List.append_nil]
  unfold fread_bools
  simp only [← hn, read_bools_map rest xs xs.length rfl, hm]

/-- The part of `neural_layer_convolutional_load` before the allocation, on
the file written by `neural_layer_convolutional_save`: the 25 scalar fields
are read and the file is left at the arrays. -/
theorem neural_layer_convolutional_load_header_save (l l0 : Layer) :
    neural_layer_convolutional_load_header l0 (neural_layer_convolutional_save l []).2
      = ({ l0 with
            options := l.options, function := l.function, height := l.height,
            width := l.width, channels := l.channels, n_filters := l.n_filters,
            stride := l.stride, size := l.size, pad := l.pad, n_weights := l.n_weights,
            n_active := l.n_active, out_h := l.out_h, out_w := l.out_w, out_c := l.out_c,
            n_outputs := l.n_outputs, n_inputs := l.n_inputs, max_outputs := l.max_outputs,
            max_neuron_grow := l.max_neuron_grow, n_biases := l.n_biases, eta := l.eta,
            eta_max := l.eta_max, eta_min := l.eta_min, momentum := l.momentum,
            decay := l.decay,
            workspace_size := set_low_word l0.workspace_size (low_word l.workspace_size) },
          25,
          (l.weights.map Elem.dbl).take l.n_weights.toNat ++
            ((l.weight_updates.map Elem.dbl).take l.n_weights.toNat ++
              ((l.weight_active.map Elem.bool).take l.n_weights.toNat ++
                ((l.biases.map Elem.dbl).take l.n_biases.toNat ++
                  ((l.bias_updates.map Elem.dbl).take l.n_filters.toNat ++
                    (l.mu.map Elem.dbl).take N_MU))))) := by
  simp [neural_layer_convolutional_save, fwrite, neural_layer_convolutional_load_header,
    fread_u32, fread_int, fread_double]

/-- Loading a saved layer terminates with failure when the four bytes that
were written of `workspace_size` leave the size below 1. -/
theorem neural_layer_convolutional_load_save_none (X : LayerExt) (raw : Raw) (l l0 : Layer)
    (h : set_low_word l0.workspace_size (low_word l.workspace_size) < 1) :
    neural_layer_convolutional_load X raw l0 (neural_layer_convolutional_save l []).2
      = none := by
  unfold neural_layer_convolutional_load
  simp only [neural_layer_convolutional_load_header_save]
  unfold malloc_layer_arrays
  rw [if_pos (by simp only [h, or_true])]

/-- The part of `neural_layer_convolutional_load` after the allocation, on a
file that holds the six arrays in the sizes of the layer: each array of the
layer becomes the one in the file, every element is counted and nothing of
the file is left. -/
theorem neural_layer_convolutional_load_arrays_spec (r : Layer) (s : Nat)
    (ws wu : List ℚ) (wa : List Bool) (bs bu mu : List ℚ)
    (h1 : ws.length = r.n_weights.toNat) (g1 : r.weights.length = ws.length)
    (h2 : wu.length = r.n_weights.toNat) (g2 : r.weight_updates.length = wu.length)
    (h3 : wa.length = r.n_weights.toNat) (g3 : r.weight_active.length = wa.length)
    (h4 : bs.length = r.n_biases.toNat) (g4 : r.biases.length = bs.length)
    (h5 : bu.length = r.n_biases.toNat) (g5 : r.bias_updates.length = bu.length)
    (h6 : mu.length = N_MU) (g6 : r.mu.length = mu.length) :
    neural_layer_convolutional_load_arrays r s
        (ws.map Elem.dbl ++ (wu.map Elem.dbl ++ (wa.map Elem.bool ++
          (bs.map Elem.dbl ++ (bu.map Elem.dbl ++ (mu.map Elem.dbl ++ []))))))
      = ({ r with weights := ws, weight_updates := wu, weight_active := wa, biases := bs,
                  bias_updates := bu, mu := mu },
          s + ws.length + wu.length + wa.length + bs.length + bu.length + mu.length, []) := by
  unfold neural_layer_convolutional_load_arrays
  rw [fread_doubles_map (fun l => l.weights) (fun l a => { l with weights := a })
    (fun l => l.n_weights) r s ws _ h1 g1]
  rw [fread_doubles_map (fun l => l.weight_updates) (fun l a => { l with weight_updates := a })
    (fun l => l.n_weights) { r with weights := ws } (s + ws.length) wu _ h2 g2]
  rw [fread_bools_map (fun l => l.weight_active) (fun l a => { l with weight_active := a })
    (fun l => l.n_weights) { r with weights := ws, weight_updates := wu }
    (s + ws.length + wu.length) wa _ h3 g3]
  rw [fread_doubles_map (fun l => l.biases) (fun l a => { l with biases := a })
    (fun l => l.n_biases) { r with weights := ws, weight_updates := wu, weight_active := wa }
    (s + ws.length + wu.length + wa.length) bs _ h4 g4]
  rw [fread_doubles_map (fun l => l.bias_updates) (fun l a => { l with bias_updates := a })
    (fun l => l.n_biases)
    { r with weights := ws, weight_updates := wu, weight_active := wa, biases := bs }
    (s + ws.length + wu.length + wa.length + bs.length) bu _ h5 g5]
  rw [fread_doubles_map (fun l => l.mu) (fun l a => { l with mu := a }) (fun _ => N_MU)
    { r with weights := ws, weight_updates := wu, weight_active := wa, biases := bs,
             bias_updates := bu }
    (s + ws.length + wu.length + wa.length + bs.length + bu.length) mu _ (by simp [h6]) g6]

/-- C23 on the code: the layer `conv_big`, whose workspace has `2 ^ 32` bytes,
satisfies `n_biases = n_filters`, its array sizes are within the limits and
its arrays have those sizes; `neural_layer_convolutional_save` writes only
four of the eight bytes of `workspace_size`, which are all zero, and
`neural_layer_convolutional_load` applied to the saved layer terminates with
failure in `malloc_layer_arrays` instead of returning the layer. -/
theorem neural_layer_convolutional_load_save_fails :
    conv_big.n_biases = conv_big.n_filters ∧ conv_big.within_limits conv_ext ∧
    conv_big.allocated ∧ low_word conv_big.workspace_size = 0 ∧
    ∀ raw, neural_layer_convolutional_load conv_ext raw {}
      (neural_layer_convolutional_save conv_big []).2 = none := by
  refine ⟨rfl, ?_, ?_, by decide, ?_⟩
  · simp only [Layer.within_limits, conv_big, conv_ext]
    norm_num
  · simp only [Layer.allocated, conv_big, List.length_replicate, List.length_cons,
      List.length_nil, N_MU]
    norm_num
  · intro raw
    exact neural_layer_convolutional_load_save_none conv_ext raw conv_big {} (by decide)

/-- Where the truncation of `workspace_size` does no harm, saving and loading
round-trip: for every layer with `n_biases = n_filters`, array sizes within
the limits, arrays of those sizes and a `workspace_size` whose low 32 bits
(the four bytes that are saved) are not all zero,
`neural_layer_convolutional_load` applied to the element sequence written by
`neural_layer_convolutional_save` returns a layer whose options, function,
geometry and count fields, eta, eta_max, eta_min, momentum, decay,
max_neuron_grow, weights, weight_updates, weight_active, biases, bias_updates
and mu equal the original's; it reads exactly as many elements as were written
and leaves nothing of the file unread. -/
theorem neural_layer_convolutional_load_save (X : LayerExt) (raw : Raw) (l l0 : Layer)
    (hb : l.n_biases = l.n_filters) (hl : l.within_limits X) (ha : l.allocated)
    (hw : low_word l.workspace_size ≠ 0) :
    ∃ r, neural_layer_convolutional_load X raw l0 (neural_layer_convolutional_save l []).2
        = some (r, (neural_layer_convolutional_save l []).1, []) ∧
      r.payload = l.payload := by
  obtain ⟨a1, a2, a3, a4, a5, a6⟩ := ha
  obtain ⟨l1, l2, l3, l4, l5, l6, l7⟩ := hl
  have e1 : l.weights.length = l.n_weights.toNat := by omega
  have e2 : l.weight_updates.length = l.n_weights.toNat := by omega
  have e3 : l.weight_active.length = l.n_weights.toNat := by omega
  have e4 : l.biases.length = l.n_biases.toNat := by omega
  have e5 : l.bias_updates.length = l.n_biases.toNat := by omega
  have e5' : l.bias_updates.length = l.n_filters.toNat := by omega
  have hcount : (neural_layer_convolutional_save l []).1
      = 25 + l.weights.length + l.weight_updates.length + l.weight_active.length
        + l.biases.length + l.bias_updates.length + l.mu.length := by
    simp [neural_layer_convolutional_save, fwrite, ← hb, e1, e2, e3, e4, e5, a6]
  have hfile : neural_layer_convolutional_load_header l0 (neural_layer_convolutional_save l []).2
      = ({ l0 with
            options := l.options, function := l.function, height := l.height,
            width := l.width, channels := l.channels, n_filters := l.n_filters,
            stride := l.stride, size := l.size, pad := l.pad, n_weights := l.n_weights,
            n_active := l.n_active, out_h := l.out_h, out_w := l.out_w, out_c := l.out_c,
            n_outputs := l.n_outputs, n_inputs := l.n_inputs, max_outputs := l.max_outputs,
            max_neuron_grow := l.max_neuron_grow, n_biases := l.n_biases, eta := l.eta,
            eta_max := l.eta_max, eta_min := l.eta_min, momentum := l.momentum,
            decay := l.decay,
            workspace_size := set_low_word l0.workspace_size (low_word l.workspace_size) },
          25,
          l.weights.map Elem.dbl ++
            (l.weight_updates.map Elem.dbl ++
              (l.weight_active.map Elem.bool ++
                (l.biases.map Elem.dbl ++
                  (l.bias_updates.map Elem.dbl ++ (l.mu.map Elem.dbl ++ [])))))) := by
    have t1 : (l.weights.map Elem.dbl).take l.n_weights.toNat = l.weights.map Elem.dbl :=
      List.take_of_length_le (by simp [e1])
    have t2 : (l.weight_updates.map Elem.dbl).take l.n_weights.toNat
        = l.weight_updates.map Elem.dbl := List.take_of_length_le (by simp [e2])
    have t3 : (l.weight_active.map Elem.bool).take l.n_weights.toNat
        = l.weight_active.map Elem.bool := List.take_of_length_le (by simp [e3])
    have t4 : (l.biases.map Elem.dbl).take l.n_biases.toNat = l.biases.map Elem.dbl :=
      List.take_of_length_le (by simp [e4])
    have t5 : (l.bias_updates.map Elem.dbl).take l.n_filters.toNat
        = l.bias_updates.map Elem.dbl := List.take_of_length_le (by simp [e5'])
    have t6 : (l.mu.map Elem.dbl).take N_MU = l.mu.map Elem.dbl :=
      List.take_of_length_le (by simp [a6])
    rw [neural_layer_convolutional_load_header_save, t1, t2, t3, t4, t5, t6, List.append_nil]
  have hws : ¬ set_low_word l0.workspace_size (low_word l.workspace_size) < 1 := by
    unfold set_low_word low_word at *
    omega
  have hm : malloc_layer_arrays X raw
      { l0 with
        options := l.options, function := l.function, height := l.height,
        width := l.width, channels := l.channels, n_filters := l.n_filters,
        stride := l.stride, size := l.size, pad := l.pad, n_weights := l.n_weights,
        n_active := l.n_active, out_h := l.out_h, out_w := l.out_w, out_c := l.out_c,
        n_outputs := l.n_outputs, n_inputs := l.n_inputs, max_outputs := l.max_outputs,
        max_neuron_grow := l.max_neuron_grow, n_biases := l.n_biases, eta := l.eta,
        eta_max := l.eta_max, eta_min := l.eta_min, momentum := l.momentum,
        decay := l.decay,
        workspace_size := set_low_word l0.workspace_size (low_word l.workspace_size) }
      ≠ none := by
    unfold malloc_layer_arrays
    rw [if_neg (by
      simp only [not_or, not_lt]
      exact ⟨l1, by omega, l3, by omega, l5, by omega, by omega⟩)]
    simp
  unfold neural_layer_convolutional_load
  simp only [hfile]
  split
  · rename_i h
    exact absurd h hm
  · rename_i r h
    unfold malloc_layer_arrays at h
    rw [if_neg (by
      simp only [not_or, not_lt]
      exact ⟨l1, by omega, l3, by omega, l5, by omega, by omega⟩)] at h
    simp only [Option.some.injEq] at h
    subst h
    rw [neural_layer_convolutional_load_arrays_spec, hcount]
    · exact ⟨_, rfl, rfl⟩
    all_goals simp [malloc_double, malloc_bool, calloc, e1, e2, e3, e4, e5, a6]

/-- The layer `conv_small`, saved and loaded into a cleared layer, comes back
with its payload. -/
theorem neural_layer_convolutional_load_save_witness :
    ∃ r, neural_layer_convolutional_load conv_ext {} {}
        (neural_layer_convolutional_save conv_small []).2
        = some (r, (neural_layer_convolutional_save conv_small []).1, []) ∧
      r.payload = conv_small.payload :=
  neural_layer_convolutional_load_save conv_ext {} conv_small {} rfl
    (by unfold Layer.within_limits; decide) (by unfold Layer.allocated; decide) (by decide)

/-! ## Roulette wheel selection on a zero fitness sum -/

/-- Roulette wheel selection returns the first classifier of the list whenever
the draw is at most its fitness. -/
theorem ea_select_rw_head (s : State) (set : Set) (fit_sum : ℚ) (iter : Ptr) (next : List Ptr)
    (hl : set.list = iter :: next)
    (hp : (rand_uniform 0 fit_sum s.rng).1 ≤ (s.heap iter).fit) :
    ea_select_rw s set fit_sum
      = some (iter, { s with rng := (rand_uniform 0 fit_sum s.rng).2 }) := by
  unfold ea_select_rw
  simp only [hl]
  have hn : ¬ ((rand_uniform 0 fit_sum s.rng).1 > (s.heap iter).fit) := not_lt.mpr hp
  rw [ea_select_rw_loop.eq_def, if_neg hn]
  rfl

/-- The total fitness of a set whose fitnesses are all zero is zero. -/
theorem clset_total_fit_zero (heap : Heap) (set : Set)
    (hz : ∀ p, p ∈ set.list → (heap p).fit = 0) : clset_total_fit heap set = 0 := by
  unfold clset_total_fit
  apply List.sum_eq_zero
  intro x hx
  rw [List.mem_map] at hx
  obtain ⟨p, hp, rfl⟩ := hx
  exact hz p hp

/-- C31 fails as stated: in the set of the two classifiers of `zero_state`, both
of fitness `0`, the fitness sum is `0`, and for no generator whose draw is
admissible (`0 <= p <= fit_sum`) does `ea_select_rw` return the second
classifier. -/
theorem ea_select_rw_zero_never_second :
    clset_total_fit zero_state.heap ea_set = 0 ∧
    ¬ ∃ (rng : Rng) (t : State),
      (0 ≤ (rand_uniform 0 0 rng).1 ∧ (rand_uniform 0 0 rng).1 ≤ 0) ∧
      ea_select_rw { zero_state with rng := rng } ea_set 0 = some (1, t) := by
  refine ⟨clset_total_fit_zero _ _ (fun _ _ => rfl), ?_⟩
  rintro ⟨rng, t, ⟨-, hp⟩, h⟩
  rw [ea_select_rw_head { zero_state with rng := rng } ea_set 0 0 [1] rfl hp] at h
  simp at h

/-- C31, amended: for a non-empty set whose fitnesses are all zero the fitness
sum is zero, and for every admissible draw (`0 <= p <= fit_sum`)
`ea_select_rw` returns the first classifier of the list, with only the
generator advanced. -/
theorem ea_select_rw_zero_sum (s : State) (set : Set) (iter : Ptr) (next : List Ptr)
    (hl : set.list = iter :: next) (hz : ∀ p, p ∈ set.list → (s.heap p).fit = 0)
    (_hp0 : 0 ≤ (rand_uniform 0 (clset_total_fit s.heap set) s.rng).1)
    (hp1 : (rand_uniform 0 (clset_total_fit s.heap set) s.rng).1
      ≤ clset_total_fit s.heap set) :
    clset_total_fit s.heap set = 0 ∧
    ea_select_rw s set (clset_total_fit s.heap set)
      = some (iter, { s with rng := (rand_uniform 0 (clset_total_fit s.heap set) s.rng).2 }) := by
  have h0 := clset_total_fit_zero s.heap set hz
  refine ⟨h0, ea_select_rw_head s set _ iter next hl ?_⟩
  rw [hz iter (by rw [hl]; exact List.mem_cons_self _ _)]
  rw [h0] at hp1
  rw [h0]
  exact hp1

/-- The statement of `ea_select_rw_zero_sum` holds of the two classifiers of
`zero_state`: the first one is returned. -/
theorem ea_select_rw_zero_sum_witness :
    clset_total_fit zero_state.heap ea_set = 0 ∧
    ea_select_rw zero_state ea_set (clset_total_fit zero_state.heap ea_set)
      = some (0, { zero_state with
          rng := (rand_uniform 0 (clset_total_fit zero_state.heap ea_set) zero_state.rng).2 }) :=
  ea_select_rw_zero_sum zero_state ea_set 0 [1] rfl (fun _ _ => rfl)
    (le_of_eq rfl) (by
      rw [clset_total_fit_zero zero_state.heap ea_set (fun _ _ => rfl)]
      exact le_of_eq rfl)

/-! ## The configuration under mutation -/

/-- C32 fails as stated: with `NUM_SAM = 1`, `P_MUTATION = 1` and a condition
whose rate is `mu[0] = 0.25`, the `XCSF` structure has `P_MUTATION = 0.25`
after `cond_rect_mutate`. -/
theorem cond_rect_mutate_writes_p_mutation :
    sam_xcsf.NUM_SAM = 1 ∧ sam_xcsf.P_MUTATION = 1 ∧
    (cond_rect_mutate sam_keep sam_xcsf sam_cl half_rng).1.P_MUTATION = 1 / 4 := by
  refine ⟨rfl, rfl, ?_⟩
  simp [cond_rect_mutate, sam_xcsf, sam_cl, sam_keep]

/-- C32, amended: `cond_rect_mutate` leaves the whole `XCSF` structure as it is
when `NUM_SAM <= 0`; when `NUM_SAM > 0` it leaves every field other than
`P_MUTATION` as it is and sets `P_MUTATION` to the rate `mu[0]` that
`sam_adapt` has left in the condition. -/
theorem cond_rect_mutate_config (sam_adapt : XCSF → List ℚ → Rng → List ℚ × Rng)
    (xcsf : XCSF) (c : CL) (rng : Rng) :
    (xcsf.NUM_SAM ≤ 0 → (cond_rect_mutate sam_adapt xcsf c rng).1 = xcsf) ∧
    (xcsf.NUM_SAM > 0 →
      (cond_rect_mutate sam_adapt xcsf c rng).1
        = { xcsf with P_MUTATION := (sam_adapt xcsf c.cond.mu rng).1.getD 0 0 } ∧
      (cond_rect_mutate sam_adapt xcsf c rng).2.1.cond.mu
        = (sam_adapt xcsf c.cond.mu rng).1) := by
  constructor
  · intro h
    have hn : ¬ xcsf.NUM_SAM > 0 := not_lt.mpr h
    simp [cond_rect_mutate, hn]
  · intro h
    simp [cond_rect_mutate, h]

/-- The statement of `cond_rect_mutate_config` holds of `sam_xcsf`, where
`NUM_SAM = 1`, and of `mutate_xcsf`, where `NUM_SAM = 0`. -/
theorem cond_rect_mutate_config_witness :
    (cond_rect_mutate sam_keep mutate_xcsf sam_cl half_rng).1 = mutate_xcsf ∧
    (cond_rect_mutate sam_keep sam_xcsf sam_cl half_rng).1
      = { sam_xcsf with P_MUTATION := (sam_keep sam_xcsf sam_cl.cond.mu half_rng).1.getD 0 0 } :=
  ⟨(cond_rect_mutate_config sam_keep mutate_xcsf sam_cl half_rng).1 (by decide),
   ((cond_rect_mutate_config sam_keep sam_xcsf sam_cl half_rng).2 (by decide)).1⟩

/-! ## Generality on the plain summed widths -/

/-- The first loop of `cond_rect_general`: started at index `k`, it adds
`MAX_CON - MIN_CON + 1` once for every remaining input variable. -/
theorem cond_rect_general_max_spec (xcsf : XCSF) :
    ∀ n k (max : ℚ), xcsf.num_x_vars - k = n → k ≤ xcsf.num_x_vars →
      cond_rect_general_max xcsf max k
        = max + ((xcsf.num_x_vars - k : Nat) : ℚ) * (xcsf.MAX_CON - xcsf.MIN_CON + 1) := by
  intro n
  induction n with
  | zero =>
    intro k max hn hk
    have hk' : ¬ k < xcsf.num_x_vars := by omega
    rw [cond_rect_general_max, if_neg hk', hn]
    simp
  | succ n ih =>
    intro k max hn hk
    have hk' : k < xcsf.num_x_vars := by omega
    rw [cond_rect_general_max, if_pos hk', ih (k + 1) _ (by omega) (by omega)]
    have e : xcsf.num_x_vars - k = (xcsf.num_x_vars - (k + 1)) + 1 := by omega
    rw [e]
    push_cast
    ring

/-- The second loop of `cond_rect_general`: started at index `2 * k` on arrays
of `2 * d` entries, it adds to each sum the widths of the dimensions from `k`
on and `1` for each of them. -/
theorem cond_rect_general_loop_spec (c1 c2 : COND_RECT) (d : Nat) :
    ∀ n k (gen1 gen2 : ℚ), d - k = n → k ≤ d →
      cond_rect_general_loop c1.interval c2.interval (d * 2) gen1 gen2 (2 * k)
        = (gen1 + (summed_width c1 d - summed_width c1 k) + ((d - k : Nat) : ℚ),
           gen2 + (summed_width c2 d - summed_width c2 k) + ((d - k : Nat) : ℚ)) := by
  intro n
  induction n with
  | zero =>
    intro k gen1 gen2 hn hk
    have hk' : ¬ 2 * k < d * 2 := by omega
    have hkd : k = d := by omega
    rw [cond_rect_general_loop, if_neg hk', hkd]
    simp
  | succ n ih =>
    intro k gen1 gen2 hn hk
    have hk' : 2 * k < d * 2 := by omega
    have e2 : 2 * k + 2 = 2 * (k + 1) := by ring
    rw [cond_rect_general_loop, if_pos hk', e2, ih (k + 1) _ _ (by omega) (by omega)]
    have e : d - k = (d - (k + 1)) + 1 := by omega
    have s1 : summed_width c1 (k + 1) = summed_width c1 k + (c1.upper k - c1.lower k) := by
      unfold summed_width
      rw [Finset.sum_range_succ]
    have s2 : summed_width c2 (k + 1) = summed_width c2 k + (c2.upper k - c2.lower k) := by
      unfold summed_width
      rw [Finset.sum_range_succ]
    rw [e, s1, s2]
    unfold COND_RECT.upper COND_RECT.lower
    push_cast
    refine Prod.ext ?_ ?_ <;> simp only <;> ring

/-- In exact arithmetic, for `num_x_vars >= 1` and `MAX_CON - MIN_CON + 1 > 0`,
on a first condition of the shape given by `cond_rect_init`, the result of
`cond_rect_general` on `(c1, c2)` equals the result of the same comparison
made on the plain summed widths `sum_i (upper_i - lower_i)` of `c1` and `c2`:
without rounding, the offset `+ 1.0` per dimension and the division by `max`
do not affect it. -/
theorem cond_rect_general_eq_widths (xcsf : XCSF) (c1 c2 : CL)
    (hc : c1.cond.interval_length = xcsf.num_x_vars * 2) (hn : 1 ≤ xcsf.num_x_vars)
    (hm : 0 < xcsf.MAX_CON - xcsf.MIN_CON + 1) :
    cond_rect_general xcsf c1 c2 = cond_rect_general_widths xcsf.num_x_vars c1 c2 := by
  have hmax : cond_rect_general_max xcsf 0 0
      = (xcsf.num_x_vars : ℚ) * (xcsf.MAX_CON - xcsf.MIN_CON + 1) := by
    rw [cond_rect_general_max_spec xcsf _ 0 0 rfl (Nat.zero_le _)]
    simp
  have hpos : 0 < cond_rect_general_max xcsf 0 0 := by
    rw [hmax]
    have : (0 : ℚ) < (xcsf.num_x_vars : ℚ) := by exact_mod_cast hn
    positivity
  have hloop := cond_rect_general_loop_spec c1.cond c2.cond xcsf.num_x_vars _ 0 0 0 rfl
    (Nat.zero_le _)
  have hs0 : ∀ c : COND_RECT, summed_width c 0 = 0 := fun c => by simp [summed_width]
  unfold cond_rect_general cond_rect_general_widths
  simp only [hc]
  rw [show (0 : Nat) = 2 * 0 from rfl, hloop, hs0, hs0]
  simp only [div_lt_div_iff_of_pos_right hpos, gt_iff_lt]
  have key : (0 + (summed_width c2.cond xcsf.num_x_vars - 0) + ((xcsf.num_x_vars - 0 : Nat) : ℚ)
        < 0 + (summed_width c1.cond xcsf.num_x_vars - 0) + ((xcsf.num_x_vars - 0 : Nat) : ℚ))
      ↔ summed_width c2.cond xcsf.num_x_vars < summed_width c1.cond xcsf.num_x_vars := by
    constructor <;> intro h <;> linarith
  simp only [key]

/-- In exact arithmetic the two conditions of the generality test compare as
their plain summed widths do, in both orders. -/
theorem cond_rect_general_eq_widths_witness :
    cond_rect_general test_xcsf test_true test_small
      = cond_rect_general_widths test_xcsf.num_x_vars test_true test_small ∧
    cond_rect_general test_xcsf test_small test_true
      = cond_rect_general_widths test_xcsf.num_x_vars test_small test_true :=
  ⟨cond_rect_general_eq_widths test_xcsf test_true test_small rfl (by decide)
      (by norm_num [test_xcsf]),
    cond_rect_general_eq_widths test_xcsf test_small test_true rfl (by decide)
      (by norm_num [test_xcsf])⟩

/-! ## The shape relations under resizing -/

/-- C34 fails for `neural_layer_convolutional_resize`: the layer `conv_small`
satisfies the shape relations with `channels = 1` and `n_weights = 1`; resized
to the previous layer `conv_prev`, whose output has two channels, it has
`channels = 2` and still `n_weights = 1`, which is not
`channels * n_filters * size * size = 2`.  For every layer, `resize` returns
with `channels` taken from the previous layer and `n_weights`, `n_filters` and
`size` as they were. -/
theorem neural_layer_convolutional_resize_breaks_shape :
    conv_small.shape ∧
    (∃ r, neural_layer_convolutional_resize {} conv_small conv_prev = some r ∧
      r.channels = 2 ∧ r.n_filters = 1 ∧ r.size = 1 ∧ r.n_weights = 1 ∧ ¬ r.shape) ∧
    ∀ (raw : Raw) (l prev r : Layer), neural_layer_convolutional_resize raw l prev = some r →
      r.channels = prev.out_c ∧ r.n_weights = l.n_weights ∧ r.n_filters = l.n_filters ∧
        r.size = l.size := by
  have hgen : ∀ (raw : Raw) (l prev r : Layer),
      neural_layer_convolutional_resize raw l prev = some r →
      r.channels = prev.out_c ∧ r.n_weights = l.n_weights ∧ r.n_filters = l.n_filters ∧
        r.size = l.size := by
    intro raw l prev r h
    unfold neural_layer_convolutional_resize at h
    simp only at h
    split at h
    · simp at h
    · simp only [Option.some.injEq] at h
      subst h
      exact ⟨rfl, rfl, rfl, rfl⟩
  refine ⟨?_, ?_, hgen⟩
  · unfold Layer.shape
    decide
  · have hws : ∃ r, neural_layer_convolutional_resize {} conv_small conv_prev = some r := by
      unfold neural_layer_convolutional_resize
      simp only
      have w : convolutional_out_width { conv_small with
          width := conv_prev.out_w, height := conv_prev.out_h, channels := conv_prev.out_c }
          = 1 := by decide
      have hh : convolutional_out_height { conv_small with
          width := conv_prev.out_w, height := conv_prev.out_h, channels := conv_prev.out_c,
          out_w := 1 } = 1 := by decide
      simp only [w, hh]
      split
      · rename_i h
        exfalso
        unfold get_workspace_size at h
        simp only at h
        split_ifs at h with hc
        revert hc
        decide
      · exact ⟨_, rfl⟩
    obtain ⟨r, hr⟩ := hws
    obtain ⟨h1, h2, h3, h4⟩ := hgen _ _ _ _ hr
    have hc : r.channels = 2 := h1
    have hn : r.n_weights = 1 := h2
    have hf : r.n_filters = 1 := h3
    have hs : r.size = 1 := h4
    refine ⟨r, hr, hc, hf, hs, hn, ?_⟩
    unfold Layer.shape
    rw [hc, hn, hf, hs]
    intro h
    exact absurd h.2.2.2 (by decide)

/-! ## Termination of the mutation of the number of filters -/

/-- The loop of `neural_layer_convolutional_mutate_filter` when draw `k` is
the first normal draw that rounds to a non-zero number: with more than `k`
iterations allowed it ends with that number after `k + 1` draws. -/
theorem neural_layer_convolutional_mutate_filter_loop_first (l : Layer) :
    ∀ (k fuel : Nat) (rng : Rng),
      round (clamp (rng.real k) (-1) 1 * l.max_neuron_grow) ≠ 0 →
      (∀ j, j < k → round (clamp (rng.real j) (-1) 1 * l.max_neuron_grow) = 0) →
      k < fuel →
      neural_layer_convolutional_mutate_filter_loop l fuel rng
        = some (round (clamp (rng.real k) (-1) 1 * l.max_neuron_grow), rng.advance (k + 1)) := by
  intro k
  induction k with
  | zero =>
    intro fuel rng hk _ hfuel
    obtain ⟨f, rfl⟩ : ∃ f, fuel = f + 1 := ⟨fuel - 1, by omega⟩
    have hk' : ¬ round (clamp (rand_normal 0 0.5 rng).1 (-1) 1 * l.max_neuron_grow) = 0 := hk
    rw [neural_layer_convolutional_mutate_filter_loop, if_neg hk']
    rfl
  | succ k ih =>
    intro fuel rng hk hfirst hfuel
    obtain ⟨f, rfl⟩ : ∃ f, fuel = f + 1 := ⟨fuel - 1, by omega⟩
    have h0 : round (clamp (rand_normal 0 0.5 rng).1 (-1) 1 * l.max_neuron_grow) = 0 :=
      hfirst 0 (by omega)
    rw [neural_layer_convolutional_mutate_filter_loop, if_pos h0]
    have hadv : (rand_normal 0 0.5 rng).2 = rng.advance 1 := rfl
    rw [hadv, ih f (rng.advance 1) hk (fun j hj => hfirst (j + 1) (by omega)) (by omega)]
    rfl

/-- C35: when the normal draw number `k` of the stream (the draw after the
uniform draw and `k` earlier normal draws) is the first `m` with
`round(clamp(m, -1, 1) * max_neuron_grow) != 0`,
`neural_layer_convolutional_mutate_filter` returns as soon as the loop may run
more than `k` times, having consumed the uniform draw and the normal draws up
to that one and no more; and when the uniform draw is not below `mu` it
returns 0 after the uniform draw alone, whatever the number of iterations
allowed. -/
theorem neural_layer_convolutional_mutate_filter_terminates (l : Layer) (mu : ℚ) (rng : Rng)
    (k fuel : Nat) (_hg : 1 ≤ l.max_neuron_grow)
    (hk : round (clamp (rng.real (k + 1)) (-1) 1 * l.max_neuron_grow) ≠ 0)
    (hfirst : ∀ j, j < k →
      round (clamp (rng.real (j + 1)) (-1) 1 * l.max_neuron_grow) = 0)
    (hfuel : k < fuel) :
    (rng.real 0 < mu →
      ∃ n, neural_layer_convolutional_mutate_filter fuel l mu rng
        = some (n, rng.advance (k + 2))) ∧
    (¬ rng.real 0 < mu →
      ∀ f, neural_layer_convolutional_mutate_filter f l mu rng = some (0, rng.advance 1)) := by
  have hu1 : (rand_uniform 0 0.1 rng).1 = rng.real 0 := rfl
  have hu2 : (rand_uniform 0 0.1 rng).2 = rng.advance 1 := rfl
  constructor
  · intro hu
    have hloop := neural_layer_convolutional_mutate_filter_loop_first l k fuel (rng.advance 1)
      hk hfirst hfuel
    unfold neural_layer_convolutional_mutate_filter
    simp only [hu1, hu2, hu, if_true, hloop]
    have hadv : (rng.advance 1).advance (k + 1) = rng.advance (k + 2) := rfl
    rw [hadv]
    split_ifs
    · exact ⟨_, rfl⟩
    · exact ⟨_, rfl⟩
    · exact ⟨_, rfl⟩
  · intro hu f
    unfold neural_layer_convolutional_mutate_filter
    simp only [hu1, hu2, hu, if_false]

/-- The statement of `neural_layer_convolutional_mutate_filter_terminates`
holds of `conv_small` (`max_neuron_grow = 3`) with the generator `slow_rng`:
the normal draws `0.1` and `0.1` round to 0 and the third, `0.5`, rounds to 2,
so the call returns after four draws; with `mu = 0` it returns 0 after one. -/
theorem neural_layer_convolutional_mutate_filter_terminates_witness :
    (∃ n, neural_layer_convolutional_mutate_filter 3 conv_small 1 slow_rng
      = some (n, slow_rng.advance 4)) ∧
    ∀ f, neural_layer_convolutional_mutate_filter f conv_small 0 slow_rng
      = some (0, slow_rng.advance 1) := by
  have hg : (conv_small.max_neuron_grow : ℚ) = 3 := by simp [conv_small]
  have hsmall : round (clamp (1 / 10) (-1) 1 * (conv_small.max_neuron_grow : ℚ)) = 0 := by
    rw [hg]
    unfold clamp round
    norm_num
  have hbig : round (clamp (1 / 2) (-1) 1 * (conv_small.max_neuron_grow : ℚ)) ≠ 0 := by
    rw [hg]
    have e : round (clamp (1 / 2) (-1) 1 * 3) = 2 := by
      unfold clamp round
      norm_num
    rw [e]
    decide
  have hk : round (clamp (slow_rng.real (2 + 1)) (-1) 1 * conv_small.max_neuron_grow) ≠ 0 := by
    have e : slow_rng.real (2 + 1) = 1 / 2 := by simp [slow_rng]
    rw [e]
    exact hbig
  have hfirst : ∀ j, j < 2 →
      round (clamp (slow_rng.real (j + 1)) (-1) 1 * conv_small.max_neuron_grow) = 0 := by
    intro j hj
    have e : slow_rng.real (j + 1) = 1 / 10 := by
      interval_cases j <;> simp [slow_rng]
    rw [e]
    exact hsmall
  constructor
  · exact (neural_layer_convolutional_mutate_filter_terminates conv_small 1 slow_rng 2 3
      (by decide) hk hfirst (by decide)).1 (by simp [slow_rng])
  · exact (neural_layer_convolutional_mutate_filter_terminates conv_small 0 slow_rng 2 3
      (by decide) hk hfirst (by decide)).2 (by simp [slow_rng])

/-! ## The crossover points -/

/-- C37: when both calls of `irand(0, length)` in `cond_rect_crossover` return an
integer in `[0, length)`, the crossover points satisfy `0 <= p1 < p2 <= length`,
and every index `i` with `p1 <= i < p2`, the indices visited by the swap loop,
is an index of the interval arrays of both conditions. -/
theorem cond_rect_crossover_points_valid (xcsf : XCSF) (c1 c2 : CL) (rng : Rng)
    (hc1 : c1.cond.shaped xcsf) (hc2 : c2.cond.shaped xcsf)
    (h1 : 0 ≤ (irand 0 c1.cond.interval_length (drand rng).2).1 ∧
      (irand 0 c1.cond.interval_length (drand rng).2).1 < c1.cond.interval_length)
    (h2 : 0 ≤ (irand 0 c1.cond.interval_length
        (irand 0 c1.cond.interval_length (drand rng).2).2).1 ∧
      (irand 0 c1.cond.interval_length
        (irand 0 c1.cond.interval_length (drand rng).2).2).1 < c1.cond.interval_length) :
    0 ≤ (cond_rect_crossover_points (irand 0 c1.cond.interval_length (drand rng).2).1
        (irand 0 c1.cond.interval_length
          (irand 0 c1.cond.interval_length (drand rng).2).2).1).1 ∧
    (cond_rect_crossover_points (irand 0 c1.cond.interval_length (drand rng).2).1
        (irand 0 c1.cond.interval_length
          (irand 0 c1.cond.interval_length (drand rng).2).2).1).1
      < (cond_rect_crossover_points (irand 0 c1.cond.interval_length (drand rng).2).1
        (irand 0 c1.cond.interval_length
          (irand 0 c1.cond.interval_length (drand rng).2).2).1).2 ∧
    (cond_rect_crossover_points (irand 0 c1.cond.interval_length (drand rng).2).1
        (irand 0 c1.cond.interval_length
          (irand 0 c1.cond.interval_length (drand rng).2).2).1).2
      ≤ c1.cond.interval_length ∧
    ∀ i : Int,
      (cond_rect_crossover_points (irand 0 c1.cond.interval_length (drand rng).2).1
        (irand 0 c1.cond.interval_length
          (irand 0 c1.cond.interval_length (drand rng).2).2).1).1 ≤ i →
      i < (cond_rect_crossover_points (irand 0 c1.cond.interval_length (drand rng).2).1
        (irand 0 c1.cond.interval_length
          (irand 0 c1.cond.interval_length (drand rng).2).2).1).2 →
      0 ≤ i ∧ i.toNat < c1.cond.interval.length ∧ i.toNat < c2.cond.interval.length := by
  generalize (irand 0 c1.cond.interval_length (drand rng).2).1 = r1 at h1 ⊢
  generalize (irand 0 c1.cond.interval_length
    (irand 0 c1.cond.interval_length (drand rng).2).2).1 = r2 at h2 ⊢
  obtain ⟨hl1, hn1⟩ := hc1
  obtain ⟨hl2, hn2⟩ := hc2
  have hlen : c2.cond.interval_length = c1.cond.interval_length := by rw [hl1, hl2]
  unfold cond_rect_crossover_points
  simp only
  split_ifs with ha hb
  · refine ⟨by omega, by omega, by omega, ?_⟩
    intro i hi1 hi2
    simp only at hi1 hi2
    refine ⟨by omega, by omega, by omega⟩
  · refine ⟨by omega, by omega, by omega, ?_⟩
    intro i hi1 hi2
    simp only at hi1 hi2
    refine ⟨by omega, by omega, by omega⟩
  · refine ⟨by omega, by omega, by omega, ?_⟩
    intro i hi1 hi2
    simp only at hi1 hi2
    refine ⟨by omega, by omega, by omega⟩

/-- The statement of `cond_rect_crossover_points_valid` holds of the
conditions `[1, 5]` and `[2, 9]` when both integer draws are `0`: the points
are `p1 = 0` and `p2 = 1`. -/
theorem cond_rect_crossover_points_valid_witness :
    0 ≤ (cond_rect_crossover_points 0 0).1 ∧
    (cond_rect_crossover_points 0 0).1 < (cond_rect_crossover_points 0 0).2 ∧
    (cond_rect_crossover_points 0 0).2 ≤ cross_a.cond.interval_length ∧
    ∀ i : Int, (cond_rect_crossover_points 0 0).1 ≤ i → i < (cond_rect_crossover_points 0 0).2 →
      0 ≤ i ∧ i.toNat < cross_a.cond.interval.length ∧ i.toNat < cross_b.cond.interval.length :=
  cond_rect_crossover_points_valid cross_xcsf cross_a cross_b half_rng
    ⟨rfl, rfl⟩ ⟨rfl, rfl⟩ ⟨by decide, by decide⟩ ⟨by decide, by decide⟩

/-! ## The workspace size -/

/-- Reduction into the `int` range differs from the integer by a multiple of
`2 ^ 32`. -/
theorem to_int_eq (a : Int) : to_int a = a - 2 ^ 32 * ((a + 2 ^ 31) / 2 ^ 32) := by
  unfold to_int
  omega

/-- An integer in the `int` range is its own reduction. -/
theorem to_int_of_range (a : Int) (h1 : -2 ^ 31 ≤ a) (h2 : a ≤ 2 ^ 31 - 1) : to_int a = a := by
  unfold to_int
  omega

/-- A product in `int` arithmetic with a reduced factor is the reduction of
the exact product. -/
theorem to_int_mul (a b : Int) : to_int (to_int a * b) = to_int (a * b) := by
  rw [to_int_eq a]
  unfold to_int
  have e : (a - 2 ^ 32 * ((a + 2 ^ 31) / 2 ^ 32)) * b + 2 ^ 31
      = (a * b + 2 ^ 31) + 2 ^ 32 * (-((a + 2 ^ 31) / 2 ^ 32) * b) := by ring
  rw [e, Int.add_mul_emod_self_left]

/-- The product that `get_workspace_size` computes in `int` arithmetic is the
reduction of the exact product. -/
theorem get_workspace_size_product (l : Layer) :
    int_mul (int_mul (int_mul (int_mul l.out_h l.out_w) l.size) l.size) l.channels
      = to_int (l.out_h * l.out_w * l.size * l.size * l.channels) := by
  unfold int_mul
  rw [to_int_mul (l.out_h * l.out_w) l.size, to_int_mul (l.out_h * l.out_w * l.size) l.size,
    to_int_mul (l.out_h * l.out_w * l.size * l.size) l.channels]

/-- C38 on the code: for the layer `conv_wrap` the exact product
`out_h * out_w * size * size * channels` is `2 ^ 32 + 65536`, above the range
of a 32-bit `int`; with `int` arithmetic modulo `2 ^ 32` the guard `size < 1`
of `get_workspace_size` does not see the overflow, and the function returns
`8 * 65536` instead of terminating with failure. -/
theorem get_workspace_size_misses_overflow :
    conv_wrap.out_h * conv_wrap.out_w * conv_wrap.size * conv_wrap.size * conv_wrap.channels
      = 2 ^ 32 + 65536 ∧
    get_workspace_size conv_wrap = some (8 * 65536) := by
  constructor
  · decide
  · unfold get_workspace_size
    simp only [get_workspace_size_product]
    have e : to_int (conv_wrap.out_h * conv_wrap.out_w * conv_wrap.size * conv_wrap.size
        * conv_wrap.channels) = 65536 := by decide
    rw [e]
    decide

/-- What the guard of `get_workspace_size` tests: with `int` arithmetic modulo
`2 ^ 32` the function terminates with failure exactly when the exact product
`out_h * out_w * size * size * channels`, reduced into the `int` range, is
below 1, and otherwise returns 8 times the reduced product; so it terminates
with failure whenever the exact product lies in `[-2 ^ 31, 0]` and returns 8
times the exact product whenever that lies in `[1, 2 ^ 31 - 1]`. -/
theorem get_workspace_size_spec (l : Layer) :
    (get_workspace_size l = none ↔
      to_int (l.out_h * l.out_w * l.size * l.size * l.channels) < 1) ∧
    (1 ≤ to_int (l.out_h * l.out_w * l.size * l.size * l.channels) →
      get_workspace_size l
        = some (8 * (to_int (l.out_h * l.out_w * l.size * l.size * l.channels)).toNat)) ∧
    (-2 ^ 31 ≤ l.out_h * l.out_w * l.size * l.size * l.channels →
      l.out_h * l.out_w * l.size * l.size * l.channels < 1 →
      get_workspace_size l = none) ∧
    (1 ≤ l.out_h * l.out_w * l.size * l.size * l.channels →
      l.out_h * l.out_w * l.size * l.size * l.channels ≤ 2 ^ 31 - 1 →
      get_workspace_size l
        = some (8 * (l.out_h * l.out_w * l.size * l.size * l.channels).toNat)) := by
  have hdef : get_workspace_size l
      = if to_int (l.out_h * l.out_w * l.size * l.size * l.channels) < 1 then none
        else some (8 * (to_int (l.out_h * l.out_w * l.size * l.size * l.channels)).toNat) := by
    unfold get_workspace_size
    simp only [get_workspace_size_product]
  refine ⟨?_, ?_, ?_, ?_⟩
  · rw [hdef]
    split_ifs with h
    · simp [h]
    · simp [h]
  · intro h
    rw [hdef, if_neg (not_lt.mpr h)]
  · intro h1 h2
    rw [hdef, to_int_of_range _ h1 (by omega), if_pos h2]
  · intro h1 h2
    rw [hdef, to_int_of_range _ (by omega) h2, if_neg (not_lt.mpr h1)]

/-- The workspace sizes of `conv_small`, where the product is 1 and the size is
8, and of `conv_big`, where the product is `2 ^ 29` and the size is `2 ^ 32`. -/
theorem get_workspace_size_spec_witness :
    get_workspace_size conv_small = some 8 ∧ get_workspace_size conv_big = some 4294967296 :=
  ⟨(get_workspace_size_spec conv_small).2.2.2 (by decide) (by decide),
   (get_workspace_size_spec conv_big).2.2.2 (by decide) (by decide)⟩

/-! ## Rounding to double precision -/

/-- An integer is its own rounding. -/
theorem round_even_intCast (n : Int) : round_even (n : ℚ) = n := by
  unfold round_even
  simp

/-- A value less than half above an integer rounds to that integer. -/
theorem round_even_of_lt_half (x : ℚ) (m : Int) (h1 : (m : ℚ) ≤ x) (h2 : x < m + 1 / 2) :
    round_even x = m := by
  have hf : Int.floor x = m := by
    rw [Int.floor_eq_iff]
    constructor
    · exact h1
    · linarith
  unfold round_even
  rw [hf, if_pos (by linarith)]

/-- Rounding does not go below an integer that the value is not below. -/
theorem le_round_even (x : ℚ) (m : Int) (h : (m : ℚ) ≤ x) : m ≤ round_even x := by
  have hf : m ≤ Int.floor x := Int.le_floor.mpr h
  unfold round_even
  split_ifs <;> omega

/-- Rounding does not go above an integer that the value is not above. -/
theorem round_even_le (x : ℚ) (m : Int) (h : x ≤ (m : ℚ)) : round_even x ≤ m := by
  have hfl : (Int.floor x : ℚ) ≤ x := Int.floor_le x
  by_cases hx : x = m
  · rw [hx, round_even_intCast]
  · have hlt : x < m := lt_of_le_of_ne h hx
    have hf : Int.floor x < m := Int.floor_lt.mpr hlt
    unfold round_even
    split_ifs <;> omega

/-- The exponent of a value between two consecutive powers of two. -/
theorem log_of_bounds (q : ℚ) (e : Int) (h1 : (2 : ℚ) ^ e ≤ |q|) (h2 : |q| < (2 : ℚ) ^ (e + 1)) :
    Int.log 2 |q| = e := by
  have hpos : 0 < |q| := lt_of_lt_of_le (zpow_pos (by norm_num) e) h1
  have hb : 1 < 2 := by norm_num
  apply le_antisymm
  · have := (Int.lt_zpow_iff_log_lt hb hpos).mp (by simpa using h2)
    omega
  · exact (Int.zpow_le_iff_le_log hb hpos).mp (by simpa using h1)

/-- The rounding of a value in a normal binade, with the exponent `e`. -/
theorem double_round_normal (q : ℚ) (e : Int) (he : -1022 ≤ e) (h1 : (2 : ℚ) ^ e ≤ |q|)
    (h2 : |q| < (2 : ℚ) ^ (e + 1)) :
    double_round q = round_even (q / 2 ^ (e - 52)) * 2 ^ (e - 52) := by
  have hexp : double_exponent q = e := by
    unfold double_exponent
    rw [log_of_bounds q e h1 h2]
    exact max_eq_left he
  unfold double_round
  rw [hexp]

/-- The rounding of a value in the subnormal range. -/
theorem double_round_subnormal (q : ℚ) (h : |q| < (2 : ℚ) ^ (-1022 : Int)) :
    double_round q = round_even (q / 2 ^ (-1074 : Int)) * 2 ^ (-1074 : Int) := by
  by_cases hq : q = 0
  · subst hq
    unfold double_round
    simp [round_even]
  · have hpos : 0 < |q| := abs_pos.mpr hq
    have hlog : Int.log 2 |q| < -1022 :=
      (Int.lt_zpow_iff_log_lt (by norm_num) hpos).mp (by simpa using h)
    have hexp : double_exponent q = -1022 := by
      unfold double_exponent
      exact max_eq_right (le_of_lt hlog)
    unfold double_round
    rw [hexp]
    norm_num

/-- The exponent found for a non-zero value encloses it. -/
theorem log_bounds (q : ℚ) (hq : q ≠ 0) :
    (2 : ℚ) ^ (Int.log 2 |q|) ≤ |q| ∧ |q| < (2 : ℚ) ^ (Int.log 2 |q| + 1) := by
  have hpos : 0 < |q| := abs_pos.mpr hq
  constructor
  · simpa using Int.zpow_log_le_self (b := 2) (by norm_num) hpos
  · simpa using Int.lt_zpow_succ_log_self (b := 2) (by norm_num) |q|

/-- Zero rounds to itself. -/
theorem double_round_zero : double_round 0 = 0 := by
  unfold double_round
  simp [round_even]

/-- Rounding keeps a value that is not negative from becoming negative. -/
theorem double_round_nonneg (q : ℚ) (h : 0 ≤ q) : 0 ≤ double_round q := by
  unfold double_round
  apply mul_nonneg
  · have hx : (0 : ℚ) ≤ q / 2 ^ (double_exponent q - 52) :=
      div_nonneg h (le_of_lt (zpow_pos (by norm_num) _))
    have := le_round_even _ 0 (by simpa using hx)
    exact_mod_cast this
  · exact le_of_lt (zpow_pos (by norm_num) _)

/-- A power of two split at the exponent `a`. -/
theorem zpow_split (a e : Int) : (2 : ℚ) ^ e = 2 ^ a * 2 ^ (e - a) := by
  rw [← zpow_add₀ (by norm_num)]
  congr 1
  ring

/-- A natural power of two as a rational number. -/
theorem cast_two_pow (j : Nat) : ((2 ^ j : Int) : ℚ) = (2 : ℚ) ^ (j : Int) := by
  push_cast
  rw [zpow_natCast]

/-- A power of two split at the exponent 52. -/
theorem zpow_split_52 (e : Int) : (2 : ℚ) ^ e = ((2 ^ 52 : Int) : ℚ) * 2 ^ (e - 52) := by
  rw [cast_two_pow, ← zpow_add₀ (by norm_num)]
  congr 1
  push_cast
  ring

/-- A value with a 53-bit significand `n` in a normal binade rounds to itself. -/
theorem double_round_of_significand (q : ℚ) (n e : Int) (he : -1022 ≤ e) (hn1 : 2 ^ 52 ≤ |n|)
    (hn2 : |n| < 2 ^ 53) (hq : q = n * 2 ^ (e - 52)) : double_round q = q := by
  have hu : (0 : ℚ) < 2 ^ (e - 52) := zpow_pos (by norm_num) _
  have habs : |q| = (|n| : ℚ) * 2 ^ (e - 52) := by
    rw [hq, abs_mul, abs_of_pos hu]
  have hn1q : (2 : ℚ) ^ ((52 : Nat) : Int) ≤ (|n| : ℚ) := by
    rw [← cast_two_pow]
    exact_mod_cast hn1
  have hn2q : (|n| : ℚ) < (2 : ℚ) ^ ((53 : Nat) : Int) := by
    rw [← cast_two_pow]
    exact_mod_cast hn2
  have h1 : (2 : ℚ) ^ e ≤ |q| := by
    rw [habs, zpow_split ((52 : Nat) : Int) e]
    exact mul_le_mul_of_nonneg_right hn1q (le_of_lt hu)
  have h2 : |q| < (2 : ℚ) ^ (e + 1) := by
    have hs : (2 : ℚ) ^ (e + 1) = 2 ^ ((53 : Nat) : Int) * 2 ^ (e - 52) := by
      rw [← zpow_add₀ (by norm_num)]
      congr 1
      push_cast
      ring
    rw [habs, hs]
    exact mul_lt_mul_of_pos_right hn2q hu
  rw [double_round_normal q e he h1 h2]
  have hdiv : q / 2 ^ (e - 52) = (n : ℚ) := by
    rw [hq]
    field_simp
  rw [hdiv, round_even_intCast, hq]

/-- Rounding does not go below a power of two, down to the smallest subnormal
number, that the value is not below. -/
theorem zpow_le_double_round (k : Int) (hk : -1074 ≤ k) (q : ℚ) (h : (2 : ℚ) ^ k ≤ q) :
    (2 : ℚ) ^ k ≤ double_round q := by
  have hkpos : (0 : ℚ) < 2 ^ k := zpow_pos (by norm_num) k
  have hqpos : 0 < q := lt_of_lt_of_le hkpos h
  have hq0 : q ≠ 0 := ne_of_gt hqpos
  have habs : |q| = q := abs_of_pos hqpos
  obtain ⟨b1, b2⟩ := log_bounds q hq0
  generalize Int.log 2 |q| = e at b1 b2
  have c1 : (2 : ℚ) ^ e ≤ q := by
    rw [← habs]
    exact b1
  have c2 : q < (2 : ℚ) ^ (e + 1) := by
    rw [← habs]
    exact b2
  by_cases he : -1022 ≤ e
  · have hke : k ≤ e := by
      have hlt : (2 : ℚ) ^ k < 2 ^ (e + 1) := lt_of_le_of_lt h c2
      have := (zpow_lt_zpow_iff_right₀ (by norm_num : (1 : ℚ) < 2)).mp hlt
      omega
    rw [double_round_normal q e he b1 b2]
    have hu : (0 : ℚ) < 2 ^ (e - 52) := zpow_pos (by norm_num) _
    have hx : ((2 ^ 52 : Int) : ℚ) ≤ q / 2 ^ (e - 52) := by
      rw [le_div_iff₀ hu, ← zpow_split_52]
      exact c1
    have hr := le_round_even _ _ hx
    have hrq : ((2 ^ 52 : Int) : ℚ) ≤ (round_even (q / 2 ^ (e - 52)) : ℚ) := by
      exact_mod_cast hr
    calc (2 : ℚ) ^ k ≤ 2 ^ e :=
          (zpow_le_zpow_iff_right₀ (by norm_num : (1 : ℚ) < 2)).mpr hke
      _ = ((2 ^ 52 : Int) : ℚ) * 2 ^ (e - 52) := zpow_split_52 e
      _ ≤ round_even (q / 2 ^ (e - 52)) * 2 ^ (e - 52) :=
          mul_le_mul_of_nonneg_right hrq (le_of_lt hu)
  · have hsub : |q| < (2 : ℚ) ^ (-1022 : Int) := by
      refine lt_of_lt_of_le b2 ?_
      exact (zpow_le_zpow_iff_right₀ (by norm_num : (1 : ℚ) < 2)).mpr (by omega)
    rw [double_round_subnormal q hsub]
    have hu : (0 : ℚ) < 2 ^ (-1074 : Int) := zpow_pos (by norm_num) _
    obtain ⟨j, hj⟩ : ∃ j : Nat, k + 1074 = j := ⟨(k + 1074).toNat, by omega⟩
    have ek : (2 : ℚ) ^ k = ((2 ^ j : Int) : ℚ) * 2 ^ (-1074 : Int) := by
      rw [cast_two_pow, ← hj, ← zpow_add₀ (by norm_num)]
      congr 1
      ring
    have hx : ((2 ^ j : Int) : ℚ) ≤ q / 2 ^ (-1074 : Int) := by
      rw [le_div_iff₀ hu, ← ek]
      exact h
    have hr := le_round_even _ _ hx
    have hrq : ((2 ^ j : Int) : ℚ) ≤ (round_even (q / 2 ^ (-1074 : Int)) : ℚ) := by
      exact_mod_cast hr
    rw [ek]
    exact mul_le_mul_of_nonneg_right hrq (le_of_lt hu)

/-- Rounding does not go above a power of two in the normal range that the
value is not above. -/
theorem double_round_le_zpow (k : Int) (hk : -1022 ≤ k) (q : ℚ) (h0 : 0 < q) (h : q ≤ (2 : ℚ) ^ k) :
    double_round q ≤ (2 : ℚ) ^ k := by
  have hq0 : q ≠ 0 := ne_of_gt h0
  have habs : |q| = q := abs_of_pos h0
  obtain ⟨b1, b2⟩ := log_bounds q hq0
  generalize Int.log 2 |q| = e at b1 b2
  have c1 : (2 : ℚ) ^ e ≤ q := by
    rw [← habs]
    exact b1
  have hek : e ≤ k :=
    (zpow_le_zpow_iff_right₀ (by norm_num : (1 : ℚ) < 2)).mp (le_trans c1 h)
  by_cases he : -1022 ≤ e
  · rw [double_round_normal q e he b1 b2]
    have hu : (0 : ℚ) < 2 ^ (e - 52) := zpow_pos (by norm_num) _
    obtain ⟨j, hj⟩ : ∃ j : Nat, k - (e - 52) = j := ⟨(k - (e - 52)).toNat, by omega⟩
    have ek : (2 : ℚ) ^ k = ((2 ^ j : Int) : ℚ) * 2 ^ (e - 52) := by
      rw [cast_two_pow, ← hj, ← zpow_add₀ (by norm_num)]
      congr 1
      ring
    have hx : q / 2 ^ (e - 52) ≤ ((2 ^ j : Int) : ℚ) := by
      rw [div_le_iff₀ hu, ← ek]
      exact h
    have hr := round_even_le _ _ hx
    have hrq : (round_even (q / 2 ^ (e - 52)) : ℚ) ≤ ((2 ^ j : Int) : ℚ) := by
      exact_mod_cast hr
    rw [ek]
    exact mul_le_mul_of_nonneg_right hrq (le_of_lt hu)
  · have hsub : |q| < (2 : ℚ) ^ (-1022 : Int) := by
      refine lt_of_lt_of_le b2 ?_
      exact (zpow_le_zpow_iff_right₀ (by norm_num : (1 : ℚ) < 2)).mpr (by omega)
    rw [double_round_subnormal q hsub]
    have hu : (0 : ℚ) < 2 ^ (-1074 : Int) := zpow_pos (by norm_num) _
    obtain ⟨j, hj⟩ : ∃ j : Nat, k + 1074 = j := ⟨(k + 1074).toNat, by omega⟩
    have ek : (2 : ℚ) ^ k = ((2 ^ j : Int) : ℚ) * 2 ^ (-1074 : Int) := by
      rw [cast_two_pow, ← hj, ← zpow_add₀ (by norm_num)]
      congr 1
      ring
    have hx : q / 2 ^ (-1074 : Int) ≤ ((2 ^ j : Int) : ℚ) := by
      rw [div_le_iff₀ hu, ← ek]
      exact h
    have hr := round_even_le _ _ hx
    have hrq : (round_even (q / 2 ^ (-1074 : Int)) : ℚ) ≤ ((2 ^ j : Int) : ℚ) := by
      exact_mod_cast hr
    rw [ek]
    exact mul_le_mul_of_nonneg_right hrq (le_of_lt hu)

/-- A value that is not negative and below half the smallest subnormal number
underflows to zero. -/
theorem double_round_underflow (q : ℚ) (h0 : 0 ≤ q) (h : q < (2 : ℚ) ^ (-1075 : Int)) : double_round q = 0 := by
  have hu : (0 : ℚ) < 2 ^ (-1074 : Int) := zpow_pos (by norm_num) _
  have hsub : |q| < (2 : ℚ) ^ (-1022 : Int) := by
    rw [abs_of_nonneg h0]
    refine lt_of_lt_of_le h ?_
    exact (zpow_le_zpow_iff_right₀ (by norm_num : (1 : ℚ) < 2)).mpr (by norm_num)
  have hx : q / 2 ^ (-1074 : Int) < 1 / 2 := by
    rw [div_lt_iff₀ hu]
    have e : (1 : ℚ) / 2 * 2 ^ (-1074 : Int) = 2 ^ (-1075 : Int) := by
      rw [show (-1074 : Int) = -1075 + 1 from rfl, zpow_add₀ (by norm_num)]
      norm_num
    rw [e]
    exact h
  rw [double_round_subnormal q hsub, round_even_of_lt_half _ 0 (by
    simpa using div_nonneg h0 (le_of_lt hu)) (by simpa using hx)]
  simp

/-- A power of two in the normal range rounds to itself. -/
theorem double_round_zpow (e : Int) (he : -1022 ≤ e) : double_round ((2 : ℚ) ^ e) = 2 ^ e :=
  double_round_of_significand _ (2 ^ 52) e he (by norm_num) (by norm_num) (zpow_split_52 e)


/-- A finite rounding is the result of the operation. -/
theorem double_of_lt (q : ℚ) (h : |double_round q| < 2 ^ (1024 : Int)) :
    double q = some (double_round q) := if_pos h

/-- The result of an operation, if finite, is the rounding of the exact result. -/
theorem double_eq_some (q r : ℚ) (h : double q = some r) : r = double_round q := by
  unfold double at h
  split_ifs at h
  exact (Option.some.inj h).symm

/-- An operation with the exact result zero delivers zero. -/
theorem double_zero : double 0 = some 0 := by
  rw [double_of_lt 0 (by rw [double_round_zero]; norm_num), double_round_zero]

/-- A positive exact result up to `2 ^ 1023` does not overflow. -/
theorem double_of_pos (q : ℚ) (h0 : 0 < q) (h : q ≤ (2 : ℚ) ^ (1023 : Int)) :
    double q = some (double_round q) := by
  apply double_of_lt
  rw [abs_of_nonneg (double_round_nonneg q (le_of_lt h0))]
  refine lt_of_le_of_lt (double_round_le_zpow 1023 (by norm_num) q h0 h) ?_
  exact (zpow_lt_zpow_iff_right₀ (by norm_num : (1 : ℚ) < 2)).mpr (by norm_num)

/-- A value with a 53-bit significand `n` in a normal binade is a double. -/
theorem is_double_of_significand (q : ℚ) (n e : Int) (he : -1022 ≤ e) (he2 : e ≤ 1023)
    (hn1 : 2 ^ 52 ≤ |n|) (hn2 : |n| < 2 ^ 53) (hq : q = n * 2 ^ (e - 52)) : is_double q := by
  have hr := double_round_of_significand q n e he hn1 hn2 hq
  unfold is_double
  rw [double_of_lt q ?_, hr]
  rw [hr]
  have hu : (0 : ℚ) < 2 ^ (e - 52) := zpow_pos (by norm_num) _
  have hn2q : (|n| : ℚ) < (2 : ℚ) ^ ((53 : Nat) : Int) := by
    rw [← cast_two_pow]
    exact_mod_cast hn2
  have hs : (2 : ℚ) ^ (e + 1) = 2 ^ ((53 : Nat) : Int) * 2 ^ (e - 52) := by
    rw [← zpow_add₀ (by norm_num)]
    congr 1
    push_cast
    ring
  have habs : |q| = (|n| : ℚ) * 2 ^ (e - 52) := by
    rw [hq, abs_mul, abs_of_pos hu]
  calc |q| = (|n| : ℚ) * 2 ^ (e - 52) := habs
    _ < 2 ^ ((53 : Nat) : Int) * 2 ^ (e - 52) := mul_lt_mul_of_pos_right hn2q hu
    _ = (2 : ℚ) ^ (e + 1) := hs.symm
    _ ≤ 2 ^ (1024 : Int) := (zpow_le_zpow_iff_right₀ (by norm_num : (1 : ℚ) < 2)).mpr (by omega)

/-- A power of two in the normal range is a double. -/
theorem is_double_zpow (e : Int) (he : -1022 ≤ e) (he2 : e ≤ 1023) : is_double ((2 : ℚ) ^ e) :=
  is_double_of_significand _ (2 ^ 52) e he he2 (by norm_num) (by norm_num) (zpow_split_52 e)

/-- Zero is a double. -/
theorem is_double_zero : is_double 0 := double_zero

/-- A natural number below `2 ^ 31` is a double. -/
theorem is_double_natCast (n : Nat) (h : n < 2 ^ 31) : is_double (n : ℚ) := by
  by_cases h0 : n = 0
  · subst h0
    exact_mod_cast is_double_zero
  · have hpos : 0 < n := Nat.pos_of_ne_zero h0
    have hl := Nat.pow_log_le_self 2 h0
    have hu := Nat.lt_pow_succ_log_self (by norm_num : 1 < 2) n
    have hlog : Nat.log 2 n < 31 := by
      by_contra hc
      have : 2 ^ 31 ≤ 2 ^ Nat.log 2 n := Nat.pow_le_pow_right (by norm_num) (by omega)
      omega
    generalize Nat.log 2 n = e at hl hu hlog
    have hsplit : (2 : Nat) ^ 52 = 2 ^ e * 2 ^ (52 - e) := by
      rw [← pow_add]
      congr 1
      omega
    have hp : 0 < 2 ^ (52 - e) := Nat.pow_pos (by norm_num)
    refine is_double_of_significand _ ((n * 2 ^ (52 - e) : Nat) : Int) (e : Int) (by omega)
      (by omega) ?_ ?_ ?_
    · rw [abs_of_nonneg (by positivity)]
      have : 2 ^ 52 ≤ n * 2 ^ (52 - e) := by
        rw [hsplit]
        exact Nat.mul_le_mul_right _ hl
      exact_mod_cast this
    · rw [abs_of_nonneg (by positivity)]
      have : n * 2 ^ (52 - e) < 2 ^ 53 := by
        have e53 : (2 : Nat) ^ 53 = 2 ^ (e + 1) * 2 ^ (52 - e) := by
          rw [← pow_add]
          congr 1
          omega
        rw [e53]
        exact Nat.mul_lt_mul_of_pos_right hu hp
      exact_mod_cast this
    · push_cast
      rw [mul_assoc]
      have : ((2 : ℚ) ^ (52 - e)) * 2 ^ ((e : Int) - 52) = 1 := by
        rw [← zpow_natCast, ← zpow_add₀ (by norm_num)]
        have : ((52 - e : Nat) : Int) + ((e : Int) - 52) = 0 := by omega
        rw [this, zpow_zero]
      rw [this, mul_one]

/-- Rounding to the nearest integer commutes with negation. -/
theorem round_even_neg (x : ℚ) : round_even (-x) = -round_even x := by
  have h1 : (Int.floor x : ℚ) ≤ x := Int.floor_le x
  have h2 : x < Int.floor x + 1 := Int.lt_floor_add_one x
  by_cases hx : x = Int.floor x
  · rw [hx, ← Int.cast_neg, round_even_intCast, round_even_intCast]
  · have hlt : (Int.floor x : ℚ) < x := lt_of_le_of_ne h1 (fun h => hx h.symm)
    have hf : Int.floor (-x) = -Int.floor x - 1 := by
      rw [Int.floor_eq_iff]
      push_cast
      constructor <;> linarith
    unfold round_even
    rw [hf]
    push_cast
    generalize Int.floor x = f at *
    split_ifs <;> first | omega | (exfalso; linarith)

/-- Rounding to 53 significant bits commutes with negation. -/
theorem double_round_neg (q : ℚ) : double_round (-q) = -double_round q := by
  unfold double_round double_exponent
  rw [abs_neg, neg_div, round_even_neg]
  push_cast
  ring

/-- Rounding does not bring the magnitude below a power of two that it is not
below. -/
theorem zpow_le_abs_double_round (k : Int) (hk : -1074 ≤ k) (q : ℚ) (h : (2 : ℚ) ^ k ≤ |q|) :
    (2 : ℚ) ^ k ≤ |double_round q| := by
  by_cases hq : 0 ≤ q
  · rw [abs_of_nonneg hq] at h
    rw [abs_of_nonneg (double_round_nonneg q hq)]
    exact zpow_le_double_round k hk q h
  · have hq' : q < 0 := not_le.mp hq
    rw [abs_of_neg hq'] at h
    have h1 := zpow_le_double_round k hk (-q) h
    rw [double_round_neg] at h1
    exact le_trans h1 (neg_le_abs _)

/-! ## The mean squared error -/

/-- The loop of `loss_mse`: entered at index `k` with the sum of the squared
differences below `k`, it ends with the sum of all of them. -/
theorem loss_mse_loop_spec (n : Nat) (pred y : List ℚ) :
    ∀ m k, n - k = m → k ≤ n →
      (sum_squared_differences pred y k).bind (fun e => loss_mse_loop n pred y e k)
        = sum_squared_differences pred y n := by
  intro m
  induction m with
  | zero =>
    intro k hm hk
    have hk' : ¬ k < n := by omega
    have hkn : k = n := by omega
    have hstep : (fun e => loss_mse_loop n pred y e k) = some := by
      funext e
      rw [loss_mse_loop, if_neg hk']
    rw [hstep, Option.bind_some, hkn]
  | succ m ih =>
    intro k hm hk
    have hk' : k < n := by omega
    have hstep : (fun e => loss_mse_loop n pred y e k) = fun e =>
        (double (y.getD k 0 - pred.getD k 0)).bind fun d =>
        (double (d * d)).bind fun s =>
        (double (e + s)).bind fun e1 =>
        loss_mse_loop n pred y e1 (k + 1) := by
      funext e
      rw [loss_mse_loop, if_pos hk']
    rw [hstep, ← ih (k + 1) (by omega) (by omega)]
    simp only [sum_squared_differences, squared_difference, Option.bind_assoc]

/-- The function `loss_mse` is the mean of the squared differences. -/
theorem loss_mse_eq_mean (xcsf : XCSF) (pred y : List ℚ) :
    loss_mse xcsf pred y = mean_squared_difference xcsf.num_y_vars pred y := by
  unfold loss_mse mean_squared_difference
  have h := loss_mse_loop_spec xcsf.num_y_vars pred y _ 0 rfl (Nat.zero_le _)
  rw [show sum_squared_differences pred y 0 = some 0 from rfl, Option.some_bind] at h
  rw [h]

/-- A squared difference is not negative. -/
theorem squared_difference_nonneg (pred y : List ℚ) (i : Nat) (s : ℚ)
    (h : squared_difference pred y i = some s) : 0 ≤ s := by
  unfold squared_difference at h
  obtain ⟨d, -, hs⟩ := Option.bind_eq_some.mp h
  rw [double_eq_some _ _ hs]
  exact double_round_nonneg _ (mul_self_nonneg d)

/-- The sum of the squared differences is not negative. -/
theorem sum_squared_differences_nonneg (pred y : List ℚ) :
    ∀ n S, sum_squared_differences pred y n = some S → 0 ≤ S := by
  intro n
  induction n with
  | zero =>
    intro S h
    rw [← Option.some.inj h]
  | succ n ih =>
    intro S h
    rw [sum_squared_differences] at h
    obtain ⟨s, hs, h⟩ := Option.bind_eq_some.mp h
    obtain ⟨d, hd, h⟩ := Option.bind_eq_some.mp h
    rw [double_eq_some _ _ h]
    exact double_round_nonneg _ (add_nonneg (ih s hs) (squared_difference_nonneg pred y n d hd))

/-- The sum of the squared differences of equal entries is zero. -/
theorem sum_squared_differences_zero (pred y : List ℚ) :
    ∀ n, (∀ i, i < n → pred.getD i 0 = y.getD i 0) →
      sum_squared_differences pred y n = some 0 := by
  intro n
  induction n with
  | zero =>
    intro _
    rfl
  | succ n ih =>
    intro h
    have hs : squared_difference pred y n = some 0 := by
      unfold squared_difference
      rw [h n (Nat.lt_succ_self n), sub_self, double_zero, Option.some_bind, mul_zero,
        double_zero]
    rw [sum_squared_differences, ih (fun i hi => h i (Nat.lt_succ_of_lt hi)), Option.some_bind,
      hs, Option.some_bind, add_zero, double_zero]

/-- The squared difference of two entries at least `2 ^ -511` apart is at least
the smallest normal number. -/
theorem squared_difference_normal (pred y : List ℚ) (i : Nat) (s : ℚ)
    (hfar : (2 : ℚ) ^ (-511 : Int) ≤ |y.getD i 0 - pred.getD i 0|)
    (h : squared_difference pred y i = some s) : (2 : ℚ) ^ (-1022 : Int) ≤ s := by
  unfold squared_difference at h
  obtain ⟨d, hd, hs⟩ := Option.bind_eq_some.mp h
  have hdabs : (2 : ℚ) ^ (-511 : Int) ≤ |d| := by
    rw [double_eq_some _ _ hd]
    exact zpow_le_abs_double_round _ (by norm_num) _ hfar
  rw [double_eq_some _ _ hs]
  apply zpow_le_double_round _ (by norm_num)
  have hp : (0 : ℚ) ≤ 2 ^ (-511 : Int) := le_of_lt (zpow_pos (by norm_num) _)
  have e : (2 : ℚ) ^ (-1022 : Int) = 2 ^ (-511 : Int) * 2 ^ (-511 : Int) := by
    rw [← zpow_add₀ (by norm_num)]
    norm_num
  rw [e, ← abs_mul_abs_self d]
  exact mul_le_mul hdabs hdabs hp (abs_nonneg d)

/-- The sum of the squared differences is at least the smallest normal number
as soon as two entries are at least `2 ^ -511` apart. -/
theorem sum_squared_differences_normal (pred y : List ℚ) :
    ∀ n S, sum_squared_differences pred y n = some S →
      (∃ i, i < n ∧ (2 : ℚ) ^ (-511 : Int) ≤ |y.getD i 0 - pred.getD i 0|) →
      (2 : ℚ) ^ (-1022 : Int) ≤ S := by
  intro n
  induction n with
  | zero =>
    rintro S - ⟨i, hi, -⟩
    omega
  | succ n ih =>
    rintro S h ⟨i, hi, hfar⟩
    rw [sum_squared_differences] at h
    obtain ⟨s, hs, h⟩ := Option.bind_eq_some.mp h
    obtain ⟨d, hd, h⟩ := Option.bind_eq_some.mp h
    rw [double_eq_some _ _ h]
    apply zpow_le_double_round _ (by norm_num)
    by_cases hin : i = n
    · subst hin
      have := sum_squared_differences_nonneg pred y i s hs
      have := squared_difference_normal pred y i d hfar hd
      linarith
    · have := ih s hs ⟨i, by omega, hfar⟩
      have := squared_difference_nonneg pred y n d hd
      linarith

/-- C36 fails as stated: the prediction `[0]` and the target `[2 ^ -600]`, both
doubles, differ, but the square `2 ^ -1200` of their difference underflows to
zero and `loss_mse` returns 0. -/
theorem loss_mse_underflow :
    is_double 0 ∧ is_double ((2 : ℚ) ^ (-600 : Int)) ∧
    ([0] : List ℚ).getD 0 0 ≠ ([(2 : ℚ) ^ (-600 : Int)] : List ℚ).getD 0 0 ∧
    loss_mse { num_y_vars := 1 } [0] [(2 : ℚ) ^ (-600 : Int)] = some 0 := by
  have hd : double ((2 : ℚ) ^ (-600 : Int)) = some (2 ^ (-600 : Int)) :=
    is_double_zpow _ (by norm_num) (by norm_num)
  have h1 : double ((1 : Nat) : ℚ) = some ((1 : Nat) : ℚ) := is_double_natCast 1 (by norm_num)
  refine ⟨is_double_zero, hd, ?_, ?_⟩
  · simp only [List.getD_cons_zero]
    exact ne_of_lt (zpow_pos (by norm_num) _)
  · have hsq : double ((2 : ℚ) ^ (-600 : Int) * 2 ^ (-600 : Int)) = some 0 := by
      have hr : double_round ((2 : ℚ) ^ (-600 : Int) * 2 ^ (-600 : Int)) = 0 := by
        apply double_round_underflow
        · exact mul_self_nonneg _
        · rw [← zpow_add₀ (by norm_num)]
          exact (zpow_lt_zpow_iff_right₀ (by norm_num : (1 : ℚ) < 2)).mpr (by norm_num)
      rw [double_of_lt _ (by rw [hr]; norm_num), hr]
    rw [loss_mse_eq_mean]
    show mean_squared_difference 1 [0] [(2 : ℚ) ^ (-600 : Int)] = some 0
    rw [mean_squared_difference, sum_squared_differences, sum_squared_differences,
      Option.some_bind, squared_difference, List.getD_cons_zero, List.getD_cons_zero, sub_zero, hd,
      Option.some_bind, hsq, Option.some_bind, add_zero, double_zero, Option.some_bind, h1,
      Option.some_bind, double_div, if_neg (by norm_num), zero_div, double_zero]

/-- C36, amended: for `1 <= num_y_vars < 2 ^ 31`, `loss_mse(pred, y)` equals the
mean of the squared differences `(y_i - pred_i)^2` computed in double
arithmetic, is non-negative where it is finite, and equals 0 if `pred_i = y_i`
for every `i` below `num_y_vars`; a result of 0 implies `pred_i = y_i` for
every `i` provided that entries `pred_i`, `y_i` that differ are at least
`2 ^ -511` apart, so that the square of their difference does not underflow. -/
theorem loss_mse_spec (xcsf : XCSF) (pred y : List ℚ) (hn : 1 ≤ xcsf.num_y_vars)
    (hint : xcsf.num_y_vars < 2 ^ 31) :
    loss_mse xcsf pred y = mean_squared_difference xcsf.num_y_vars pred y ∧
    (∀ r, loss_mse xcsf pred y = some r → 0 ≤ r) ∧
    ((∀ i, i < xcsf.num_y_vars → pred.getD i 0 = y.getD i 0) →
      loss_mse xcsf pred y = some 0) ∧
    ((∀ i, i < xcsf.num_y_vars → pred.getD i 0 ≠ y.getD i 0 →
        (2 : ℚ) ^ (-511 : Int) ≤ |y.getD i 0 - pred.getD i 0|) →
      loss_mse xcsf pred y = some 0 → ∀ i, i < xcsf.num_y_vars → pred.getD i 0 = y.getD i 0) := by
  have hnq : (1 : ℚ) ≤ (xcsf.num_y_vars : ℚ) := by exact_mod_cast hn
  have hnpos : (0 : ℚ) < (xcsf.num_y_vars : ℚ) := by linarith
  have hn0 : (xcsf.num_y_vars : ℚ) ≠ 0 := ne_of_gt hnpos
  have hn2 : (xcsf.num_y_vars : ℚ) ≤ (2 : ℚ) ^ (31 : Int) := by
    have : (xcsf.num_y_vars : ℚ) < ((2 ^ 31 : Nat) : ℚ) := by exact_mod_cast hint
    have e : ((2 ^ 31 : Nat) : ℚ) = (2 : ℚ) ^ (31 : Int) := by norm_num
    rw [e] at this
    exact le_of_lt this
  have hcast : double (xcsf.num_y_vars : ℚ) = some (xcsf.num_y_vars : ℚ) :=
    is_double_natCast _ hint
  have hmean : ∀ r, loss_mse xcsf pred y = some r →
      ∃ S, sum_squared_differences pred y xcsf.num_y_vars = some S ∧
        r = double_round (S / (xcsf.num_y_vars : ℚ)) := by
    intro r h
    rw [loss_mse_eq_mean] at h
    unfold mean_squared_difference at h
    obtain ⟨S, hS, h⟩ := Option.bind_eq_some.mp h
    rw [hcast, Option.some_bind, double_div, if_neg hn0] at h
    exact ⟨S, hS, double_eq_some _ _ h⟩
  refine ⟨loss_mse_eq_mean xcsf pred y, ?_, ?_, ?_⟩
  · intro r h
    obtain ⟨S, hS, hr⟩ := hmean r h
    rw [hr]
    exact double_round_nonneg _
      (div_nonneg (sum_squared_differences_nonneg pred y _ S hS) (le_of_lt hnpos))
  · intro h
    rw [loss_mse_eq_mean]
    unfold mean_squared_difference
    rw [sum_squared_differences_zero pred y _ h, Option.some_bind, hcast, Option.some_bind,
      double_div, if_neg hn0, zero_div, double_zero]
  · intro hfar hzero i hi
    by_contra hne
    obtain ⟨S, hS, hr⟩ := hmean 0 hzero
    have hbig := sum_squared_differences_normal pred y xcsf.num_y_vars S hS
      ⟨i, hi, hfar i hi hne⟩
    have hquot : (2 : ℚ) ^ (-1053 : Int) ≤ S / (xcsf.num_y_vars : ℚ) := by
      have e : (2 : ℚ) ^ (-1053 : Int) = 2 ^ (-1022 : Int) / 2 ^ (31 : Int) := by
        rw [← zpow_sub₀ (by norm_num)]
        norm_num
      rw [e]
      exact div_le_div₀ (le_trans (le_of_lt (zpow_pos (by norm_num) _)) hbig) hbig hnpos hn2
    have hpos := zpow_le_double_round (-1053) (by norm_num) _ hquot
    rw [← hr] at hpos
    exact absurd hpos (not_le.mpr (zpow_pos (by norm_num) _))

/-- The statement of `loss_mse_spec` holds with two output variables: the loss
of the prediction `[1, 2]` is 0 for the target `[1, 2]`, and the loss of the
prediction `[1, 2]` for the target `[1, 4]` is not 0. -/
theorem loss_mse_spec_witness :
    loss_mse { num_y_vars := 2 } [1, 2] [1, 2] = some 0 ∧
    loss_mse { num_y_vars := 2 } [1, 2] [1, 4] ≠ some 0 :=
  ⟨(loss_mse_spec { num_y_vars := 2 } [1, 2] [1, 2] (by decide) (by norm_num)).2.2.1
      (fun _ _ => rfl),
    fun h => absurd
      ((loss_mse_spec { num_y_vars := 2 } [1, 2] [1, 4] (by decide) (by norm_num)).2.2.2
        (fun i hi hne => by
          have hi2 : i < 2 := hi
          interval_cases i
          · exact absurd rfl hne
          · simp only [List.getD_cons_succ, List.getD_cons_zero]
            rw [show |(4 : ℚ) - 2| = 2 by norm_num]
            exact le_trans ((zpow_le_zpow_iff_right₀ (by norm_num : (1 : ℚ) < 2)).mpr
              (by norm_num : (-511 : Int) ≤ 1)) (by norm_num))
        h 1 (by decide))
      (by simp)⟩

/-! ## Generality in double arithmetic -/

/-- The first loop of `cond_rect_general` where no operation rounds: entered at
index `k` with `k` times the offset range, it ends with `num_x_vars` times the
offset range. -/
theorem cond_rect_general_max_double_spec (xcsf : XCSF)
    (hR : is_double (xcsf.MAX_CON - xcsf.MIN_CON))
    (hW : is_double (xcsf.MAX_CON - xcsf.MIN_CON + 1))
    (hM : ∀ k, k ≤ xcsf.num_x_vars →
      is_double ((k : ℚ) * (xcsf.MAX_CON - xcsf.MIN_CON + 1))) :
    ∀ n k, xcsf.num_x_vars - k = n → k ≤ xcsf.num_x_vars →
      cond_rect_general_max_double xcsf ((k : ℚ) * (xcsf.MAX_CON - xcsf.MIN_CON + 1)) k
        = some ((xcsf.num_x_vars : ℚ) * (xcsf.MAX_CON - xcsf.MIN_CON + 1)) := by
  intro n
  induction n with
  | zero =>
    intro k hn hk
    have hk' : ¬ k < xcsf.num_x_vars := by omega
    have hkd : k = xcsf.num_x_vars := by omega
    rw [cond_rect_general_max_double, if_neg hk', hkd]
  | succ n ih =>
    intro k hn hk
    have hk' : k < xcsf.num_x_vars := by omega
    have e : (k : ℚ) * (xcsf.MAX_CON - xcsf.MIN_CON + 1) + (xcsf.MAX_CON - xcsf.MIN_CON + 1)
        = ((k + 1 : Nat) : ℚ) * (xcsf.MAX_CON - xcsf.MIN_CON + 1) := by
      push_cast
      ring
    have hstep : double ((k : ℚ) * (xcsf.MAX_CON - xcsf.MIN_CON + 1)
        + (xcsf.MAX_CON - xcsf.MIN_CON + 1))
        = some (((k + 1 : Nat) : ℚ) * (xcsf.MAX_CON - xcsf.MIN_CON + 1)) := by
      rw [e]
      exact hM (k + 1) (by omega)
    rw [cond_rect_general_max_double, if_pos hk', hR, Option.some_bind, hW, Option.some_bind,
      hstep, Option.some_bind]
    exact ih (k + 1) (by omega) (by omega)

/-- One pass of the second loop of `cond_rect_general` in double arithmetic,
given the results of its six operations. -/
theorem cond_rect_general_loop_double_step (i1 i2 : List ℚ) (len : Nat) (gen1 gen2 : ℚ) (i : Nat)
    (r1 w1 g1 r2 w2 g2 : ℚ) (hi : i < len)
    (hr1 : double (i1.getD (i + 1) 0 - i1.getD i 0) = some r1) (hw1 : double (r1 + 1) = some w1)
    (hg1 : double (gen1 + w1) = some g1)
    (hr2 : double (i2.getD (i + 1) 0 - i2.getD i 0) = some r2) (hw2 : double (r2 + 1) = some w2)
    (hg2 : double (gen2 + w2) = some g2) :
    cond_rect_general_loop_double i1 i2 len gen1 gen2 i
      = cond_rect_general_loop_double i1 i2 len g1 g2 (i + 2) := by
  rw [cond_rect_general_loop_double, if_pos hi, hr1, Option.some_bind, hw1, Option.some_bind, hg1,
    Option.some_bind, hr2, Option.some_bind, hw2, Option.some_bind, hg2, Option.some_bind]

/-- The second loop of `cond_rect_general` where no operation rounds: entered
at index `2 * k` with the sums of the offset widths below `k`, it ends with the
sums over all `d` dimensions. -/
theorem cond_rect_general_loop_double_spec (c1 c2 : COND_RECT) (d : Nat)
    (h1 : widths_exact c1 d) (h2 : widths_exact c2 d) :
    ∀ n k, d - k = n → k ≤ d →
      cond_rect_general_loop_double c1.interval c2.interval (d * 2)
          (summed_width c1 k + (k : ℚ)) (summed_width c2 k + (k : ℚ)) (2 * k)
        = some (summed_width c1 d + (d : ℚ), summed_width c2 d + (d : ℚ)) := by
  intro n
  induction n with
  | zero =>
    intro k hn hk
    have hk' : ¬ 2 * k < d * 2 := by omega
    have hkd : k = d := by omega
    rw [cond_rect_general_loop_double, if_neg hk', hkd]
  | succ n ih =>
    intro k hn hk
    have hk' : 2 * k < d * 2 := by omega
    have hkd : k < d := by omega
    have e2 : 2 * k + 2 = 2 * (k + 1) := by ring
    have s : ∀ c : COND_RECT, summed_width c k + (k : ℚ) + (c.upper k - c.lower k + 1)
        = summed_width c (k + 1) + ((k + 1 : Nat) : ℚ) := by
      intro c
      unfold summed_width
      rw [Finset.sum_range_succ]
      push_cast
      ring
    have hs1 : double (summed_width c1 k + (k : ℚ) + (c1.upper k - c1.lower k + 1))
        = some (summed_width c1 (k + 1) + ((k + 1 : Nat) : ℚ)) := by
      rw [s c1]
      exact h1.2 (k + 1) (by omega)
    have hs2 : double (summed_width c2 k + (k : ℚ) + (c2.upper k - c2.lower k + 1))
        = some (summed_width c2 (k + 1) + ((k + 1 : Nat) : ℚ)) := by
      rw [s c2]
      exact h2.2 (k + 1) (by omega)
    rw [cond_rect_general_loop_double_step c1.interval c2.interval (d * 2) _ _ (2 * k)
      (c1.upper k - c1.lower k) (c1.upper k - c1.lower k + 1)
      (summed_width c1 (k + 1) + ((k + 1 : Nat) : ℚ))
      (c2.upper k - c2.lower k) (c2.upper k - c2.lower k + 1)
      (summed_width c2 (k + 1) + ((k + 1 : Nat) : ℚ)) hk'
      (h1.1 k hkd).1 (h1.1 k hkd).2 hs1 (h2.1 k hkd).1 (h2.1 k hkd).2 hs2, e2]
    exact ih (k + 1) (by omega) (by omega)

/-- The result of `cond_rect_general` in double arithmetic, given the results
of its two loops and of its two divisions. -/
theorem cond_rect_general_double_of (xcsf : XCSF) (c1 c2 : CL) (max g1 g2 q1 q2 : ℚ)
    (hmax : cond_rect_general_max_double xcsf 0 0 = some max)
    (hg : cond_rect_general_loop_double c1.cond.interval c2.cond.interval
      c1.cond.interval_length 0 0 0 = some (g1, g2))
    (h0 : max ≠ 0) (hq1 : double (g1 / max) = some q1) (hq2 : double (g2 / max) = some q2) :
    cond_rect_general_double xcsf c1 c2 = if q1 > q2 then some false else some true := by
  rw [cond_rect_general_double, hmax, Option.some_bind, hg, Option.some_bind, double_div,
    if_neg h0, hq1, Option.some_bind, double_div, if_neg h0, hq2, Option.some_bind]

/-- The sum `2 ^ -54 + 1` rounds to 1. -/
theorem double_absorbs : double ((2 : ℚ) ^ (-54 : Int) + 1) = some 1 := by
  have hp : (0 : ℚ) < 2 ^ (-54 : Int) := zpow_pos (by norm_num) _
  have hlt : (2 : ℚ) ^ (-54 : Int) < 1 := by
    rw [show (1 : ℚ) = 2 ^ (0 : Int) from (zpow_zero 2).symm]
    exact (zpow_lt_zpow_iff_right₀ (by norm_num : (1 : ℚ) < 2)).mpr (by norm_num)
  have habs : |(2 : ℚ) ^ (-54 : Int) + 1| = 2 ^ (-54 : Int) + 1 := abs_of_pos (by linarith)
  have hq : ((2 : ℚ) ^ (-54 : Int) + 1) / 2 ^ ((0 : Int) - 52)
      = ((2 ^ 52 : Int) : ℚ) + 1 / 4 := by
    rw [cast_two_pow, add_div, ← zpow_sub₀ (by norm_num), one_div, ← zpow_neg]
    norm_num
  have hr : double_round ((2 : ℚ) ^ (-54 : Int) + 1) = 1 := by
    rw [double_round_normal _ 0 (by norm_num) (by rw [habs, zpow_zero]; linarith)
      (by rw [habs]; norm_num), hq,
      round_even_of_lt_half _ (2 ^ 52) (by linarith) (by linarith), cast_two_pow,
      ← zpow_add₀ (by norm_num)]
    norm_num
  rw [double_of_lt _ (by rw [hr]; norm_num), hr]

/-- The numbers 1 and 2 are doubles. -/
theorem is_double_one_two : is_double 1 ∧ is_double 2 := by
  constructor
  · simpa using is_double_zpow 0 (by norm_num) (by norm_num)
  · simpa using is_double_zpow 1 (by norm_num) (by norm_num)

end Xcsf
